import Mathlib

/-!
# Virtual-memory subsystem (Asst3), file system calls (Asst2), dining philosophers (Asst1)

A shallow embedding of `kern/vm/addrspace.c` and `kern/vm/vm.c`, of
`kern/syscall/file.c` and of `kern/asst1/dining.c`.

* `vaddr_t`, `paddr_t`, `size_t` and `uint32_t` are 32-bit unsigned: they are
  natural numbers, and every sum that can exceed 32 bits is reduced `% WORD`.
* `int` values (flags, error numbers, fault types) are integers.
* The linked list of regions is a `List region` (the head of the list is the
  head of the chain).
* The two-level page table is a function from the first index to an optional
  second-level table (`none` is the `NULL` pointer).
* The kernel services the code calls (`alloc_kpages`, `free_kpages`, `kmalloc`,
  `kfree`, `tlb_random`, `bzero`, `memmove`) act on a `Machine`; the results of
  the two allocators are read from oracles, so that every behaviour of the
  external allocators is covered.
* Locks are not modelled: the embedding is sequential, `lock_acquire` and
  `lock_release` do nothing.
* The descriptor table of the current process and the open-file table are
  functions from the index; the VFS layer is a record of result functions.
* A critical section of the dining philosophers, between `P(key)` and `V(key)`,
  is one step.
-/

namespace OS161

/-! ## Constants -/

/-- Number of values of a 32-bit word. -/
def WORD : Nat := 4294967296

/-- Modelled from the spec: the macro `PAGE_SIZE` of `mips/vm.h`, a header that is
not among the sources; pages have 4 KiB. -/
def PAGE_SIZE : Nat := 4096

/-- Modelled from the spec: the macro `PAGE_FRAME` of `mips/vm.h`, a header that is
not among the sources; the mask that clears the 12 bits of the in-page offset. -/
def PAGE_FRAME : Nat := 0xfffff000

/-- Modelled from the spec: the macro `MIPS_KSEG0` of `mips/vm.h`, a header that is
not among the sources; the user address ceiling, the first address above user
space. -/
def MIPS_KSEG0 : Nat := 0x80000000

/-- Modelled from the spec: the macro `PAGETABLE_SIZE` of `addrspace.h`, a header
that is not among the sources; each level of the page table has 1024 entries. -/
def PAGETABLE_SIZE : Nat := 1024

/-- Modelled from the spec: the macro `EMPTY` of `addrspace.h`, a header that is
not among the sources; the word of a page-table entry that maps nothing. -/
def EMPTY : Nat := 0

/-- Modelled from the spec: the macro `TLBLO_DIRTY` of `mips/tlb.h`, a header that
is not among the sources; the DIRTY (write-enable) flag of an entry, one bit of
the in-page offset. -/
def TLBLO_DIRTY : Nat := 0x400

/-- Modelled from the spec: the macro `TLBLO_VALID` of `mips/tlb.h`, a header that
is not among the sources; the VALID flag of an entry, another bit of the
in-page offset. -/
def TLBLO_VALID : Nat := 0x200

/-- Modelled from the spec: the error number `ENOMEM` of `kern/errno.h`, a header
that is not among the sources; out of memory. -/
def ENOMEM : Int := 3

/-- Modelled from the spec: the error number `EFAULT` of `kern/errno.h`, a header
that is not among the sources; bad memory reference. -/
def EFAULT : Int := 6

/-- Modelled from the spec: the error number `EINVAL` of `kern/errno.h`, a header
that is not among the sources; invalid argument. -/
def EINVAL : Int := 8

/-- Modelled from the spec: the error number `EPERM` of `kern/errno.h`, a header
that is not among the sources; operation not permitted. -/
def EPERM : Int := 9

/-- Modelled from the spec: the fault kind `VM_FAULT_READ` of `vm.h`, a header that
is not among the sources; a read was attempted. -/
def VM_FAULT_READ : Int := 0

/-- Modelled from the spec: the fault kind `VM_FAULT_WRITE` of `vm.h`, a header
that is not among the sources; a write was attempted. -/
def VM_FAULT_WRITE : Int := 1

/-- Modelled from the spec: the fault kind `VM_FAULT_READONLY` of `vm.h`, a header
that is not among the sources; a write to a read-only page was attempted. -/
def VM_FAULT_READONLY : Int := 2

/-- Modelled from the spec: the macro `PADDR_TO_KVADDR` of `mips/vm.h`, a header
that is not among the sources; the kernel address of a physical address,
`paddr + MIPS_KSEG0` in 32 bits. -/
def PADDR_TO_KVADDR (paddr : Nat) : Nat := (paddr + MIPS_KSEG0) % WORD

/-- Modelled from the spec: the macro `KVADDR_TO_PADDR` of `mips/vm.h`, a header
that is not among the sources; the physical address of a kernel address,
`kvaddr - MIPS_KSEG0` in 32 bits. -/
def KVADDR_TO_PADDR (kvaddr : Nat) : Nat := (kvaddr + (WORD - MIPS_KSEG0)) % WORD

/-! ## Data model -/

/-- Modelled from the spec: the record `struct region` of `addrspace.h`, a header
that is not among the sources, with the fields that the code reads and writes,
without its `next` pointer. -/
structure region where
  base_addr : Nat
  memsize : Nat
  readable : Int
  writeable : Int
  old_writeable : Int
  executable : Int
deriving DecidableEq, Repr

/-- Modelled from the spec: the record `struct addrspace` of `addrspace.h`, a header
that is not among the sources, with the fields that the code reads and writes.
`head` is the chain of regions, `pagetable` the top-level table (`none` for a
`NULL` second-level pointer), `pt_lock` tells whether `lock_create` returned a
lock. The top-level pointer itself is never `NULL` in an address space made by
`as_create`, so the tests `pagetable == NULL` of `probe_pt` and `vm_fault` have
no counterpart. -/
structure addrspace where
  head : List region
  pagetable : Nat → Option (Nat → Nat)
  pt_lock : Bool

/-- What a call of `kfree` released. -/
inductive KObject where
  | as_record
  | top_table
  | second_table (i : Nat)
  | region_record (r : region)
deriving DecidableEq, Repr

/-- The state of the kernel services around the subsystem.
* `frames`: the results of the coming calls of `alloc_kpages(1)`, in order
  (no result left, or the result 0, is a failed allocation);
* `heap`: the results of the coming calls of `kmalloc`, in order: `none` is
  `NULL`, `some g` a block whose uninitialised words read `g`;
* `mem`: the bytes of memory, by kernel virtual address;
* `tlb`: the entries written with `tlb_random` since the TLB was last
  invalidated, the latest first;
* `released`: the arguments of the calls of `free_kpages`, the latest first;
* `kfreed`: the blocks given to `kfree`, the latest first. -/
structure Machine where
  frames : List Nat
  heap : List (Option Nat)
  mem : Nat → Nat
  tlb : List (Nat × Nat)
  released : List Nat
  kfreed : List KObject

/-! ## Kernel services -/

/-- Modelled from the spec: one call of `kmalloc`, a kernel service that is not
among the sources; it gives the next result of the oracle. -/
def kmalloc (m : Machine) : Option Nat × Machine :=
  match m.heap with
  | [] => (none, m)
  | h :: t => (h, { m with heap := t })

/-- Modelled from the spec: one call of `kfree`, a kernel service that is not among
the sources; the block is recorded. -/
def kfree (o : KObject) (m : Machine) : Machine :=
  { m with kfreed := o :: m.kfreed }

/-- Modelled from the spec: one call of `alloc_kpages(1)`, the frame allocator,
which is not among the sources; it gives the next frame of the oracle, 0 when
no frame is available. -/
def alloc_kpages (m : Machine) : Nat × Machine :=
  match m.frames with
  | [] => (0, m)
  | f :: t => (f, { m with frames := t })

/-- Modelled from the spec: one call of `free_kpages`, the release of a frame to
the frame allocator, which is not among the sources; the address is recorded. -/
def free_kpages (addr : Nat) (m : Machine) : Machine :=
  { m with released := addr :: m.released }

/-- Modelled from the spec: the library call `bzero(dst, n)`, which is not among the
sources; `n` bytes from `dst` become 0. -/
def bzero (dst n : Nat) (m : Machine) : Machine :=
  { m with mem := fun a => if dst ≤ a ∧ a < dst + n then 0 else m.mem a }

/-- Modelled from the spec: the library call `memmove(dst, src, n)`, which is not
among the sources; `n` bytes are copied, all read before any is written. -/
def memmove (dst src n : Nat) (m : Machine) : Machine :=
  { m with mem := fun a => if dst ≤ a ∧ a < dst + n then m.mem (src + (a - dst)) else m.mem a }

/-- The function `load_tlb` of `vm.c`: one call of `tlb_random`, the hardware write
of an entry into a slot of the TLB, recorded in `tlb`. -/
def load_tlb (entryhi entrylo : Nat) (m : Machine) : Machine :=
  { m with tlb := (entryhi, entrylo) :: m.tlb }

/-! ## Regions (`addrspace.c`) -/

/-- The loop of `region_valid` over the chain of regions. -/
def region_valid_loop (vaddr memsize : Nat) : List region → Int
  | [] => 0
  | curr :: rest =>
    if curr.base_addr ≤ vaddr ∧ (curr.base_addr + curr.memsize) % WORD > vaddr then EINVAL
    else if curr.base_addr ≤ (vaddr + memsize) % WORD ∧
        (curr.base_addr + curr.memsize) % WORD > (vaddr + memsize) % WORD then EINVAL
    else if vaddr ≤ curr.base_addr ∧ (vaddr + memsize) % WORD > curr.base_addr then EINVAL
    else if vaddr ≤ (curr.base_addr + curr.memsize) % WORD ∧
        (vaddr + memsize) % WORD > (curr.base_addr + curr.memsize) % WORD then EINVAL
    else region_valid_loop vaddr memsize rest

/-- The function `region_valid`: the region must end within kuseg and must not
touch a region of the address space. -/
def region_valid (as : addrspace) (vaddr memsize : Nat) : Int :=
  if (vaddr + memsize) % WORD > MIPS_KSEG0 then EFAULT
  else region_valid_loop vaddr memsize as.head

/-- The function `region_create`: `old_writeable` is left as `kmalloc` gave it. -/
def region_create (vaddr memsize : Nat) (readable writeable executable : Int)
    (m : Machine) : Option region × Machine :=
  match kmalloc m with
  | (none, m1) => (none, m1)
  | (some g, m1) =>
    (some { base_addr := vaddr, memsize := memsize, readable := readable,
            writeable := writeable, old_writeable := (g : Int),
            executable := executable }, m1)

/-- The function `region_insert`: the new region becomes the head. -/
def region_insert (as : addrspace) (new : region) : addrspace :=
  { as with head := new :: as.head }

/-- The function `region_copy`. -/
def region_copy (old : region) : region :=
  { base_addr := old.base_addr, memsize := old.memsize, readable := old.readable,
    writeable := old.writeable, old_writeable := old.old_writeable,
    executable := old.executable }

/-- The base of the region that `as_define_region` defines: `vaddr & PAGE_FRAME`. -/
def region_base (vaddr : Nat) : Nat := vaddr &&& PAGE_FRAME

/-- The length of the region that `as_define_region` defines: `memsize` plus the
offset of `vaddr` in its page, rounded up to a page, all in 32 bits. -/
def region_length (vaddr memsize : Nat) : Nat :=
  (((memsize + (vaddr &&& (WORD - 1 - PAGE_FRAME))) % WORD + PAGE_SIZE - 1) % WORD) &&& PAGE_FRAME

/-- The function `as_define_region`. -/
def as_define_region (as : addrspace) (vaddr memsize : Nat)
    (readable writeable executable : Int) (m : Machine) : Int × addrspace × Machine :=
  let memsize1 := region_length vaddr memsize
  let vaddr1 := region_base vaddr
  let result := region_valid as vaddr1 memsize1
  if result ≠ 0 then (result, as, m)
  else
    match region_create vaddr1 memsize1 readable writeable executable m with
    | (none, m1) => (ENOMEM, as, m1)
    | (some new, m1) => (0, region_insert as new, m1)

/-- The test of `get_region` and `lookup_region`: the address lies in the region. -/
def region_holds (curr : region) (vaddr : Nat) : Prop :=
  vaddr ≥ curr.base_addr ∧ vaddr < (curr.base_addr + curr.memsize) % WORD

instance (curr : region) (vaddr : Nat) : Decidable (region_holds curr vaddr) := by
  unfold region_holds; infer_instance

/-- The loop of `get_region`: the first region of the chain holding the address. -/
def get_region_loop (vaddr : Nat) : List region → Option region
  | [] => none
  | curr :: rest => if region_holds curr vaddr then some curr else get_region_loop vaddr rest

/-- The function `get_region` of `vm.c`. -/
def get_region (as : addrspace) (vaddr : Nat) : Option region :=
  get_region_loop vaddr as.head

/-- The function `lookup_region` of `vm.c`: finds the first region holding the
address and checks the fault type against its flags. -/
def lookup_region (as : addrspace) (vaddr : Nat) (faulttype : Int) : Int :=
  match get_region_loop vaddr as.head with
  | none => EFAULT
  | some curr =>
    if faulttype = VM_FAULT_WRITE then
      if curr.writeable = 0 then EPERM else 0
    else if faulttype = VM_FAULT_READ then
      if curr.readable = 0 then EPERM else 0
    else EINVAL

/-! ## Page table (`vm.c`) -/

/-- The function `get_first_10_bits`: `addr >> 22`. -/
def get_first_10_bits (addr : Nat) : Nat := addr >>> 22

/-- The function `get_middle_10_bits`: `(addr << 10) >> 22` in 32 bits. -/
def get_middle_10_bits (addr : Nat) : Nat := ((addr <<< 10) % WORD) >>> 22

/-- The word `pagetable[i][j]` when the second-level table `i` is allocated. -/
def pt_entry (pt : Nat → Option (Nat → Nat)) (i j : Nat) : Option Nat :=
  (pt i).map (fun t => t j)

/-- The function `insert_pt`. -/
def insert_pt (as : addrspace) (vaddr paddr : Nat) (m : Machine) :
    Int × addrspace × Machine :=
  let pd_bits := get_first_10_bits vaddr
  let pt_bits := get_middle_10_bits vaddr
  if pd_bits ≥ PAGETABLE_SIZE ∨ pt_bits ≥ PAGETABLE_SIZE then (EFAULT, as, m)
  else
    match as.pagetable pd_bits with
    | none =>
      match kmalloc m with
      | (none, m1) => (ENOMEM, as, m1)
      | (some _, m1) =>
        let t1 : Nat → Nat := Function.update (fun _ => EMPTY) pt_bits paddr
        (0, { as with pagetable := Function.update as.pagetable pd_bits (some t1) }, m1)
    | some t =>
      if t pt_bits ≠ EMPTY then (EFAULT, as, m)
      else
        let t1 : Nat → Nat := Function.update t pt_bits paddr
        (0, { as with pagetable := Function.update as.pagetable pd_bits (some t1) }, m)

/-- The function `probe_pt`: 0 when an entry is there, -1 when not. -/
def probe_pt (as : addrspace) (vaddr : Nat) : Int :=
  let pd_bits := get_first_10_bits vaddr
  let pt_bits := get_middle_10_bits vaddr
  if pd_bits ≥ PAGETABLE_SIZE ∨ pt_bits ≥ PAGETABLE_SIZE then -1
  else
    match as.pagetable pd_bits with
    | none => -1
    | some t => if t pt_bits = EMPTY then -1 else 0

/-- The function `alloc_frame`: one frame from `alloc_kpages`, zero-filled. -/
def alloc_frame (_as : addrspace) (_vaddr : Nat) (m : Machine) : Nat × Machine :=
  match alloc_kpages m with
  | (newVaddr, m1) =>
    if newVaddr = 0 then (0, m1) else (newVaddr, bzero newVaddr PAGE_SIZE m1)

/-! ## The fault handler (`vm.c`) -/

/-- The function `vm_fault`. `cur` is the address space of the current process
(`none` when there is no process or it has no address space). The result is
`none` when the handler dereferences a `NULL` pointer, and otherwise the value
returned, the address space afterwards and the machine afterwards. -/
def vm_fault (cur : Option addrspace) (faulttype : Int) (faultaddress : Nat)
    (m : Machine) : Option (Int × Option addrspace × Machine) :=
  if faulttype = VM_FAULT_READONLY then some (EFAULT, cur, m)
  else if ¬ (faulttype = VM_FAULT_WRITE ∨ faulttype = VM_FAULT_READ) then some (EINVAL, cur, m)
  else
    match cur with
    | none => some (EFAULT, none, m)
    | some as =>
      let pd_bits := get_first_10_bits faultaddress
      let pt_bits := get_middle_10_bits faultaddress
      if probe_pt as faultaddress = 0 then
        if lookup_region as faultaddress faulttype = 0 then
          match pt_entry as.pagetable pd_bits pt_bits with
          | none => none
          | some e => some (0, some as, load_tlb (faultaddress &&& PAGE_FRAME) e m)
        else some (EFAULT, some as, m)
      else
        let result := lookup_region as faultaddress faulttype
        if result ≠ 0 then some (result, some as, m)
        else
          match alloc_frame as faultaddress m with
          | (newVaddr, m1) =>
            if newVaddr = 0 then some (ENOMEM, some as, m1)
            else
              let paddr := KVADDR_TO_PADDR newVaddr &&& PAGE_FRAME
              match get_region as faultaddress with
              | none => none
              | some region =>
                let paddr1 := if region.writeable ≠ 0 then paddr ||| TLBLO_DIRTY else paddr
                match insert_pt as faultaddress (paddr1 ||| TLBLO_VALID) m1 with
                | (result1, as1, m2) =>
                  if result1 ≠ 0 then some (ENOMEM, some as1, m2)
                  else
                    match pt_entry as1.pagetable pd_bits pt_bits with
                    | none => none
                    | some e =>
                      some (0, some as1, load_tlb (faultaddress &&& PAGE_FRAME) e m2)

/-! ## Address-space life cycle (`addrspace.c`) -/

/-- Modelled from the spec: the function `lock_create` of `synch.c`, a file that
is not among the sources; it allocates the lock with `kmalloc` and gives no
lock when that fails. The result tells whether a lock was made. -/
def lock_create (m : Machine) : Bool × Machine :=
  match kmalloc m with
  | (none, m1) => (false, m1)
  | (some _, m1) => (true, m1)

/-- The function `as_create`: the record, the top-level table with every
pointer `NULL`, and the lock (whose creation is not checked). -/
def as_create (m : Machine) : Option addrspace × Machine :=
  match kmalloc m with
  | (none, m1) => (none, m1)
  | (some _, m1) =>
    match kmalloc m1 with
    | (none, m2) => (none, kfree KObject.as_record m2)
    | (some _, m2) =>
      match lock_create m2 with
      | (lk, m3) => (some { head := [], pagetable := fun _ => none, pt_lock := lk }, m3)

/-- The function `regions_cleanup`: every region record is freed, head first. -/
def regions_cleanup : List region → Machine → Machine
  | [], m => m
  | temp :: rest, m => regions_cleanup rest (kfree (KObject.region_record temp) m)

/-- The inner loop of `as_destroy` over `j`, from `j` for `n` entries: every
entry that is not `EMPTY` gives its frame back. -/
def as_destroy_row (t : Nat → Nat) : Nat → Nat → Machine → Machine
  | 0, _, m => m
  | n + 1, j, m =>
    if t j ≠ EMPTY then
      as_destroy_row t n (j + 1) (free_kpages (PADDR_TO_KVADDR (t j) &&& PAGE_FRAME) m)
    else as_destroy_row t n (j + 1) m

/-- The outer loop of `as_destroy` over `i`, from `i` for `n` tables. -/
def as_destroy_tables (pt : Nat → Option (Nat → Nat)) : Nat → Nat → Machine → Machine
  | 0, _, m => m
  | n + 1, i, m =>
    match pt i with
    | some t =>
      as_destroy_tables pt n (i + 1)
        (kfree (KObject.second_table i) (as_destroy_row t PAGETABLE_SIZE 0 m))
    | none => as_destroy_tables pt n (i + 1) m

/-- The function `as_destroy`. -/
def as_destroy (as : addrspace) (m : Machine) : Machine :=
  let m1 := as_destroy_tables as.pagetable PAGETABLE_SIZE 0 m
  let m2 := kfree KObject.top_table m1
  let m3 := regions_cleanup as.head m2
  kfree KObject.as_record m3

/-- The loop of `as_copy` over the regions of the source: each region is copied
into a fresh record that is linked after the last one. The result is the
regions of the destination and whether every record could be allocated. -/
def as_copy_regions : List region → List region → Machine → Bool × List region × Machine
  | [], new_head, m => (true, new_head, m)
  | old_curr :: rest, new_head, m =>
    match kmalloc m with
    | (none, m1) => (false, new_head, m1)
    | (some _, m1) => as_copy_regions rest (new_head ++ [region_copy old_curr]) m1

/-- The inner loop of `pt_copy` over `j`, from `j` for `n` entries of one
second-level table. -/
def pt_copy_row (old_as : addrspace) (old_t : Nat → Nat) :
    Nat → Nat → (Nat → Nat) → Machine → Int × (Nat → Nat) × Machine
  | 0, _, new_t, m => (0, new_t, m)
  | n + 1, j, new_t, m =>
    if old_t j ≠ EMPTY then
      match alloc_frame old_as (PADDR_TO_KVADDR (old_t j)) m with
      | (frame_vaddr, m1) =>
        if frame_vaddr = 0 then (ENOMEM, new_t, m1)
        else
          let m2 := memmove frame_vaddr (PADDR_TO_KVADDR (old_t j &&& PAGE_FRAME)) PAGE_SIZE m1
          let e := KVADDR_TO_PADDR frame_vaddr &&& PAGE_FRAME
          let e1 := e ||| (TLBLO_DIRTY &&& old_t j) ||| (TLBLO_VALID &&& old_t j)
          pt_copy_row old_as old_t n (j + 1) (Function.update new_t j e1) m2
    else pt_copy_row old_as old_t n (j + 1) (Function.update new_t j EMPTY) m

/-- The outer loop of `pt_copy` over `i`, from `i` for `n` top-level entries.
A second-level table fresh from `kmalloc` reads the oracle's word everywhere. -/
def pt_copy_tables (old_as : addrspace) (old_pt : Nat → Option (Nat → Nat)) :
    Nat → Nat → (Nat → Option (Nat → Nat)) → Machine →
      Int × (Nat → Option (Nat → Nat)) × Machine
  | 0, _, new_pt, m => (0, new_pt, m)
  | n + 1, i, new_pt, m =>
    match old_pt i with
    | some old_t =>
      match kmalloc m with
      | (none, m1) => (ENOMEM, Function.update new_pt i none, m1)
      | (some g, m1) =>
        match pt_copy_row old_as old_t PAGETABLE_SIZE 0 (fun _ => g) m1 with
        | (r, new_t, m2) =>
          if r ≠ 0 then (ENOMEM, Function.update new_pt i (some new_t), m2)
          else pt_copy_tables old_as old_pt n (i + 1) (Function.update new_pt i (some new_t)) m2
    | none => pt_copy_tables old_as old_pt n (i + 1) (Function.update new_pt i none) m

/-- The function `pt_copy`. -/
def pt_copy (old_as : addrspace) (old_pt new_pt : Nat → Option (Nat → Nat)) (m : Machine) :
    Int × (Nat → Option (Nat → Nat)) × Machine :=
  pt_copy_tables old_as old_pt PAGETABLE_SIZE 0 new_pt m

/-- The function `as_copy`: the value returned, the address space stored in
`*ret` (if any) and the machine afterwards. The source is only read. -/
def as_copy (old : Option addrspace) (m : Machine) : Int × Option addrspace × Machine :=
  match old with
  | none => (EINVAL, none, m)
  | some old =>
    match as_create m with
    | (none, m1) => (ENOMEM, none, m1)
    | (some newas, m1) =>
      match as_copy_regions old.head newas.head m1 with
      | (false, new_head, m2) => (ENOMEM, none, as_destroy { newas with head := new_head } m2)
      | (true, new_head, m2) =>
        match pt_copy old old.pagetable newas.pagetable m2 with
        | (r, new_pt, m3) =>
          if r ≠ 0 then
            (ENOMEM, none, as_destroy { newas with head := new_head, pagetable := new_pt } m3)
          else (0, some { newas with head := new_head, pagetable := new_pt }, m3)

/-- The loop of `as_prepare_load` over the chain of regions: the write flag is
saved and then set. -/
def as_prepare_load_loop : List region → List region
  | [] => []
  | curr :: rest =>
    { curr with old_writeable := curr.writeable, writeable := 1 } :: as_prepare_load_loop rest

/-- The function `as_prepare_load`: the value returned and the address space
afterwards. -/
def as_prepare_load (as : addrspace) : Int × addrspace :=
  (0, { as with head := as_prepare_load_loop as.head })

/-- The function `as_activate`. `cur` is the address space of the current
process, the result of `proc_getas()`: without one nothing is done, with one
every slot of the TLB is overwritten with an invalid entry, so that no entry
written before remains. -/
def as_activate (cur : Option addrspace) (m : Machine) : Machine :=
  match cur with
  | none => m
  | some _ => { m with tlb := [] }

/-- The function `as_deactivate`. -/
def as_deactivate (cur : Option addrspace) (m : Machine) : Machine :=
  as_activate cur m

/-- The inner loop of `as_complete_load` over `j`, from `j` for `n` entries of
the second-level table `i`: an entry that is not `EMPTY` and whose page lies in
a region with `old_writeable == 0` keeps its frame and becomes valid and clean.
The result is `none` when `get_region` gives `NULL`, which the code
dereferences. -/
def as_complete_load_row (as : addrspace) (i : Nat) :
    Nat → Nat → (Nat → Nat) → Option (Nat → Nat)
  | 0, _, t => some t
  | n + 1, j, t =>
    if t j ≠ EMPTY then
      let pd_bits := (i <<< 22) % WORD
      let pt_bits := (j <<< 12) % WORD
      let vaddr := pd_bits ||| pt_bits
      match get_region as vaddr with
      | none => none
      | some region =>
        if region.old_writeable = 0 then
          as_complete_load_row as i n (j + 1)
            (Function.update t j ((t j &&& PAGE_FRAME) ||| TLBLO_VALID))
        else as_complete_load_row as i n (j + 1) t
    else as_complete_load_row as i n (j + 1) t

/-- The outer loop of `as_complete_load` over `i`, from `i` for `n` top-level
entries. -/
def as_complete_load_tables (as : addrspace) :
    Nat → Nat → (Nat → Option (Nat → Nat)) → Option (Nat → Option (Nat → Nat))
  | 0, _, pt => some pt
  | n + 1, i, pt =>
    match pt i with
    | some t =>
      match as_complete_load_row as i PAGETABLE_SIZE 0 t with
      | none => none
      | some t1 => as_complete_load_tables as n (i + 1) (Function.update pt i (some t1))
    | none => as_complete_load_tables as n (i + 1) pt

/-- The second loop of `as_complete_load` over the chain of regions: the write
flag is restored. -/
def as_complete_load_loop : List region → List region
  | [] => []
  | curr :: rest => { curr with writeable := curr.old_writeable } :: as_complete_load_loop rest

/-- The function `as_complete_load`. `cur` is the address space of the current
process, which `as_activate` asks for. The result is `none` when a `NULL`
region is dereferenced, and otherwise the value returned, the address space
afterwards and the machine afterwards. -/
def as_complete_load (cur : Option addrspace) (as : addrspace) (m : Machine) :
    Option (Int × addrspace × Machine) :=
  let m1 := as_activate cur m
  match as_complete_load_tables as PAGETABLE_SIZE 0 as.pagetable with
  | none => none
  | some pt => some (0, { as with head := as_complete_load_loop as.head, pagetable := pt }, m1)

/-! ## Notions used in the statements -/

/-- The word that `vm_fault` stores for a first touch. -/
def fault_entry (frame_vaddr : Nat) (writeable : Int) : Nat :=
  (if writeable ≠ 0 then (KVADDR_TO_PADDR frame_vaddr &&& PAGE_FRAME) ||| TLBLO_DIRTY
    else KVADDR_TO_PADDR frame_vaddr &&& PAGE_FRAME) ||| TLBLO_VALID

/-- The machine after a successful first touch. -/
def fault_machine (m : Machine) (fs : List Nat) (hs : List (Option Nat)) (f a e : Nat) : Machine :=
  { frames := fs, heap := hs,
    mem := fun x => if f ≤ x ∧ x < f + PAGE_SIZE then 0 else m.mem x,
    tlb := (a &&& PAGE_FRAME, e) :: m.tlb, released := m.released, kfreed := m.kfreed }

/-- The word that `pt_copy` stores for a source entry `o` copied into the frame
at kernel address `frame_vaddr`. -/
def copy_entry (frame_vaddr o : Nat) : Nat :=
  (KVADDR_TO_PADDR frame_vaddr &&& PAGE_FRAME) ||| (TLBLO_DIRTY &&& o) ||| (TLBLO_VALID &&& o)

/-- The kernel address of the frame of a page-table entry. -/
def entry_frame (e : Nat) : Nat := PADDR_TO_KVADDR (e &&& PAGE_FRAME)

/-- The byte at `x` lies in the frame at kernel address `f`. -/
def in_frame (f x : Nat) : Prop := f ≤ x ∧ x < f + PAGE_SIZE

/-- The frames in store are page-aligned, pairwise different and none of them
is a frame in `S`. -/
def frames_fresh (S : Nat → Prop) (l : List Nat) : Prop :=
  (∀ f ∈ l, f % PAGE_SIZE = 0) ∧ l.Nodup ∧ (∀ f ∈ l, ¬ S f)

/-- The frames that the page table maps: `S` of the source of a copy. -/
def mapped_frame (pt : Nat → Option (Nat → Nat)) (s : Nat) : Prop :=
  ∃ i j t, i < PAGETABLE_SIZE ∧ j < PAGETABLE_SIZE ∧ pt i = some t ∧ t j ≠ EMPTY ∧
    s = entry_frame (t j)

/-! ## Example states -/

/-- A machine with two free frames and two successful allocations in store. -/
def machine_one : Machine :=
  { frames := [0x80010000, 0x80011000], heap := [some 7, some 0], mem := fun _ => 5,
    tlb := [], released := [], kfreed := [] }

/-- An address space with the single region `[0x2000, 0x3000)`. -/
def as_one : addrspace :=
  { head := [⟨0x2000, 0x1000, 1, 1, 0, 0⟩], pagetable := fun _ => none, pt_lock := true }

/-- A page table with the single entry `0x10200` (frame `0x10000`, valid, clean)
for the page `0x1000`. -/
def pt_one_page : Nat → Option (Nat → Nat) :=
  fun i => if i = 0 then some (fun j => if j = 1 then 0x10200 else EMPTY) else none

/-- An address space with the read-only region `[0x1000, 0x3000)` whose first
page is mapped and whose second page is not. -/
def as_readonly : addrspace :=
  { head := [⟨0x1000, 0x2000, 1, 0, 0, 0⟩], pagetable := pt_one_page, pt_lock := true }

/-- An address space with the readable and writable region `[0x1000, 0x3000)`
and no page mapped. -/
def as_rw : addrspace :=
  { head := [⟨0x1000, 0x2000, 1, 1, 0, 0⟩], pagetable := fun _ => none, pt_lock := true }

/-- A machine with one free frame and a `kmalloc` that fails. -/
def machine_no_heap : Machine :=
  { frames := [0x80010000], heap := [], mem := fun _ => 5, tlb := [], released := [],
    kfreed := [] }

/-- A machine with two free frames away from frame `0x10000` and six successful
allocations in store. -/
def machine_copy : Machine :=
  { frames := [0x80020000, 0x80021000],
    heap := [some 0, some 0, some 0, some 0, some 9, some 0],
    mem := fun x => x % 251, tlb := [], released := [], kfreed := [] }

/-- The entries of a second-level table that are not `EMPTY`, by rising index. -/
def mapped_in_table (t : Nat → Nat) : List Nat :=
  ((List.range PAGETABLE_SIZE).map t).filter (fun e => e ≠ EMPTY)

/-- The entries of a page table that are not `EMPTY`, in the order of the two
indices. -/
def mapped_entries (pt : Nat → Option (Nat → Nat)) : List Nat :=
  ((List.range PAGETABLE_SIZE).map (fun i =>
    match pt i with
    | some t => mapped_in_table t
    | none => [])).flatten

/-- The indices of the second-level tables that are allocated, rising. -/
def allocated_tables (pt : Nat → Option (Nat → Nat)) : List Nat :=
  (List.range PAGETABLE_SIZE).filter (fun i => (pt i).isSome)

/-- The argument that `as_destroy` gives to `free_kpages` for an entry. -/
def released_frame (e : Nat) : Nat := PADDR_TO_KVADDR e &&& PAGE_FRAME

/-- A page table with the entries `0x10600` and `0x11600` (frames `0x10000` and
`0x11000`, valid, dirty) for the pages `0x1000` and `0x2000`. -/
def pt_two_pages : Nat → Option (Nat → Nat) :=
  fun i =>
    if i = 0 then some (fun j => if j = 1 then 0x10600 else if j = 2 then 0x11600 else EMPTY)
    else none

/-- An address space with the writable region `[0x1000, 0x3000)`, both pages
mapped. -/
def as_two_pages : addrspace :=
  { head := [⟨0x1000, 0x2000, 1, 1, 0, 0⟩], pagetable := pt_two_pages, pt_lock := true }

/-- A machine with a single free frame, in which `kmalloc` succeeds five times
and the block of the fifth call, the second-level table of a copy, reads
`0x3000` in every word that was not written. -/
def machine_one_frame : Machine :=
  { frames := [0x80020000], heap := [some 0, some 0, some 0, some 0, some 0x3000],
    mem := fun _ => 0, tlb := [], released := [], kfreed := [] }

/-- The address of the page of the entry `j` of the second-level table `i`, as
`as_complete_load` rebuilds it: `(i << 22) | (j << 12)`. -/
def page_vaddr (i j : Nat) : Nat := ((i <<< 22) % WORD) ||| ((j <<< 12) % WORD)

/-- Every mapped page lies in a region: for every entry that is not `EMPTY`,
`get_region` finds a region at the address of its page. -/
def pages_in_regions (as : addrspace) : Prop :=
  ∀ i j t, i < PAGETABLE_SIZE → j < PAGETABLE_SIZE → as.pagetable i = some t →
    t j ≠ EMPTY → ∃ r, get_region as (page_vaddr i j) = some r

/-- The word that `as_complete_load` leaves in the entry `j` of the table `i`
that held `e`. -/
def protect_entry (as : addrspace) (i j e : Nat) : Nat :=
  if e ≠ EMPTY then
    match get_region as (page_vaddr i j) with
    | some r => if r.old_writeable = 0 then (e &&& PAGE_FRAME) ||| TLBLO_VALID else e
    | none => e
  else e

/-- The page table that `as_complete_load` leaves. -/
def protected_table (as : addrspace) : Nat → Option (Nat → Nat) :=
  fun i =>
    if i < PAGETABLE_SIZE then
      (as.pagetable i).map (fun t j => if j < PAGETABLE_SIZE then protect_entry as i j (t j) else t j)
    else as.pagetable i

/-- The address spaces that the subsystem can produce: what `as_create` makes,
and what `as_define_region` (whether it succeeds or fails), `as_prepare_load`,
`as_complete_load`, `vm_fault` and a successful `as_copy` make of one of them,
with any state of the kernel services. -/
inductive reachable : addrspace → Prop where
  | create (m m1 : Machine) (as : addrspace) :
      as_create m = (some as, m1) → reachable as
  | define (as : addrspace) (vaddr memsize : Nat) (readable writeable executable : Int)
      (m : Machine) :
      reachable as →
      reachable (as_define_region as vaddr memsize readable writeable executable m).2.1
  | prepare (as : addrspace) : reachable as → reachable (as_prepare_load as).2
  | complete (cur : Option addrspace) (as : addrspace) (m : Machine) (r : Int)
      (as1 : addrspace) (m1 : Machine) :
      reachable as → as_complete_load cur as m = some (r, as1, m1) → reachable as1
  | fault (as : addrspace) (faulttype : Int) (faultaddress : Nat) (m : Machine) (r : Int)
      (as1 : addrspace) (m1 : Machine) :
      reachable as → vm_fault (some as) faulttype faultaddress m = some (r, some as1, m1) →
      reachable as1
  | copy (as : addrspace) (m : Machine) (as1 : addrspace) (m1 : Machine) :
      reachable as → as_copy (some as) m = (0, some as1, m1) → reachable as1

/-- No address lies in two regions of the list. -/
def regions_disjoint (l : List region) : Prop :=
  l.Pairwise (fun r1 r2 => ∀ a, ¬ (region_holds r1 a ∧ region_holds r2 a))

/-- The address space that `as_create` makes: no region, no second-level table. -/
def as_empty : addrspace := { head := [], pagetable := fun _ => none, pt_lock := true }

/-- Every entry of the page table that is not `EMPTY` has `TLBLO_VALID` set. -/
def entries_valid (as : addrspace) : Prop :=
  ∀ i j t, i < PAGETABLE_SIZE → j < PAGETABLE_SIZE → as.pagetable i = some t →
    t j ≠ EMPTY → t j &&& TLBLO_VALID = TLBLO_VALID

/-- Every region has a page-aligned base and a page-aligned length. -/
def regions_aligned (as : addrspace) : Prop :=
  ∀ r ∈ as.head, r.base_addr % PAGE_SIZE = 0 ∧ r.memsize % PAGE_SIZE = 0

/-- The address space with the word `p` in the entry `j` of the second-level
table `i`, which was the table `t`. -/
def with_entry (as : addrspace) (i j : Nat) (t : Nat → Nat) (p : Nat) : addrspace :=
  { as with pagetable := Function.update as.pagetable i (some (Function.update t j p)) }

/-- The address space made by `as_create`, then `as_define_region` of
`[0x1000, 0x3000)` readable and writable, then a write fault at `0x1500` that is
given the frame `0x80010000`. -/
def as_touched : addrspace :=
  with_entry (as_define_region as_empty 0x1000 0x2000 1 1 0 machine_one).2.1 0 1
    (fun _ => EMPTY) (fault_entry 0x80010000 1)

/-! ## The stack (`addrspace.c`) -/

/-- Modelled from the spec: the macro `USERSTACK` of `mips/vm.h`, a header that is
not among the sources; the initial stack pointer, the top of user address
space. -/
def USERSTACK : Nat := MIPS_KSEG0

/-- The function `as_define_stack`: the value returned, the word stored in
`*stackptr`, the address space afterwards and the machine afterwards.
`USER_STACK_SIZE` is a macro of `addrspace.h`, a header that is not among the
sources: the size of the stack is an argument here, taken in 32 bits as the
subtraction and the `size_t` argument take it. -/
def as_define_stack (USER_STACK_SIZE : Nat) (as : addrspace) (m : Machine) :
    Int × Nat × addrspace × Machine :=
  let stackptr := USERSTACK
  match as_define_region as ((stackptr + (WORD - USER_STACK_SIZE % WORD)) % WORD)
      (USER_STACK_SIZE % WORD) 1 1 0 m with
  | (result, as1, m1) => (result, stackptr, as1, m1)

/-- An address space whose only region is the page that ends where the stack
of size `S` begins. -/
def as_below_stack (S : Nat) : addrspace :=
  { head := [⟨region_base (USERSTACK - S) - PAGE_SIZE, PAGE_SIZE, 1, 1, 0, 0⟩],
    pagetable := fun _ => none, pt_lock := true }

/-! ## Dining philosophers (`asst1/dining.c`) -/

/-- The globals of `asst1/dining.c` that the philosophers share: `state` (0
thinking, 1 hungry, 2 eating) and the count of each semaphore of `sema_queue`.
The semaphore `key` is the mutual exclusion of the critical sections, each of
which is one step here. -/
structure dining where
  state : Nat → Int
  sema_queue : Nat → Nat

/-- The function `left`: `(phil_num - 1 + NUM_PHILOSOPHERS) % NUM_PHILOSOPHERS` in
32-bit unsigned arithmetic. `NUM_PHILOSOPHERS` is a macro of `dining_driver.h`, a
header that is not among the sources: the number of philosophers is an
argument here. -/
def left (NUM_PHILOSOPHERS phil_num : Nat) : Nat :=
  ((phil_num + (WORD - 1)) % WORD + NUM_PHILOSOPHERS) % WORD % NUM_PHILOSOPHERS

/-- The function `right`: `(phil_num + 1) % NUM_PHILOSOPHERS` in 32-bit unsigned
arithmetic. -/
def right (NUM_PHILOSOPHERS phil_num : Nat) : Nat :=
  (phil_num + 1) % WORD % NUM_PHILOSOPHERS

/-- The function `test`: a hungry philosopher whose neighbours do not eat starts
to eat and its semaphore is signalled. -/
def test (NUM_PHILOSOPHERS phil_num : Nat) (d : dining) : dining :=
  if d.state (left NUM_PHILOSOPHERS phil_num) ≠ 2 ∧
      d.state (right NUM_PHILOSOPHERS phil_num) ≠ 2 ∧ d.state phil_num = 1 then
    { state := Function.update d.state phil_num 2,
      sema_queue := Function.update d.sema_queue phil_num (d.sema_queue phil_num + 1) }
  else d

/-- The critical section of `take_forks`, between `P(key)` and `V(key)`. -/
def take_forks (NUM_PHILOSOPHERS phil_num : Nat) (d : dining) : dining :=
  test NUM_PHILOSOPHERS phil_num { d with state := Function.update d.state phil_num 1 }

/-- The last statement of `take_forks`, `P(&sema_queue[phil_num])`, after the
critical section: it completes only when the count is positive (`none` is a
philosopher that stays blocked). -/
def take_forks_wait (phil_num : Nat) (d : dining) : Option dining :=
  if d.sema_queue phil_num = 0 then none
  else some { d with
    sema_queue := Function.update d.sema_queue phil_num (d.sema_queue phil_num - 1) }

/-- The function `put_forks`, a critical section between `P(key)` and `V(key)`. -/
def put_forks (NUM_PHILOSOPHERS phil_num : Nat) (d : dining) : dining :=
  test NUM_PHILOSOPHERS (right NUM_PHILOSOPHERS phil_num)
    (test NUM_PHILOSOPHERS (left NUM_PHILOSOPHERS phil_num)
      { d with state := Function.update d.state phil_num 0 })

/-- The state after `create_forks`: every philosopher thinks (the array `state`
is a global, zero at the start) and every semaphore of `sema_queue` counts 0. -/
def dining_start : dining := { state := fun _ => 0, sema_queue := fun _ => 0 }

/-- The states that `n` philosophers reach from the start by critical sections
of `take_forks` and `put_forks` and by completed waits, in any order and for
any philosophers. -/
inductive dining_reachable (n : Nat) : dining → Prop where
  | start : dining_reachable n dining_start
  | take (d : dining) (p : Nat) : dining_reachable n d → p < n →
      dining_reachable n (take_forks n p d)
  | wait (d : dining) (p : Nat) (d1 : dining) : dining_reachable n d → p < n →
      take_forks_wait p d = some d1 → dining_reachable n d1
  | put (d : dining) (p : Nat) : dining_reachable n d → p < n →
      dining_reachable n (put_forks n p d)

/-- No two different neighbours eat at the same time. -/
def dining_safe (n : Nat) (d : dining) : Prop :=
  ∀ i j, i < n → j < n → i ≠ j → (j = left n i ∨ j = right n i) →
    ¬ (d.state i = 2 ∧ d.state j = 2)

/-! ## File system calls (`syscall/file.c`, `include/file.h`) -/

/-- Modelled from the spec: the macro `OPEN_MAX` of `kern/limits.h`, a header that
is not among the sources; the number of slots of a descriptor table and of the
open-file table. -/
def OPEN_MAX : Nat := 128

/-- The macro `CLOSED_FILE` of `file.h`: the word of a descriptor slot that
refers to no open file. -/
def CLOSED_FILE : Int := -1

/-- Modelled from the spec: the error number `EMFILE` of `kern/errno.h`, a header
that is not among the sources; too many open files in the process. -/
def EMFILE : Int := 28

/-- Modelled from the spec: the error number `ENFILE` of `kern/errno.h`, a header
that is not among the sources; too many open files in the system. -/
def ENFILE : Int := 29

/-- Modelled from the spec: the error number `EBADF` of `kern/errno.h`, a header
that is not among the sources; bad file number. -/
def EBADF : Int := 30

/-- Modelled from the spec: the flag `O_RDONLY` of `kern/fcntl.h`, a header that is
not among the sources. -/
def O_RDONLY : Nat := 0

/-- Modelled from the spec: the flag `O_WRONLY` of `kern/fcntl.h`, a header that is
not among the sources. -/
def O_WRONLY : Nat := 1

/-- Modelled from the spec: the flag `O_RDWR` of `kern/fcntl.h`, a header that is
not among the sources. -/
def O_RDWR : Nat := 2

/-- Modelled from the spec: the mask `O_ACCMODE` of `kern/fcntl.h`, a header that
is not among the sources; the bits of the access mode. -/
def O_ACCMODE : Nat := 3

/-- Modelled from the spec: the flag `O_CREAT` of `kern/fcntl.h`, a header that is
not among the sources. -/
def O_CREAT : Nat := 4

/-- Modelled from the spec: the flag `O_EXCL` of `kern/fcntl.h`, a header that is
not among the sources. -/
def O_EXCL : Nat := 8

/-- Modelled from the spec: the flag `O_TRUNC` of `kern/fcntl.h`, a header that is
not among the sources. -/
def O_TRUNC : Nat := 16

/-- Modelled from the spec: the flag `O_APPEND` of `kern/fcntl.h`, a header that is
not among the sources. -/
def O_APPEND : Nat := 32

/-- Modelled from the spec: the flag `O_NOCTTY` of `kern/fcntl.h`, a header that is
not among the sources. -/
def O_NOCTTY : Nat := 64

/-- Modelled from the spec: the descriptor numbers `STDIN_FILENO`, `STDOUT_FILENO`
and `STDERR_FILENO` of `kern/unistd.h`, a header that is not among the sources. -/
def STDIN_FILENO : Int := 0

/-- Modelled from the spec: see `STDIN_FILENO`. -/
def STDOUT_FILENO : Int := 1

/-- Modelled from the spec: see `STDIN_FILENO`. -/
def STDERR_FILENO : Int := 2

/-- Modelled from the spec: the type `enum uio_rw` of `uio.h`, a header that is not
among the sources; the direction of a transfer. -/
inductive uio_rw where
  | UIO_READ
  | UIO_WRITE
deriving DecidableEq, Repr

/-- The record `struct open_file` of `file.h`; a vnode is named by a number, the
flags are the 32-bit pattern of the `int`. -/
structure open_file where
  vn : Nat
  flags : Nat
  rc : Int
  offset : Int
deriving DecidableEq, Repr

/-- The tables of `file.h` and the kernel services around them.
* `fd`: the array `curproc->fdtable->fd`, by index;
* `openedFiles`: the array `of_table->openedFiles`, by index (`none` is `NULL`);
  the records are kept by value: each record is pointed to by one slot only;
* `heap`: the results of the coming calls of `kmalloc`, in order: `true` is a
  block, `false` or no result left is `NULL`;
* `vfs_closed`: the vnodes given to `vfs_close`, the latest first;
* `freed`: the open-file records given to `kfree`, the latest first;
* `io`: the calls of `VOP_READ` and `VOP_WRITE`, the latest first: direction,
  vnode, offset and length. -/
structure FileTables where
  fd : Nat → Int
  openedFiles : Nat → Option open_file
  heap : List Bool
  vfs_closed : List Nat
  freed : List open_file
  io : List (uio_rw × Nat × Int × Nat)

/-- Modelled from the spec: the VFS layer and `copyinstr`, which are not among the
sources; their results are read from these functions. A path is named by a
number (for `sys_open`, the user pointer it is copied from).
* `copyinstr`: the value returned for a user pointer;
* `vfs_open`: the value returned and the vnode, for a path, flags and mode;
* `vop_stat`: the value returned and `st_size`, for a vnode;
* `vop_isseekable`: for a vnode;
* `vop_read`, `vop_write`: the value returned, `uio_offset` and `uio_resid`
  afterwards, for a vnode, an offset and a length. -/
structure Vfs where
  copyinstr : Nat → Int
  vfs_open : Nat → Nat → Nat → Int × Nat
  vop_stat : Nat → Int × Int
  vop_isseekable : Nat → Bool
  vop_read : Nat → Int → Nat → Int × Int × Nat
  vop_write : Nat → Int → Nat → Int × Int × Nat

/-- Modelled from the spec: one call of `kmalloc` in the file system calls; it
gives the next result of the oracle. -/
def kmalloc_block (s : FileTables) : Bool × FileTables :=
  match s.heap with
  | [] => (false, s)
  | b :: t => (b, { s with heap := t })

/-- The read of `of_table->openedFiles[k]` for an `int` index: `none` when the
index is outside the array, and the slot otherwise. -/
def openedFiles_at (s : FileTables) (k : Int) : Option (Option open_file) :=
  if k < 0 ∨ k ≥ OPEN_MAX then none else some (s.openedFiles k.toNat)

/-- The function `fd_sanity_check`. The result is `none` when the code reads
`openedFiles` outside the array, and otherwise the value returned. -/
def fd_sanity_check (fd : Int) (s : FileTables) : Option Int :=
  if fd < 0 ∨ fd ≥ OPEN_MAX then some (-1)
  else
    let OFT_key := s.fd fd.toNat
    match openedFiles_at s OFT_key with
    | none => none
    | some none => some (-1)
    | some (some _) => some OFT_key

/-- The function `create_open_file`: the value returned, the record stored in
`*ret` (if any) and the tables afterwards. -/
def create_open_file (v : Vfs) (path flags mode : Nat) (s : FileTables) :
    Int × Option open_file × FileTables :=
  match v.vfs_open path flags mode with
  | (result, vn) =>
    if result ≠ 0 then (result, none, s)
    else
      match kmalloc_block s with
      | (false, s1) => (ENOMEM, none, { s1 with vfs_closed := vn :: s1.vfs_closed })
      | (true, s1) =>
        if flags &&& O_APPEND ≠ 0 then
          match v.vop_stat vn with
          | (r, st_size) =>
            if r ≠ 0 then (r, none, s1)
            else (0, some { vn := vn, flags := flags, rc := 1, offset := st_size }, s1)
        else (0, some { vn := vn, flags := flags, rc := 1, offset := 0 }, s1)

/-- The first loop of `insert_open_file` and of `open_stdfds`, from `i` for `n`
slots: the first index whose slot of `openedFiles` is `NULL`, or -1. -/
def find_of_index (s : FileTables) : Nat → Nat → Int
  | 0, _ => -1
  | n + 1, i => if s.openedFiles i = none then (i : Int) else find_of_index s n (i + 1)

/-- The second loop of `insert_open_file`, from `i` for `n` slots: the first
index whose descriptor slot is `CLOSED_FILE`, or -1. -/
def find_fd_index (s : FileTables) : Nat → Nat → Int
  | 0, _ => -1
  | n + 1, i => if s.fd i = CLOSED_FILE then (i : Int) else find_fd_index s n (i + 1)

/-- The function `insert_open_file`: the value returned, the word stored in
`*retval` (if any) and the tables afterwards. -/
def insert_open_file (of : open_file) (s : FileTables) : Int × Option Int × FileTables :=
  let of_index := find_of_index s OPEN_MAX 0
  let fd_index := find_fd_index s OPEN_MAX 0
  if fd_index = -1 then (EMFILE, none, s)
  else if of_index = -1 then (ENFILE, none, s)
  else
    (0, some of_index,
      { s with
        fd := Function.update s.fd fd_index.toNat of_index
        openedFiles := Function.update s.openedFiles of_index.toNat (some of) })

/-- The function `sys_open`: the value returned, the word in `*retval` and the
tables afterwards. The buffer of the path is not recorded. -/
def sys_open (v : Vfs) (pathname flags mode : Nat) (s : FileTables) :
    Int × Int × FileTables :=
  let allflags := O_ACCMODE ||| O_CREAT ||| O_EXCL ||| O_TRUNC ||| O_APPEND ||| O_NOCTTY
  if flags &&& allflags ≠ flags then (EINVAL, -1, s)
  else
    match kmalloc_block s with
    | (false, s1) => (ENOMEM, -1, s1)
    | (true, s1) =>
      let result := v.copyinstr pathname
      if result ≠ 0 then (result, -1, s1)
      else
        match create_open_file v pathname flags mode s1 with
        | (result1, ofo, s2) =>
          if result1 ≠ 0 then (result1, -1, s2)
          else
            match ofo with
            | none => (0, -1, s2)
            | some of =>
              match insert_open_file of s2 with
              | (result2, retval, s3) =>
                if result2 ≠ 0 then
                  (result2, -1,
                    { s3 with vfs_closed := of.vn :: s3.vfs_closed, freed := of :: s3.freed })
                else (0, retval.getD (-1), s3)

/-- The function `sys_close`. The result is `none` when the code reads outside
`openedFiles` or dereferences `NULL`, and otherwise the value returned and the
tables afterwards. -/
def sys_close (fd : Int) (s : FileTables) : Option (Int × FileTables) :=
  match fd_sanity_check fd s with
  | none => none
  | some OFT_key =>
    if OFT_key < 0 then some (EBADF, s)
    else
      match s.openedFiles OFT_key.toNat with
      | none => none
      | some of =>
        if of.rc - 1 = 0 then
          some (0,
            { s with
              vfs_closed := of.vn :: s.vfs_closed
              openedFiles := Function.update s.openedFiles OFT_key.toNat none
              freed := { of with rc := of.rc - 1 } :: s.freed })
        else
          some (0,
            { s with
              vfs_closed := of.vn :: s.vfs_closed
              openedFiles := Function.update s.openedFiles OFT_key.toNat
                (some { of with rc := of.rc - 1 }) })

/-- The function `sys_dup2`. The result is `none` when the code reads outside
`openedFiles` or dereferences `NULL`, and otherwise the value returned, the
word in `*retval` and the tables afterwards. -/
def sys_dup2 (fd new_fd : Int) (s : FileTables) : Option (Int × Int × FileTables) :=
  if fd < 0 ∨ fd ≥ OPEN_MAX ∨ new_fd < 0 ∨ new_fd ≥ OPEN_MAX then some (EBADF, -1, s)
  else
    match fd_sanity_check fd s with
    | none => none
    | some OFT_key =>
      if OFT_key = CLOSED_FILE then some (EBADF, -1, s)
      else if fd = new_fd then some (0, new_fd, s)
      else
        match (if s.fd new_fd.toNat ≠ CLOSED_FILE then sys_close new_fd s else some (0, s)) with
        | none => none
        | some (r, s1) =>
          if r ≠ 0 then some (EBADF, -1, s1)
          else
            match s1.openedFiles OFT_key.toNat with
            | none => none
            | some of =>
              some (0, new_fd,
                { s1 with
                  fd := Function.update s1.fd new_fd.toNat (s1.fd fd.toNat)
                  openedFiles := Function.update s1.openedFiles OFT_key.toNat
                    (some { of with rc := of.rc + 1 }) })

/-- The function `sys_rw`, without the address of the buffer, which only the VFS
layer uses. The result is `none` when the code reads outside `openedFiles` or
dereferences `NULL`, and otherwise the value returned, the word stored in
`*retval` (if any) and the tables afterwards. -/
def sys_rw (v : Vfs) (fd : Int) (nbytes : Nat) (mode : uio_rw) (s : FileTables) :
    Option (Int × Option Nat × FileTables) :=
  match fd_sanity_check fd s with
  | none => none
  | some OFT_key =>
    if OFT_key < 0 then some (EBADF, none, s)
    else
      match s.openedFiles OFT_key.toNat with
      | none => none
      | some of =>
        if mode = uio_rw.UIO_WRITE ∧
            ¬ (of.flags &&& O_ACCMODE = O_WRONLY ∨ of.flags &&& O_ACCMODE = O_RDWR) then
          some (EBADF, none, s)
        else if mode = uio_rw.UIO_READ ∧
            ¬ (of.flags &&& O_ACCMODE = O_RDONLY ∨ of.flags &&& O_ACCMODE = O_RDWR) then
          some (EBADF, none, s)
        else
          let offset : Int := if v.vop_isseekable of.vn then of.offset else 0
          let s1 := { s with io := (mode, of.vn, offset, nbytes) :: s.io }
          match (if mode = uio_rw.UIO_WRITE then v.vop_write of.vn offset nbytes
            else v.vop_read of.vn offset nbytes) with
          | (res, uio_offset, uio_resid) =>
            if res ≠ 0 then some (res, none, s1)
            else
              some (0, some ((nbytes + (WORD - uio_resid % WORD)) % WORD),
                { s1 with
                  openedFiles := Function.update s1.openedFiles OFT_key.toNat
                    (some { of with offset := uio_offset }) })

/-- The function `sys_read`. -/
def sys_read (v : Vfs) (fd : Int) (nbytes : Nat) (s : FileTables) :
    Option (Int × Option Nat × FileTables) :=
  sys_rw v fd nbytes uio_rw.UIO_READ s

/-- The function `sys_write`. -/
def sys_write (v : Vfs) (fd : Int) (nbytes : Nat) (s : FileTables) :
    Option (Int × Option Nat × FileTables) :=
  sys_rw v fd nbytes uio_rw.UIO_WRITE s

/-- The function `open_stdfds`: the value returned and the tables afterwards. -/
def open_stdfds (v : Vfs) (path flags mode : Nat) (fd_index : Int) (s : FileTables) :
    Int × FileTables :=
  match create_open_file v path flags mode s with
  | (result, ofo, s1) =>
    if result ≠ 0 then (result, s1)
    else
      match ofo with
      | none => (0, s1)
      | some of =>
        let of_index := find_of_index s1 OPEN_MAX 0
        if fd_index = -1 then
          (EMFILE, { s1 with vfs_closed := of.vn :: s1.vfs_closed, freed := of :: s1.freed })
        else if of_index = -1 then
          (ENFILE, { s1 with vfs_closed := of.vn :: s1.vfs_closed, freed := of :: s1.freed })
        else
          (0,
            { s1 with
              fd := Function.update s1.fd fd_index.toNat of_index
              openedFiles := Function.update s1.openedFiles of_index.toNat (some of) })

/-- The name of the path `"con:"` for the VFS functions. -/
def con_path : Nat := 0

/-- The function `init_fd_table`: a fresh descriptor table with every slot
`CLOSED_FILE`, then the three standard descriptors on the console; the `kfree`
of the table on the failure paths is not recorded. The result is `none` when
a `sys_close` of the failure paths is undefined. -/
def init_fd_table (v : Vfs) (s : FileTables) : Option (Int × FileTables) :=
  match kmalloc_block s with
  | (false, s1) => some (ENOMEM, s1)
  | (true, s1) =>
    let s2 := { s1 with fd := fun _ => CLOSED_FILE }
    match open_stdfds v con_path O_RDONLY 0 STDIN_FILENO s2 with
    | (result, s3) =>
      if result ≠ 0 then some (result, s3)
      else
        match open_stdfds v con_path O_WRONLY 0 STDOUT_FILENO s3 with
        | (result1, s4) =>
          if result1 ≠ 0 then
            match sys_close STDIN_FILENO s4 with
            | none => none
            | some (_, s5) => some (result1, s5)
          else
            match open_stdfds v con_path O_WRONLY 0 STDERR_FILENO s4 with
            | (result2, s5) =>
              if result2 ≠ 0 then
                match sys_close STDIN_FILENO s5 with
                | none => none
                | some (_, s6) =>
                  match sys_close STDOUT_FILENO s6 with
                  | none => none
                  | some (_, s7) => some (result2, s7)
              else some (0, s5)

/-- A VFS in which every call succeeds: the vnode of the path `p` opened with
the flags `f` is `100 + 10 * p + f % 4`, no vnode is seekable and a transfer
moves every byte. -/
def vfs_ok : Vfs :=
  { copyinstr := fun _ => 0,
    vfs_open := fun p f _ => (0, 100 + 10 * p + f % 4),
    vop_stat := fun _ => (0, 0),
    vop_isseekable := fun _ => false,
    vop_read := fun _ o n => (0, o + n, 0),
    vop_write := fun _ o n => (0, o + n, 0) }

/-- The tables before the first process sets up its descriptors: an open-file
table with every slot `NULL`, as `init_of_table` makes it, and sixteen
successful allocations in store. -/
def files_boot : FileTables :=
  { fd := fun _ => 0, openedFiles := fun _ => none, heap := List.replicate 16 true,
    vfs_closed := [], freed := [], io := [] }

/-- The tables after `init_fd_table`: the descriptors 0, 1 and 2 refer to the
slots 0, 1 and 2 of the open-file table, every other descriptor is closed. -/
def files_std : FileTables :=
  match init_fd_table vfs_ok files_boot with
  | some (_, s) => s
  | none => files_boot

/-- The tables after `sys_dup2(0, 5)` on the standard tables. -/
def files_dup : FileTables :=
  match sys_dup2 0 5 files_std with
  | some (_, _, s) => s
  | none => files_std

/-- The tables after `sys_dup2(0, 5)` and one `sys_close(0)`. -/
def files_closed_once : FileTables :=
  match sys_close 0 files_dup with
  | some (_, s) => s
  | none => files_dup

/-- The tables after `sys_dup2(0, 5)` and two `sys_close(0)`. -/
def files_closed_twice : FileTables :=
  match sys_close 0 files_closed_once with
  | some (_, s) => s
  | none => files_closed_once

/-- The tables after `sys_dup2(0, 3)` on the standard tables. -/
def files_dup3 : FileTables :=
  match sys_dup2 0 3 files_std with
  | some (_, _, s) => s
  | none => files_std

/-- The tables after `sys_dup2(0, 3)` and a `sys_open` of the path 7 for reading
and writing. -/
def files_opened : FileTables := (sys_open vfs_ok 7 O_RDWR 0 files_dup3).2.2

/-- The address space made by `as_create` and `as_define_region` of the page
`[0x20000000, 0x20001000)`. -/
def as_high : addrspace := (as_define_region as_empty 0x20000000 0x1000 1 1 0 machine_one).2.1

/-- The address space made by `as_create` and `as_define_region` of the request
`(0x10000000, 0xFFFFF000)`, whose span ends at `0x10FFFFF000` in exact
arithmetic and at `0x0FFFF000` in 32 bits. -/
def as_wrapped : addrspace :=
  (as_define_region as_empty 0x10000000 0xFFFFF000 1 1 0 machine_one).2.1

/-- The address space made by `as_create`, `as_define_region` of
`(0x10000000, 0xFFFFF000)` and then `as_define_region` of `(0x20000000, 0x1000)`. -/
def as_wrapped_then_high : addrspace :=
  (as_define_region as_wrapped 0x20000000 0x1000 1 1 0 machine_one).2.1

/-- The address space made by `as_create`, `as_define_region` of
`(0x20000000, 0x1000)` and then `as_define_region` of `(0x10000000, 0xFFFFF000)`. -/
def as_high_then_wrapped : addrspace :=
  (as_define_region as_high 0x10000000 0xFFFFF000 1 1 0 machine_one).2.1

theorem region_valid_loop_of_shared (v len a : Nat) (curr : region) :
    ∀ l : List region, curr ∈ l → v ≤ a → a < (v + len) % WORD → region_holds curr a →
      region_valid_loop v len l = EINVAL := by
  intro l
  induction l with
  | nil => intro h; simp at h
  | cons hd tl ih =>
    intro hmem hva hav hold
    unfold region_valid_loop
    split_ifs with h1 h2 h3 h4
    · rfl
    · rfl
    · rfl
    · rfl
    · rcases List.mem_cons.mp hmem with rfl | hin
      · exfalso
        unfold region_holds at hold
        omega
      · exact ih hin hva hav hold

/-- A request is rejected when its page-aligned span, taken up to its 32-bit end,
shares an address with a region of the address space: if some address `a`
lies both in the aligned span of the request (from `vaddr & PAGE_FRAME` to the
32-bit sum of base and aligned length) and in an existing region `curr`, then
`as_define_region` fails with the error of `region_valid` (`EFAULT` when the
span ends above `MIPS_KSEG0`, `EINVAL` otherwise), allocates nothing, and the
address space, its region list included, is unchanged. -/
theorem as_define_region_shared_rejected (as : addrspace) (vaddr memsize : Nat)
    (readable writeable executable : Int) (m : Machine) (curr : region) (a : Nat)
    (hcurr : curr ∈ as.head)
    (hnew : region_base vaddr ≤ a ∧
      a < (region_base vaddr + region_length vaddr memsize) % WORD)
    (hold : region_holds curr a) :
    as_define_region as vaddr memsize readable writeable executable m =
      (if (region_base vaddr + region_length vaddr memsize) % WORD > MIPS_KSEG0
        then EFAULT else EINVAL, as, m) := by
  have hl := region_valid_loop_of_shared _ _ a curr as.head hcurr hnew.1 hnew.2 hold
  by_cases h : (region_base vaddr + region_length vaddr memsize) % WORD > MIPS_KSEG0
  · simp [as_define_region, region_valid, h, EFAULT]
  · simp [as_define_region, region_valid, h, hl, EINVAL]


/-- The request `(0x1800, 0x1000)`, of aligned span `[0x1000, 0x3000)`, against the
region `[0x2000, 0x3000)`. -/
theorem as_define_region_shared_rejected_run :
    (⟨0x2000, 0x1000, 1, 1, 0, 0⟩ : region) ∈ as_one.head ∧
    (region_base 0x1800 ≤ 0x2000 ∧
      0x2000 < (region_base 0x1800 + region_length 0x1800 0x1000) % WORD) ∧
    region_holds ⟨0x2000, 0x1000, 1, 1, 0, 0⟩ 0x2000 ∧
    as_define_region as_one 0x1800 0x1000 1 1 0 machine_one =
      (if (region_base 0x1800 + region_length 0x1800 0x1000) % WORD > MIPS_KSEG0
        then EFAULT else EINVAL, as_one, machine_one) :=
  ⟨by decide, by decide, by decide,
    as_define_region_shared_rejected as_one 0x1800 0x1000 1 1 0 machine_one
      ⟨0x2000, 0x1000, 1, 1, 0, 0⟩ 0x2000 (by decide) (by decide) (by decide)⟩

theorem get_region_loop_none (a : Nat) :
    ∀ l : List region, (∀ reg ∈ l, ¬ region_holds reg a) → get_region_loop a l = none := by
  intro l
  induction l with
  | nil => intro _; rfl
  | cons hd tl ih =>
    intro h
    have h1 : ¬ region_holds hd a := h hd (List.mem_cons_self _ _)
    simp only [get_region_loop, h1, if_false]
    exact ih (fun reg hreg => h reg (List.mem_cons_of_mem _ hreg))

theorem as_define_region_success (as : addrspace) (vaddr memsize : Nat)
    (readable writeable executable : Int) (m : Machine)
    (h : (as_define_region as vaddr memsize readable writeable executable m).1 = 0) :
    region_valid as (region_base vaddr) (region_length vaddr memsize) = 0 ∧
    ∃ g hs, m.heap = some g :: hs ∧
      as_define_region as vaddr memsize readable writeable executable m =
        (0, { as with head :=
                { base_addr := region_base vaddr, memsize := region_length vaddr memsize,
                  readable := readable, writeable := writeable, old_writeable := (g : Int),
                  executable := executable } :: as.head },
          { m with heap := hs }) := by
  unfold as_define_region at h ⊢
  simp only [] at h ⊢
  by_cases hv : region_valid as (region_base vaddr) (region_length vaddr memsize) = 0
  · refine ⟨hv, ?_⟩
    cases hh : m.heap with
    | nil =>
      simp [hv, region_create, kmalloc, hh, ENOMEM] at h
    | cons x hs =>
      cases x with
      | none => simp [hv, region_create, kmalloc, hh, ENOMEM] at h
      | some g =>
        refine ⟨g, hs, rfl, ?_⟩
        simp [hv, region_create, kmalloc, hh, region_insert]
  · simp [hv] at h

/-- After `as_define_region(as, vaddr, memsize, r, w, x)` has returned 0,
`get_region` returns, for every address from `vaddr & PAGE_FRAME` up to the
32-bit sum of base and aligned length, a region with exactly that base and
length and the flags `r`, `w`, `x`; and for every address that no region of the
list holds, `get_region` returns nothing. -/
theorem get_region_of_defined (as : addrspace) (vaddr memsize : Nat)
    (readable writeable executable : Int) (m : Machine)
    (h : (as_define_region as vaddr memsize readable writeable executable m).1 = 0) :
    (∀ a, region_base vaddr ≤ a →
        a < (region_base vaddr + region_length vaddr memsize) % WORD →
        ∃ reg,
          get_region (as_define_region as vaddr memsize readable writeable executable m).2.1 a
            = some reg ∧
          reg.base_addr = region_base vaddr ∧ reg.memsize = region_length vaddr memsize ∧
          reg.readable = readable ∧ reg.writeable = writeable ∧
          reg.executable = executable) ∧
    (∀ a,
        (∀ reg ∈ (as_define_region as vaddr memsize readable writeable executable m).2.1.head,
          ¬ region_holds reg a) →
        get_region (as_define_region as vaddr memsize readable writeable executable m).2.1 a
          = none) := by
  obtain ⟨_, g, hs, _, heq⟩ := as_define_region_success as vaddr memsize readable writeable
    executable m h
  rw [heq]
  constructor
  · intro a h1 h2
    refine ⟨⟨region_base vaddr, region_length vaddr memsize, readable, writeable, (g : Int),
      executable⟩, ?_, rfl, rfl, rfl, rfl, rfl⟩
    simp only [get_region, get_region_loop]
    rw [if_pos]
    exact ⟨h1, h2⟩
  · intro a hno
    exact get_region_loop_none a _ hno

/-- The region `[0x4000, 0x6000)` defined next to `[0x2000, 0x3000)`. -/
theorem get_region_of_defined_run :
    (as_define_region as_one 0x4800 0x1000 1 0 1 machine_one).1 = 0 ∧
    ((∀ a, region_base 0x4800 ≤ a →
        a < (region_base 0x4800 + region_length 0x4800 0x1000) % WORD →
        ∃ reg,
          get_region (as_define_region as_one 0x4800 0x1000 1 0 1 machine_one).2.1 a
            = some reg ∧
          reg.base_addr = region_base 0x4800 ∧ reg.memsize = region_length 0x4800 0x1000 ∧
          reg.readable = 1 ∧ reg.writeable = 0 ∧
          reg.executable = 1) ∧
    (∀ a,
        (∀ reg ∈ (as_define_region as_one 0x4800 0x1000 1 0 1 machine_one).2.1.head,
          ¬ region_holds reg a) →
        get_region (as_define_region as_one 0x4800 0x1000 1 0 1 machine_one).2.1 a
          = none)) :=
  ⟨by decide, get_region_of_defined as_one 0x4800 0x1000 1 0 1 machine_one (by decide)⟩

/-- Claim C2, evaluated where it fails: with the single region `[0x2000, 0x3000)`,
the page-aligned, non-empty, in-bounds requests `[0x1000, 0x2000)` (its end is
the base of the region) and `[0x3000, 0x4000)` (its base is the end of the
region) are disjoint from the region, yet `as_define_region` returns `EINVAL`
and the region list stays as it was. -/
theorem as_define_region_abutting_rejected :
    (as_define_region as_one 0x1000 0x1000 1 1 0 machine_one).1 = EINVAL ∧
    (as_define_region as_one 0x3000 0x1000 1 1 0 machine_one).1 = EINVAL ∧
    (as_define_region as_one 0x1000 0x1000 1 1 0 machine_one).2.1.head = as_one.head ∧
    (as_define_region as_one 0x3000 0x1000 1 1 0 machine_one).2.1.head = as_one.head := by
  decide


/-! ## The fault handler -/

theorem get_first_10_bits_lt (a : Nat) (ha : a < WORD) : get_first_10_bits a < PAGETABLE_SIZE := by
  unfold get_first_10_bits PAGETABLE_SIZE
  unfold WORD at ha
  rw [Nat.shiftRight_eq_div_pow]
  omega

theorem get_middle_10_bits_lt (a : Nat) : get_middle_10_bits a < PAGETABLE_SIZE := by
  unfold get_middle_10_bits PAGETABLE_SIZE WORD
  rw [Nat.shiftRight_eq_div_pow]
  omega

theorem probe_pt_eq_zero_iff (as : addrspace) (a : Nat) (ha : a < WORD) :
    probe_pt as a = 0 ↔
      ∃ t, as.pagetable (get_first_10_bits a) = some t ∧ t (get_middle_10_bits a) ≠ EMPTY := by
  have h1 := get_first_10_bits_lt a ha
  have h2 := get_middle_10_bits_lt a
  unfold probe_pt
  simp only []
  rw [if_neg (by omega)]
  cases hpt : as.pagetable (get_first_10_bits a) with
  | none => simp
  | some t =>
    by_cases he : t (get_middle_10_bits a) = EMPTY
    · simp [he]
    · simp [he]

theorem lookup_region_of_get (as : addrspace) (a : Nat) (ft : Int) (r : region)
    (hreg : get_region as a = some r) :
    lookup_region as a ft =
      if ft = VM_FAULT_WRITE then (if r.writeable = 0 then EPERM else 0)
      else if ft = VM_FAULT_READ then (if r.readable = 0 then EPERM else 0)
      else EINVAL := by
  unfold get_region at hreg
  unfold lookup_region
  rw [hreg]

theorem first_touch_new_table (as : addrspace) (ft : Int) (a : Nat) (m : Machine)
    (r : region) (f : Nat) (fs : List Nat) (g : Nat) (hs : List (Option Nat))
    (ha : a < WORD) (hft : ft = VM_FAULT_WRITE ∨ ft = VM_FAULT_READ)
    (hreg : get_region as a = some r)
    (hperm : lookup_region as a ft = 0) (hfr : m.frames = f :: fs) (hf : f ≠ 0)
    (ht : as.pagetable (get_first_10_bits a) = none) (hh : m.heap = some g :: hs) :
    vm_fault (some as) ft a m =
      some (0,
        some { as with
          pagetable := Function.update as.pagetable (get_first_10_bits a)
            (some (Function.update (fun _ => EMPTY) (get_middle_10_bits a)
              (fault_entry f r.writeable))) },
        fault_machine m fs hs f a (fault_entry f r.writeable)) := by
  have h1 := get_first_10_bits_lt a ha
  have h2 := get_middle_10_bits_lt a
  have hro : ft ≠ VM_FAULT_READONLY := by
    rcases hft with h | h <;> rw [h] <;> decide
  have hprobe : probe_pt as a ≠ 0 := by
    rw [Ne, probe_pt_eq_zero_iff as a ha]
    rintro ⟨t, h, _⟩
    rw [ht] at h
    exact Option.noConfusion h
  have hge : ¬ (get_first_10_bits a ≥ PAGETABLE_SIZE ∨ get_middle_10_bits a ≥ PAGETABLE_SIZE) := by
    omega
  unfold vm_fault
  rw [if_neg hro, if_neg (not_not.mpr hft)]
  simp only [if_neg hprobe, hperm, ne_eq, not_true_eq_false, if_false, alloc_frame,
    alloc_kpages, hfr, if_neg hf, hreg, insert_pt, if_neg hge, ht, kmalloc, bzero, hh, pt_entry,
    Function.update_same, Option.map_some', load_tlb, fault_machine, fault_entry]

theorem first_touch_table_refused (as : addrspace) (ft : Int) (a : Nat) (m : Machine)
    (r : region) (f : Nat) (fs : List Nat)
    (ha : a < WORD) (hft : ft = VM_FAULT_WRITE ∨ ft = VM_FAULT_READ)
    (hreg : get_region as a = some r)
    (hperm : lookup_region as a ft = 0) (hfr : m.frames = f :: fs) (hf : f ≠ 0)
    (ht : as.pagetable (get_first_10_bits a) = none)
    (hh : m.heap = [] ∨ ∃ hs, m.heap = none :: hs) :
    vm_fault (some as) ft a m =
      some (ENOMEM, some as,
        { frames := fs, heap := m.heap.tail,
          mem := fun x => if f ≤ x ∧ x < f + PAGE_SIZE then 0 else m.mem x,
          tlb := m.tlb, released := m.released, kfreed := m.kfreed }) := by
  have h1 := get_first_10_bits_lt a ha
  have h2 := get_middle_10_bits_lt a
  have hro : ft ≠ VM_FAULT_READONLY := by
    rcases hft with h | h <;> rw [h] <;> decide
  have hprobe : probe_pt as a ≠ 0 := by
    rw [Ne, probe_pt_eq_zero_iff as a ha]
    rintro ⟨t, h, _⟩
    rw [ht] at h
    exact Option.noConfusion h
  have hge : ¬ (get_first_10_bits a ≥ PAGETABLE_SIZE ∨ get_middle_10_bits a ≥ PAGETABLE_SIZE) := by
    omega
  unfold vm_fault
  rw [if_neg hro, if_neg (not_not.mpr hft)]
  rcases hh with hh | ⟨hs, hh⟩
  · simp [if_neg hprobe, hperm, alloc_frame,
      alloc_kpages, hfr, if_neg hf, hreg, insert_pt, if_neg hge, ht, kmalloc, bzero, hh, ENOMEM]
  · simp [if_neg hprobe, hperm, alloc_frame,
      alloc_kpages, hfr, if_neg hf, hreg, insert_pt, if_neg hge, ht, kmalloc, bzero, hh, ENOMEM]

theorem vm_fault_refused (as : addrspace) (ft : Int) (a : Nat) (m : Machine)
    (hft : ft = VM_FAULT_WRITE ∨ ft = VM_FAULT_READ)
    (hperm : lookup_region as a ft ≠ 0) :
    vm_fault (some as) ft a m =
      some (if probe_pt as a = 0 then EFAULT else lookup_region as a ft, some as, m) := by
  have hro : ft ≠ VM_FAULT_READONLY := by
    rcases hft with h | h <;> rw [h] <;> decide
  unfold vm_fault
  rw [if_neg hro, if_neg (not_not.mpr hft)]
  by_cases hp : probe_pt as a = 0
  · simp only [hp, if_true, if_neg hperm]
  · simp only [if_neg hp, ne_eq, hperm, not_false_eq_true, if_true]

/-- Claim C7: a read or write fault at an address whose page is unmapped and which
lies in no region fails with `EFAULT` (out of region); no frame is allocated
and the page table, the region list and the TLB are unchanged: the address
space and the machine come back as they were. -/
theorem vm_fault_out_of_region (as : addrspace) (ft : Int) (a : Nat) (m : Machine)
    (hft : ft = VM_FAULT_WRITE ∨ ft = VM_FAULT_READ)
    (hprobe : probe_pt as a ≠ 0) (hreg : ∀ reg ∈ as.head, ¬ region_holds reg a) :
    vm_fault (some as) ft a m = some (EFAULT, some as, m) := by
  have hl : lookup_region as a ft = EFAULT := by
    unfold lookup_region
    rw [get_region_loop_none a as.head hreg]
  rw [vm_fault_refused as ft a m hft (by rw [hl]; decide), if_neg hprobe, hl]

/-- Witness of C7: a write fault at `0x5000`, outside the region `[0x1000, 0x3000)`. -/
theorem vm_fault_out_of_region_witness :
    (VM_FAULT_WRITE = VM_FAULT_WRITE ∨ VM_FAULT_WRITE = VM_FAULT_READ) ∧
    probe_pt as_rw 0x5000 ≠ 0 ∧ (∀ reg ∈ as_rw.head, ¬ region_holds reg 0x5000) ∧
    vm_fault (some as_rw) VM_FAULT_WRITE 0x5000 machine_one =
      some (EFAULT, some as_rw, machine_one) :=
  ⟨by decide, by decide, by decide,
    vm_fault_out_of_region as_rw VM_FAULT_WRITE 0x5000 machine_one (by decide) (by decide)
      (by decide)⟩

theorem frames_fresh_tail (S : Nat → Prop) (f : Nat) (fs : List Nat)
    (h : frames_fresh S (f :: fs)) : frames_fresh S fs :=
  ⟨fun g hg => h.1 g (List.mem_cons_of_mem _ hg), (List.nodup_cons.mp h.2.1).2,
    fun g hg => h.2.2 g (List.mem_cons_of_mem _ hg)⟩

theorem frames_fresh_append (S : Nat → Prop) (u fs : List Nat)
    (h : frames_fresh S (u ++ fs)) : frames_fresh S fs :=
  ⟨fun g hg => h.1 g (List.mem_append_right _ hg), (List.nodup_append.mp h.2.1).2.1,
    fun g hg => h.2.2 g (List.mem_append_right _ hg)⟩

theorem not_in_frame_of_ne (f g k : Nat) (hf : f % PAGE_SIZE = 0) (hg : g % PAGE_SIZE = 0)
    (hne : g ≠ f) (hk : k < PAGE_SIZE) : ¬ in_frame g (f + k) := by
  unfold in_frame
  unfold PAGE_SIZE at *
  omega

theorem alloc_frame_cons (as : addrspace) (v : Nat) (m : Machine) (f : Nat) (fs : List Nat)
    (hfr : m.frames = f :: fs) (hf : f ≠ 0) :
    alloc_frame as v m = (f, bzero f PAGE_SIZE { m with frames := fs }) := by
  simp [alloc_frame, alloc_kpages, hfr, hf]

theorem alloc_frame_fail (as : addrspace) (v : Nat) (m : Machine)
    (hfr : m.frames = [] ∨ ∃ fs, m.frames = 0 :: fs) :
    (alloc_frame as v m).1 = 0 := by
  rcases hfr with h | ⟨fs, h⟩ <;> simp [alloc_frame, alloc_kpages, h]

theorem frames_cases (l : List Nat) :
    (l = [] ∨ ∃ fs, l = 0 :: fs) ∨ ∃ f fs, l = f :: fs ∧ f ≠ 0 := by
  cases l with
  | nil => exact Or.inl (Or.inl rfl)
  | cons f fs =>
    by_cases hf : f = 0
    · exact Or.inl (Or.inr ⟨fs, by rw [hf]⟩)
    · exact Or.inr ⟨f, fs, rfl, hf⟩

/-- What one run of the inner loop of `pt_copy` does when it ends with 0. -/
theorem pt_copy_row_spec (old_as : addrspace) (old_t : Nat → Nat) (S : Nat → Prop)
    (hS : ∀ s, S s → s % PAGE_SIZE = 0) :
    ∀ (n j : Nat) (new_t : Nat → Nat) (m : Machine) (new_t1 : Nat → Nat) (m1 : Machine),
      (∀ j1, j ≤ j1 → j1 < j + n → old_t j1 ≠ EMPTY → S (entry_frame (old_t j1))) →
      pt_copy_row old_as old_t n j new_t m = (0, new_t1, m1) →
      ∃ used, m.frames = used ++ m1.frames ∧ m1.heap = m.heap ∧ m1.tlb = m.tlb ∧
        m1.released = m.released ∧ m1.kfreed = m.kfreed ∧
        (∀ x, (∀ f ∈ used, ¬ in_frame f x) → m1.mem x = m.mem x) ∧
        (∀ j1, j1 < j ∨ j + n ≤ j1 → new_t1 j1 = new_t j1) ∧
        (∀ j1, j ≤ j1 → j1 < j + n → old_t j1 = EMPTY → new_t1 j1 = EMPTY) ∧
        (∀ j1, j ≤ j1 → j1 < j + n → old_t j1 ≠ EMPTY →
          ∃ f ∈ used, f ≠ 0 ∧ new_t1 j1 = copy_entry f (old_t j1) ∧
            (frames_fresh S m.frames →
              ∀ k, k < PAGE_SIZE → m1.mem (f + k) = m.mem (entry_frame (old_t j1) + k))) := by
  intro n
  induction n with
  | zero =>
    intro j new_t m new_t1 m1 _ h
    simp only [pt_copy_row, Prod.mk.injEq] at h
    obtain ⟨_, h2, h3⟩ := h
    subst h2 h3
    refine ⟨[], rfl, rfl, rfl, rfl, rfl, fun _ _ => rfl, fun _ _ => rfl, ?_, ?_⟩
    · intro j1 h1 h2; omega
    · intro j1 h1 h2; omega
  | succ n ih =>
    intro j new_t m new_t1 m1 hsrc h
    unfold pt_copy_row at h
    by_cases he : old_t j = EMPTY
    · rw [if_neg (not_not.mpr he)] at h
      obtain ⟨used, h1, h2, h3, h4, h5, h6, h7, h8, h9⟩ :=
        ih (j + 1) _ m new_t1 m1 (fun j1 a b c => hsrc j1 (by omega) (by omega) c) h
      refine ⟨used, h1, h2, h3, h4, h5, h6, ?_, ?_, ?_⟩
      · intro j1 hj1
        rw [h7 j1 (by omega), Function.update_noteq (by omega)]
      · intro j1 a b c
        by_cases hj : j1 = j
        · subst hj
          rw [h7 j1 (by omega), Function.update_same]
        · exact h8 j1 (by omega) (by omega) c
      · intro j1 a b c
        have hj : j1 ≠ j := by
          intro hj; subst hj; exact c he
        exact h9 j1 (by omega) (by omega) c
    · rw [if_pos he] at h
      rcases frames_cases m.frames with hfail | ⟨f, fs, hfr, hf⟩
      · exfalso
        have h0 := alloc_frame_fail old_as (PADDR_TO_KVADDR (old_t j)) m hfail
        revert h
        rcases hal : alloc_frame old_as (PADDR_TO_KVADDR (old_t j)) m with ⟨v, m2⟩
        rw [hal] at h0
        simp only [] at h0
        subst h0
        simp [ENOMEM]
      · rw [alloc_frame_cons old_as _ m f fs hfr hf] at h
        simp only [if_neg hf] at h
        obtain ⟨used, h1, h2, h3, h4, h5, h6, h7, h8, h9⟩ :=
          ih (j + 1) _ _ new_t1 m1 (fun j1 a b c => hsrc j1 (by omega) (by omega) c) h
        simp only [memmove, bzero] at h1 h2 h3 h4 h5 h6 h9
        refine ⟨f :: used, ?_, h2, h3, h4, h5, ?_, ?_, ?_, ?_⟩
        · rw [hfr, h1]; rfl
        · intro x hx
          have hxf : ¬ in_frame f x := hx f (List.mem_cons_self _ _)
          rw [h6 x (fun g hg => hx g (List.mem_cons_of_mem _ hg))]
          unfold in_frame at hxf
          simp only [if_neg hxf]
        · intro j1 hj1
          rw [h7 j1 (by omega), Function.update_noteq (by omega)]
        · intro j1 a b c
          have hj : j1 ≠ j := by
            intro hj; subst hj; exact he c
          exact h8 j1 (by omega) (by omega) c
        · intro j1 a b c
          by_cases hj : j1 = j
          · subst hj
            refine ⟨f, List.mem_cons_self _ _, hf, ?_, ?_⟩
            · rw [h7 j1 (by omega), Function.update_same]
              rfl
            · intro hfresh k hk
              rw [hfr] at hfresh
              have hfal : f % PAGE_SIZE = 0 := hfresh.1 f (List.mem_cons_self _ _)
              have hSrc := hsrc j1 (le_refl _) (by omega) c
              have hne : f ≠ entry_frame (old_t j1) := by
                intro heq
                exact hfresh.2.2 f (List.mem_cons_self _ _) (heq ▸ hSrc)
              rw [h6 (f + k)]
              · have hin : f ≤ f + k ∧ f + k < f + PAGE_SIZE := by omega
                have hnot := not_in_frame_of_ne (entry_frame (old_t j1)) f k (hS _ hSrc) hfal hne hk
                unfold in_frame entry_frame at hnot
                simp only [if_pos hin, Nat.add_sub_cancel_left, entry_frame, if_neg hnot]
              · intro g hg
                have hgfs : g ∈ fs := by rw [h1]; exact List.mem_append_left _ hg
                have hgne : g ≠ f := by
                  intro heq
                  subst heq
                  exact (List.nodup_cons.mp hfresh.2.1).1 hgfs
                exact not_in_frame_of_ne f g k hfal
                  (hfresh.1 g (List.mem_cons_of_mem _ hgfs)) hgne hk
          · obtain ⟨g, hg, hg0, hge, hgm⟩ := h9 j1 (by omega) (by omega) c
            refine ⟨g, List.mem_cons_of_mem _ hg, hg0, hge, ?_⟩
            intro hfresh k hk
            rw [hfr] at hfresh
            rw [hgm (frames_fresh_tail S f fs hfresh) k hk]
            have hSrc := hsrc j1 a b c
            have hne : f ≠ entry_frame (old_t j1) := by
              intro heq
              exact hfresh.2.2 f (List.mem_cons_self _ _) (heq ▸ hSrc)
            have hfal : f % PAGE_SIZE = 0 := hfresh.1 f (List.mem_cons_self _ _)
            have hnot := not_in_frame_of_ne (entry_frame (old_t j1)) f k (hS _ hSrc) hfal hne hk
            unfold in_frame at hnot
            simp only [if_neg hnot]

theorem kmalloc_cases (m : Machine) :
    (kmalloc m).1 = none ∨ ∃ g hs, m.heap = some g :: hs ∧ kmalloc m = (some g, { m with heap := hs }) := by
  unfold kmalloc
  cases hh : m.heap with
  | nil => exact Or.inl rfl
  | cons x hs =>
    cases x with
    | none => exact Or.inl rfl
    | some g => exact Or.inr ⟨g, hs, rfl, rfl⟩

/-- What `pt_copy` does when it ends with 0. -/
theorem pt_copy_tables_spec (old_as : addrspace) (old_pt : Nat → Option (Nat → Nat))
    (S : Nat → Prop) (hS : ∀ s, S s → s % PAGE_SIZE = 0) :
    ∀ (n i : Nat) (new_pt : Nat → Option (Nat → Nat)) (m : Machine)
      (new_pt1 : Nat → Option (Nat → Nat)) (m1 : Machine),
      (∀ i1 j1 t, i ≤ i1 → i1 < i + n → j1 < PAGETABLE_SIZE → old_pt i1 = some t →
        t j1 ≠ EMPTY → S (entry_frame (t j1))) →
      pt_copy_tables old_as old_pt n i new_pt m = (0, new_pt1, m1) →
      ∃ used, m.frames = used ++ m1.frames ∧ m1.tlb = m.tlb ∧
        m1.released = m.released ∧ m1.kfreed = m.kfreed ∧
        (∀ x, (∀ f ∈ used, ¬ in_frame f x) → m1.mem x = m.mem x) ∧
        (∀ i1, i1 < i ∨ i + n ≤ i1 → new_pt1 i1 = new_pt i1) ∧
        (∀ i1, i ≤ i1 → i1 < i + n → old_pt i1 = none → new_pt1 i1 = none) ∧
        (∀ i1 t, i ≤ i1 → i1 < i + n → old_pt i1 = some t →
          ∃ t1, new_pt1 i1 = some t1 ∧
            ∀ j1, j1 < PAGETABLE_SIZE →
              (t j1 = EMPTY → t1 j1 = EMPTY) ∧
              (t j1 ≠ EMPTY →
                ∃ f ∈ used, f ≠ 0 ∧ t1 j1 = copy_entry f (t j1) ∧
                  (frames_fresh S m.frames →
                    ∀ k, k < PAGE_SIZE → m1.mem (f + k) = m.mem (entry_frame (t j1) + k)))) := by
  intro n
  induction n with
  | zero =>
    intro i new_pt m new_pt1 m1 _ h
    simp only [pt_copy_tables, Prod.mk.injEq] at h
    obtain ⟨_, h2, h3⟩ := h
    subst h2 h3
    refine ⟨[], rfl, rfl, rfl, rfl, fun _ _ => rfl, fun _ _ => rfl, ?_, ?_⟩
    · intro i1 h1 h2; omega
    · intro i1 t h1 h2; omega
  | succ n ih =>
    intro i new_pt m new_pt1 m1 hsrc h
    unfold pt_copy_tables at h
    cases hpt : old_pt i with
    | none =>
      simp only [hpt] at h
      obtain ⟨used, h1, h3, h4, h5, h6, h7, h8, h9⟩ :=
        ih (i + 1) _ m new_pt1 m1
          (fun i1 j1 t a b c d e => hsrc i1 j1 t (by omega) (by omega) c d e) h
      refine ⟨used, h1, h3, h4, h5, h6, ?_, ?_, ?_⟩
      · intro i1 hi1
        rw [h7 i1 (by omega), Function.update_noteq (by omega)]
      · intro i1 a b c
        by_cases hi : i1 = i
        · subst hi
          rw [h7 i1 (by omega), Function.update_same]
        · exact h8 i1 (by omega) (by omega) c
      · intro i1 t a b c
        have hi : i1 ≠ i := by
          intro hi; subst hi; rw [hpt] at c; exact Option.noConfusion c
        exact h9 i1 t (by omega) (by omega) c
    | some t =>
      simp only [hpt] at h
      rcases kmalloc_cases m with hk | ⟨g, hs, hh, hk⟩
      · exfalso
        revert h
        rcases hkm : kmalloc m with ⟨v, m2⟩
        rw [hkm] at hk
        simp only [] at hk
        subst hk
        simp [ENOMEM]
      · rw [hk] at h
        simp only [] at h
        rcases hrow : pt_copy_row old_as t PAGETABLE_SIZE 0 (fun _ => g) { m with heap := hs }
          with ⟨r, new_t, m2⟩
        rw [hrow] at h
        simp only [] at h
        by_cases hr : r = 0
        · subst hr
          simp only [ne_eq, not_true_eq_false, if_false] at h
          obtain ⟨u1, a1, _, a3, a4, a5, a6, _, a8, a9⟩ :=
            pt_copy_row_spec old_as t S hS PAGETABLE_SIZE 0 (fun _ => g) _ new_t m2
              (fun j1 _ b c => hsrc i j1 t (le_refl _) (by omega) (by omega) hpt c) hrow
          obtain ⟨u2, b1, b3, b4, b5, b6, b7, b8, b9⟩ :=
            ih (i + 1) _ m2 new_pt1 m1
              (fun i1 j1 t a b c d e => hsrc i1 j1 t (by omega) (by omega) c d e) h
          simp only [] at a1 a3 a4 a5 a6 a9
          have hfr : m.frames = (u1 ++ u2) ++ m1.frames := by
            rw [a1, b1, List.append_assoc]
          refine ⟨u1 ++ u2, hfr, by rw [b3, a3], by rw [b4, a4], by rw [b5, a5], ?_, ?_, ?_, ?_⟩
          · intro x hx
            rw [b6 x (fun f hf => hx f (List.mem_append_right _ hf)),
              a6 x (fun f hf => hx f (List.mem_append_left _ hf))]
          · intro i1 hi1
            rw [b7 i1 (by omega), Function.update_noteq (by omega)]
          · intro i1 a b c
            have hi : i1 ≠ i := by
              intro hi; subst hi; rw [hpt] at c; exact Option.noConfusion c
            exact b8 i1 (by omega) (by omega) c
          · intro i1 t' a b c
            by_cases hi : i1 = i
            · subst hi
              rw [hpt] at c
              have ht : t = t' := Option.some.inj c
              subst ht
              refine ⟨new_t, by rw [b7 i1 (by omega), Function.update_same], ?_⟩
              intro j1 hj1
              refine ⟨fun he => a8 j1 (Nat.zero_le _) (by omega) he, ?_⟩
              intro he
              obtain ⟨f, hf, hf0, hfe, hfm⟩ := a9 j1 (Nat.zero_le _) (by omega) he
              refine ⟨f, List.mem_append_left _ hf, hf0, hfe, ?_⟩
              intro hfresh k hk
              rw [← hfm hfresh k hk]
              apply b6
              intro g2 hg2
              have hnd : (u1 ++ (u2 ++ m1.frames)).Nodup := by
                rw [← List.append_assoc, ← hfr]; exact hfresh.2.1
              have hne : g2 ≠ f := by
                intro heq
                subst heq
                exact (List.nodup_append.mp hnd).2.2 hf (List.mem_append_left _ hg2)
              have hmem : ∀ y, y ∈ u1 ++ u2 → y % PAGE_SIZE = 0 := by
                intro y hy
                apply hfresh.1
                rw [hfr]
                exact List.mem_append_left _ hy
              exact not_in_frame_of_ne f g2 k (hmem f (List.mem_append_left _ hf))
                (hmem g2 (List.mem_append_right _ hg2)) hne hk
            · obtain ⟨t1, ht1, hrest⟩ := b9 i1 t' (by omega) (by omega) c
              refine ⟨t1, ht1, ?_⟩
              intro j1 hj1
              refine ⟨(hrest j1 hj1).1, ?_⟩
              intro he
              obtain ⟨f, hf, hf0, hfe, hfm⟩ := (hrest j1 hj1).2 he
              refine ⟨f, List.mem_append_right _ hf, hf0, hfe, ?_⟩
              intro hfresh k hk
              have hfresh2 : frames_fresh S m2.frames := by
                apply frames_fresh_append S u1
                rw [← a1]
                exact hfresh
              rw [hfm hfresh2 k hk]
              apply a6
              intro g2 hg2
              have hSrc := hsrc i1 j1 t' a b hj1 c he
              have hg2m : g2 ∈ m.frames := by
                rw [a1]; exact List.mem_append_left _ hg2
              have hne : g2 ≠ entry_frame (t' j1) := by
                intro heq
                exact hfresh.2.2 g2 hg2m (heq ▸ hSrc)
              exact not_in_frame_of_ne (entry_frame (t' j1)) g2 k (hS _ hSrc)
                (hfresh.1 g2 hg2m) hne hk
        · exfalso
          simp [hr, ENOMEM] at h

theorem and_frame_mod (e : Nat) : (e &&& PAGE_FRAME) % PAGE_SIZE = 0 := by
  have h := Nat.and_pow_two_sub_one_eq_mod (e &&& PAGE_FRAME) 12
  rw [Nat.and_assoc] at h
  have hc : PAGE_FRAME &&& (2 ^ 12 - 1) = 0 := by decide
  rw [hc, Nat.and_zero] at h
  unfold PAGE_SIZE
  omega

theorem and_frame_lt (e : Nat) : e &&& PAGE_FRAME < WORD := by
  have h : e &&& PAGE_FRAME ≤ PAGE_FRAME := Nat.and_le_right
  unfold PAGE_FRAME WORD at *
  omega

theorem and_frame_of_aligned (y : Nat) (hy : y % PAGE_SIZE = 0) (hlt : y < WORD) :
    y &&& PAGE_FRAME = y := by
  have h1 : y &&& (2 ^ 32 - 1) = y := Nat.and_pow_two_sub_one_of_lt_two_pow hlt
  have hc : (2 ^ 32 - 1 : Nat) = PAGE_FRAME ||| (2 ^ 12 - 1) := by decide
  rw [hc, Nat.and_or_distrib_left, Nat.and_pow_two_sub_one_eq_mod] at h1
  have h0 : y % 2 ^ 12 = 0 := hy
  rw [h0, Nat.or_zero] at h1
  exact h1

theorem entry_frame_aligned (e : Nat) : entry_frame e % PAGE_SIZE = 0 := by
  have h := and_frame_mod e
  unfold entry_frame PADDR_TO_KVADDR MIPS_KSEG0 WORD
  unfold PAGE_SIZE at *
  omega

theorem copy_entry_and_frame (f o : Nat) :
    copy_entry f o &&& PAGE_FRAME = KVADDR_TO_PADDR f &&& PAGE_FRAME := by
  unfold copy_entry
  rw [Nat.and_distrib_right, Nat.and_distrib_right, Nat.and_assoc, Nat.and_self,
    Nat.and_comm TLBLO_DIRTY o, Nat.and_comm TLBLO_VALID o, Nat.and_assoc o, Nat.and_assoc o,
    show TLBLO_DIRTY &&& PAGE_FRAME = 0 by decide, show TLBLO_VALID &&& PAGE_FRAME = 0 by decide,
    Nat.and_zero, Nat.or_zero, Nat.or_zero]

theorem entry_frame_copy_entry (f o : Nat) (hf : f % PAGE_SIZE = 0) (hlt : f < WORD) :
    entry_frame (copy_entry f o) = f := by
  unfold entry_frame
  rw [copy_entry_and_frame]
  have h1 : KVADDR_TO_PADDR f % PAGE_SIZE = 0 := by
    unfold KVADDR_TO_PADDR MIPS_KSEG0 WORD
    unfold PAGE_SIZE at *
    omega
  have h2 : KVADDR_TO_PADDR f < WORD := by
    unfold KVADDR_TO_PADDR
    exact Nat.mod_lt _ (by decide)
  rw [and_frame_of_aligned _ h1 h2]
  unfold PADDR_TO_KVADDR KVADDR_TO_PADDR MIPS_KSEG0 WORD
  unfold WORD at hlt
  omega

theorem copy_entry_valid (f o : Nat) : copy_entry f o &&& TLBLO_VALID = o &&& TLBLO_VALID := by
  unfold copy_entry
  rw [Nat.and_distrib_right, Nat.and_distrib_right, Nat.and_assoc,
    show PAGE_FRAME &&& TLBLO_VALID = 0 by decide, Nat.and_zero, Nat.zero_or,
    Nat.and_comm TLBLO_DIRTY o, Nat.and_comm TLBLO_VALID o, Nat.and_assoc o, Nat.and_assoc o,
    show TLBLO_DIRTY &&& TLBLO_VALID = 0 by decide, Nat.and_zero, Nat.zero_or, Nat.and_self]

theorem copy_entry_dirty (f o : Nat) : copy_entry f o &&& TLBLO_DIRTY = o &&& TLBLO_DIRTY := by
  unfold copy_entry
  rw [Nat.and_distrib_right, Nat.and_distrib_right, Nat.and_assoc,
    show PAGE_FRAME &&& TLBLO_DIRTY = 0 by decide, Nat.and_zero, Nat.zero_or,
    Nat.and_comm TLBLO_DIRTY o, Nat.and_comm TLBLO_VALID o, Nat.and_assoc o, Nat.and_assoc o,
    show TLBLO_VALID &&& TLBLO_DIRTY = 0 by decide, Nat.and_zero, Nat.or_zero, Nat.and_self]

theorem as_create_some (m : Machine) (newas : addrspace) (m1 : Machine)
    (h : as_create m = (some newas, m1)) :
    newas.head = [] ∧ newas.pagetable = (fun _ => none) ∧ m1.frames = m.frames ∧
      m1.mem = m.mem ∧ m1.tlb = m.tlb ∧ m1.released = m.released := by
  unfold as_create lock_create at h
  rcases kmalloc_cases m with hk | ⟨g, hs, _, hk⟩
  · exfalso
    revert h
    rcases hkm : kmalloc m with ⟨v, m2⟩
    rw [hkm] at hk
    simp only [] at hk
    subst hk
    simp
  · rw [hk] at h
    simp only [] at h
    rcases kmalloc_cases { m with heap := hs } with hk2 | ⟨g2, hs2, _, hk2⟩
    · exfalso
      revert h
      rcases hkm : kmalloc { m with heap := hs } with ⟨v, m2⟩
      rw [hkm] at hk2
      simp only [] at hk2
      subst hk2
      simp
    · rw [hk2] at h
      simp only [] at h
      unfold kmalloc at h
      simp only [] at h
      cases hs2 with
      | nil =>
        simp only [Prod.mk.injEq, Option.some.injEq] at h
        obtain ⟨h1, h2⟩ := h
        subst h1 h2
        exact ⟨rfl, rfl, rfl, rfl, rfl, rfl⟩
      | cons x hs3 =>
        cases x <;>
        · simp only [Prod.mk.injEq, Option.some.injEq] at h
          obtain ⟨h1, h2⟩ := h
          subst h1 h2
          exact ⟨rfl, rfl, rfl, rfl, rfl, rfl⟩

theorem region_copy_eq (r : region) : region_copy r = r := rfl

theorem as_copy_regions_true :
    ∀ (l acc : List region) (m : Machine) (l1 : List region) (m1 : Machine),
      as_copy_regions l acc m = (true, l1, m1) →
      l1 = acc ++ l ∧ m1.frames = m.frames ∧ m1.mem = m.mem ∧ m1.tlb = m.tlb ∧
        m1.released = m.released := by
  intro l
  induction l with
  | nil =>
    intro acc m l1 m1 h
    simp only [as_copy_regions, Prod.mk.injEq, true_and] at h
    obtain ⟨h1, h2⟩ := h
    subst h1 h2
    simp
  | cons r rest ih =>
    intro acc m l1 m1 h
    unfold as_copy_regions at h
    rcases kmalloc_cases m with hk | ⟨g, hs, _, hk⟩
    · exfalso
      revert h
      rcases hkm : kmalloc m with ⟨v, m2⟩
      rw [hkm] at hk
      simp only [] at hk
      subst hk
      simp
    · rw [hk] at h
      simp only [] at h
      obtain ⟨h1, h2, h3, h4, h5⟩ := ih _ _ l1 m1 h
      refine ⟨?_, h2, h3, h4, h5⟩
      rw [h1, region_copy_eq, List.append_assoc]
      rfl

/-- What a successful `as_copy` is made of. -/
theorem as_copy_success (old : addrspace) (m : Machine) (h : (as_copy (some old) m).1 = 0) :
    ∃ new m2,
      as_copy (some old) m = (0, some new, (as_copy (some old) m).2.2) ∧
      new.head = old.head ∧ m2.frames = m.frames ∧ m2.mem = m.mem ∧ m2.tlb = m.tlb ∧
      m2.released = m.released ∧
      pt_copy old old.pagetable (fun _ => none) m2 =
        (0, new.pagetable, (as_copy (some old) m).2.2) := by
  unfold as_copy at h ⊢
  simp only [] at h ⊢
  rcases hc : as_create m with ⟨onew, m1⟩
  rw [hc] at h
  cases onew with
  | none => simp [ENOMEM] at h
  | some newas =>
    obtain ⟨c1, c2, c3, c4, c5, c6⟩ := as_create_some m newas m1 hc
    simp only [] at h ⊢
    rcases hr : as_copy_regions old.head newas.head m1 with ⟨ok, new_head, m2⟩
    rw [hr] at h
    cases ok with
    | false => simp [ENOMEM] at h
    | true =>
      obtain ⟨r1, r2, r3, r4, r5⟩ := as_copy_regions_true _ _ _ _ _ hr
      simp only [] at h ⊢
      rcases hp : pt_copy old old.pagetable newas.pagetable m2 with ⟨r, new_pt, m3⟩
      rw [hp] at h
      simp only [] at h ⊢
      by_cases hr0 : r = 0
      · subst hr0
        simp only [ne_eq, not_true_eq_false, if_false]
        refine ⟨_, m2, rfl, ?_, by rw [r2, c3], by rw [r3, c4], by rw [r4, c5], by rw [r5, c6], ?_⟩
        · simp [r1, c1]
        · rw [← c2]; exact hp
      · simp [hr0, ENOMEM] at h

theorem mapped_frame_aligned (pt : Nat → Option (Nat → Nat)) (s : Nat)
    (h : mapped_frame pt s) : s % PAGE_SIZE = 0 := by
  obtain ⟨i, j, t, _, _, _, _, hs⟩ := h
  rw [hs]
  exact entry_frame_aligned _

/-- What a successful `as_copy` does to the page table and to memory. -/
theorem as_copy_pagetable (old : addrspace) (m : Machine)
    (h : (as_copy (some old) m).1 = 0) :
    ∃ (new : addrspace) (used : List Nat),
      (as_copy (some old) m).2.1 = some new ∧ new.head = old.head ∧
      (∀ f ∈ used, f ∈ m.frames) ∧
      (∀ x, (∀ f ∈ used, ¬ in_frame f x) → (as_copy (some old) m).2.2.mem x = m.mem x) ∧
      (∀ i, i < PAGETABLE_SIZE → old.pagetable i = none → new.pagetable i = none) ∧
      (∀ i t, i < PAGETABLE_SIZE → old.pagetable i = some t →
        ∃ t1, new.pagetable i = some t1 ∧
          ∀ j, j < PAGETABLE_SIZE →
            (t j = EMPTY → t1 j = EMPTY) ∧
            (t j ≠ EMPTY →
              ∃ f ∈ used, f ≠ 0 ∧ t1 j = copy_entry f (t j) ∧
                (frames_fresh (mapped_frame old.pagetable) m.frames →
                  ∀ k, k < PAGE_SIZE →
                    (as_copy (some old) m).2.2.mem (f + k) = m.mem (entry_frame (t j) + k)))) := by
  obtain ⟨new, m2, heq, hhead, hfr, hmem, _, _, hpt⟩ := as_copy_success old m h
  unfold pt_copy at hpt
  obtain ⟨used, a1, _, _, _, a5, _, a7, a8⟩ :=
    pt_copy_tables_spec old old.pagetable (mapped_frame old.pagetable)
      (mapped_frame_aligned old.pagetable) PAGETABLE_SIZE 0 _ m2 _ _
      (fun i1 j1 t _ b c d e => ⟨i1, j1, t, by omega, c, d, e, rfl⟩) hpt
  refine ⟨new, used, by rw [heq], hhead, ?_, ?_, ?_, ?_⟩
  · intro f hf
    rw [← hfr, a1]
    exact List.mem_append_left _ hf
  · intro x hx
    rw [a5 x hx, hmem]
  · intro i hi hn
    exact a7 i (Nat.zero_le _) (by omega) hn
  · intro i t hi ht
    obtain ⟨t1, ht1, hrest⟩ := a8 i t (Nat.zero_le _) (by omega) ht
    refine ⟨t1, ht1, ?_⟩
    intro j hj
    refine ⟨(hrest j hj).1, ?_⟩
    intro he
    obtain ⟨f, hf, hf0, hfe, hfm⟩ := (hrest j hj).2 he
    refine ⟨f, hf, hf0, hfe, ?_⟩
    intro hfresh k hk
    rw [hfm (by rw [hfr]; exact hfresh) k hk, hmem]

/-- Claim C10: after `as_copy` has returned 0, the region list of the destination
is the region list of the source in the same order: the lists are equal, so
they have the same length and the `k`-th regions agree in `base_addr`,
`memsize`, `readable`, `writeable`, `old_writeable` and `executable`. -/
theorem as_copy_regions_equal (old : addrspace) (m : Machine)
    (h : (as_copy (some old) m).1 = 0) :
    ∃ new, (as_copy (some old) m).2.1 = some new ∧ new.head = old.head ∧
      new.head.length = old.head.length ∧
      ∀ k, k < old.head.length → new.head[k]? = old.head[k]? := by
  obtain ⟨new, m2, heq, hhead, _⟩ := as_copy_success old m h
  refine ⟨new, by rw [heq], hhead, by rw [hhead], ?_⟩
  intro k _
  rw [hhead]

/-- Claim C9: after `as_copy` has returned 0, on a source whose non-empty entries
are valid (every entry that the subsystem writes is), the destination has a
second-level table exactly where the source has one, and for every page the
destination entry is `EMPTY` exactly when the source entry is, with the same
`TLBLO_VALID` and `TLBLO_DIRTY` bits. -/
theorem as_copy_same_mapping (old : addrspace) (m : Machine)
    (hwf : ∀ i j t, i < PAGETABLE_SIZE → j < PAGETABLE_SIZE → old.pagetable i = some t →
      t j ≠ EMPTY → t j &&& TLBLO_VALID = TLBLO_VALID)
    (h : (as_copy (some old) m).1 = 0) :
    ∃ new, (as_copy (some old) m).2.1 = some new ∧
      ∀ i, i < PAGETABLE_SIZE →
        (old.pagetable i = none → new.pagetable i = none) ∧
        (∀ t, old.pagetable i = some t →
          ∃ t1, new.pagetable i = some t1 ∧
            ∀ j, j < PAGETABLE_SIZE →
              (t1 j = EMPTY ↔ t j = EMPTY) ∧
              t1 j &&& TLBLO_VALID = t j &&& TLBLO_VALID ∧
              t1 j &&& TLBLO_DIRTY = t j &&& TLBLO_DIRTY) := by
  obtain ⟨new, used, hnew, _, _, _, hnone, hsome⟩ := as_copy_pagetable old m h
  refine ⟨new, hnew, ?_⟩
  intro i hi
  refine ⟨hnone i hi, ?_⟩
  intro t ht
  obtain ⟨t1, ht1, hrest⟩ := hsome i t hi ht
  refine ⟨t1, ht1, ?_⟩
  intro j hj
  by_cases he : t j = EMPTY
  · have h1 := (hrest j hj).1 he
    rw [h1, he]
    exact ⟨Iff.rfl, rfl, rfl⟩
  · obtain ⟨f, _, _, hfe, _⟩ := (hrest j hj).2 he
    rw [hfe]
    refine ⟨?_, copy_entry_valid f (t j), copy_entry_dirty f (t j)⟩
    constructor
    · intro h0
      exfalso
      have hv := copy_entry_valid f (t j)
      rw [h0, hwf i j t hi hj ht he] at hv
      revert hv
      decide
    · intro h0
      exact absurd h0 he

/-- Claim C8: copy round trip and no aliasing. When the frames that `alloc_kpages`
hands out are page-aligned 32-bit addresses, pairwise different and different
from every frame that the source maps, then after `as_copy` has returned 0, for
every mapped page of the source: the 4096 bytes of the destination frame equal
the bytes that the source frame had before the copy; the bytes of the source
frame are unchanged; and the destination entry refers to a frame that no source
entry refers to, no byte of it being a byte of a source frame - so that a later
write to the destination page alters no source page. The source itself is only
read by `as_copy`. -/
theorem as_copy_round_trip (old : addrspace) (m : Machine)
    (hal : ∀ f ∈ m.frames, f % PAGE_SIZE = 0 ∧ f < WORD)
    (hnd : m.frames.Nodup)
    (hfresh : ∀ f ∈ m.frames, ∀ i j t, i < PAGETABLE_SIZE → j < PAGETABLE_SIZE →
      old.pagetable i = some t → t j ≠ EMPTY → f ≠ entry_frame (t j))
    (h : (as_copy (some old) m).1 = 0) :
    ∃ new, (as_copy (some old) m).2.1 = some new ∧
      ∀ i j t, i < PAGETABLE_SIZE → j < PAGETABLE_SIZE → old.pagetable i = some t →
        t j ≠ EMPTY →
        ∃ t1, new.pagetable i = some t1 ∧
          (∀ k, k < PAGE_SIZE →
            (as_copy (some old) m).2.2.mem (entry_frame (t1 j) + k) =
              m.mem (entry_frame (t j) + k)) ∧
          (∀ k, k < PAGE_SIZE →
            (as_copy (some old) m).2.2.mem (entry_frame (t j) + k) =
              m.mem (entry_frame (t j) + k)) ∧
          (∀ i2 j2 t2, i2 < PAGETABLE_SIZE → j2 < PAGETABLE_SIZE →
            old.pagetable i2 = some t2 → t2 j2 ≠ EMPTY →
            t1 j &&& PAGE_FRAME ≠ t2 j2 &&& PAGE_FRAME ∧
            ∀ k k2, k < PAGE_SIZE → k2 < PAGE_SIZE →
              entry_frame (t1 j) + k ≠ entry_frame (t2 j2) + k2) := by
  obtain ⟨new, used, hnew, _, hused, hframe, _, hsome⟩ := as_copy_pagetable old m h
  have hff : frames_fresh (mapped_frame old.pagetable) m.frames := by
    refine ⟨fun f hf => (hal f hf).1, hnd, ?_⟩
    rintro f hf ⟨i, j, t, hi, hj, ht, he, hs⟩
    exact hfresh f hf i j t hi hj ht he hs
  refine ⟨new, hnew, ?_⟩
  intro i j t hi hj ht he
  obtain ⟨t1, ht1, hrest⟩ := hsome i t hi ht
  obtain ⟨f, hf, _, hfe, hfm⟩ := (hrest j hj).2 he
  have hfm1 := hused f hf
  have hef : entry_frame (t1 j) = f := by
    rw [hfe]
    exact entry_frame_copy_entry f (t j) (hal f hfm1).1 (hal f hfm1).2
  refine ⟨t1, ht1, ?_, ?_, ?_⟩
  · intro k hk
    rw [hef]
    exact hfm hff k hk
  · intro k hk
    apply hframe
    intro g hg
    have hgm := hused g hg
    exact not_in_frame_of_ne (entry_frame (t j)) g k (entry_frame_aligned _) (hal g hgm).1
      (hfresh g hgm i j t hi hj ht he) hk
  · intro i2 j2 t2 hi2 hj2 ht2 he2
    have hne : entry_frame (t1 j) ≠ entry_frame (t2 j2) := by
      rw [hef]
      exact hfresh f hfm1 i2 j2 t2 hi2 hj2 ht2 he2
    refine ⟨?_, ?_⟩
    · intro heq
      apply hne
      unfold entry_frame
      rw [heq]
    · intro k k2 hk hk2 heq
      have h1 := entry_frame_aligned (t1 j)
      have h2 := entry_frame_aligned (t2 j2)
      unfold PAGE_SIZE at *
      omega

/-! ## Concrete runs -/

set_option maxRecDepth 100000 in
theorem as_copy_readonly_ok : (as_copy (some as_readonly) machine_copy).1 = 0 := by
  decide

theorem pt_one_page_entry (i j : Nat) (t : Nat → Nat) (h : pt_one_page i = some t)
    (he : t j ≠ EMPTY) : t j = 0x10200 := by
  unfold pt_one_page at h
  split_ifs at h
  injection h with h
  subst h
  by_cases hj : j = 1
  · simp [hj]
  · simp [hj] at he

theorem as_readonly_valid (i j : Nat) (t : Nat → Nat) (_hi : i < PAGETABLE_SIZE)
    (_hj : j < PAGETABLE_SIZE) (h : as_readonly.pagetable i = some t) (he : t j ≠ EMPTY) :
    t j &&& TLBLO_VALID = TLBLO_VALID := by
  rw [pt_one_page_entry i j t h he]
  decide

theorem machine_copy_fresh (f : Nat) (hf : f ∈ machine_copy.frames) (i j : Nat) (t : Nat → Nat)
    (_hi : i < PAGETABLE_SIZE) (_hj : j < PAGETABLE_SIZE) (h : as_readonly.pagetable i = some t)
    (he : t j ≠ EMPTY) : f ≠ entry_frame (t j) := by
  rw [pt_one_page_entry i j t h he]
  have h1 : f = 0x80020000 ∨ f = 0x80021000 := by
    simpa [machine_copy] using hf
  rcases h1 with h1 | h1 <;> rw [h1] <;> decide

/-- Witness of C10: a copy of the address space `as_readonly`. -/
theorem as_copy_regions_equal_witness :
    (as_copy (some as_readonly) machine_copy).1 = 0 ∧
    ∃ new, (as_copy (some as_readonly) machine_copy).2.1 = some new ∧
      new.head = as_readonly.head ∧
      new.head.length = as_readonly.head.length ∧
      ∀ k, k < as_readonly.head.length → new.head[k]? = as_readonly.head[k]? :=
  ⟨as_copy_readonly_ok, as_copy_regions_equal as_readonly machine_copy as_copy_readonly_ok⟩

/-- Witness of C9: a copy of the address space `as_readonly`. -/
theorem as_copy_same_mapping_witness :
    (as_copy (some as_readonly) machine_copy).1 = 0 ∧
    ∃ new, (as_copy (some as_readonly) machine_copy).2.1 = some new ∧
      ∀ i, i < PAGETABLE_SIZE →
        (as_readonly.pagetable i = none → new.pagetable i = none) ∧
        (∀ t, as_readonly.pagetable i = some t →
          ∃ t1, new.pagetable i = some t1 ∧
            ∀ j, j < PAGETABLE_SIZE →
              (t1 j = EMPTY ↔ t j = EMPTY) ∧
              t1 j &&& TLBLO_VALID = t j &&& TLBLO_VALID ∧
              t1 j &&& TLBLO_DIRTY = t j &&& TLBLO_DIRTY) :=
  ⟨as_copy_readonly_ok,
    as_copy_same_mapping as_readonly machine_copy as_readonly_valid as_copy_readonly_ok⟩

/-- Witness of C8: a copy of the address space `as_readonly`, whose page `0x1000` is
mapped to the frame `0x10000`. -/
theorem as_copy_round_trip_witness :
    ((∀ f ∈ machine_copy.frames, f % PAGE_SIZE = 0 ∧ f < WORD) ∧ machine_copy.frames.Nodup ∧
      (as_copy (some as_readonly) machine_copy).1 = 0) ∧
    ∃ new, (as_copy (some as_readonly) machine_copy).2.1 = some new ∧
      ∀ i j t, i < PAGETABLE_SIZE → j < PAGETABLE_SIZE → as_readonly.pagetable i = some t →
        t j ≠ EMPTY →
        ∃ t1, new.pagetable i = some t1 ∧
          (∀ k, k < PAGE_SIZE →
            (as_copy (some as_readonly) machine_copy).2.2.mem (entry_frame (t1 j) + k) =
              machine_copy.mem (entry_frame (t j) + k)) ∧
          (∀ k, k < PAGE_SIZE →
            (as_copy (some as_readonly) machine_copy).2.2.mem (entry_frame (t j) + k) =
              machine_copy.mem (entry_frame (t j) + k)) ∧
          (∀ i2 j2 t2, i2 < PAGETABLE_SIZE → j2 < PAGETABLE_SIZE →
            as_readonly.pagetable i2 = some t2 → t2 j2 ≠ EMPTY →
            t1 j &&& PAGE_FRAME ≠ t2 j2 &&& PAGE_FRAME ∧
            ∀ k k2, k < PAGE_SIZE → k2 < PAGE_SIZE →
              entry_frame (t1 j) + k ≠ entry_frame (t2 j2) + k2) :=
  ⟨⟨by decide, by decide, as_copy_readonly_ok⟩,
    as_copy_round_trip as_readonly machine_copy (by decide) (by decide) machine_copy_fresh
      as_copy_readonly_ok⟩

/-! ## Alignment of regions -/

theorem and_frame_of_small (r : Nat) (hr : r < PAGE_SIZE) : r &&& PAGE_FRAME = 0 := by
  have h1 : r &&& (2 ^ 12 - 1) = r := Nat.and_pow_two_sub_one_of_lt_two_pow hr
  rw [← h1, Nat.and_assoc, show (2 ^ 12 - 1) &&& PAGE_FRAME = 0 by decide, Nat.and_zero]

theorem and_frame_eq_div (x : Nat) (hx : x < WORD) :
    x &&& PAGE_FRAME = x / PAGE_SIZE * PAGE_SIZE := by
  have hsplit : x = 2 ^ 12 * (x / PAGE_SIZE) + x % PAGE_SIZE := by
    unfold PAGE_SIZE
    omega
  have hlt : x % PAGE_SIZE < 2 ^ 12 := by
    unfold PAGE_SIZE
    omega
  have hor := Nat.mul_add_lt_is_or hlt (x / PAGE_SIZE)
  have hal : (2 ^ 12 * (x / PAGE_SIZE)) &&& PAGE_FRAME = 2 ^ 12 * (x / PAGE_SIZE) := by
    apply and_frame_of_aligned
    · unfold PAGE_SIZE; omega
    · unfold WORD PAGE_SIZE at *; omega
  calc x &&& PAGE_FRAME
      = (2 ^ 12 * (x / PAGE_SIZE) ||| x % PAGE_SIZE) &&& PAGE_FRAME := by
        rw [← hor, ← hsplit]
    _ = 2 ^ 12 * (x / PAGE_SIZE) := by
        rw [Nat.and_distrib_right, hal, and_frame_of_small _ (by unfold PAGE_SIZE; omega),
          Nat.or_zero]
    _ = x / PAGE_SIZE * PAGE_SIZE := by unfold PAGE_SIZE; omega

theorem and_offset_eq_mod (x : Nat) : x &&& (WORD - 1 - PAGE_FRAME) = x % PAGE_SIZE := by
  have h := Nat.and_pow_two_sub_one_eq_mod x 12
  exact h

theorem region_base_eq (vaddr : Nat) (h : vaddr < WORD) :
    region_base vaddr = vaddr / PAGE_SIZE * PAGE_SIZE :=
  and_frame_eq_div vaddr h

theorem region_length_eq (vaddr memsize : Nat) (h : vaddr + memsize ≤ MIPS_KSEG0) :
    region_length vaddr memsize =
      (memsize + vaddr % PAGE_SIZE + (PAGE_SIZE - 1)) / PAGE_SIZE * PAGE_SIZE := by
  unfold region_length
  rw [and_offset_eq_mod]
  have h1 : (memsize + vaddr % PAGE_SIZE) % WORD = memsize + vaddr % PAGE_SIZE := by
    unfold MIPS_KSEG0 at h
    unfold WORD PAGE_SIZE
    omega
  have h2 : (memsize + vaddr % PAGE_SIZE + PAGE_SIZE - 1) % WORD =
      memsize + vaddr % PAGE_SIZE + (PAGE_SIZE - 1) := by
    unfold MIPS_KSEG0 at h
    unfold WORD PAGE_SIZE
    omega
  rw [h1, h2]
  apply and_frame_eq_div
  unfold MIPS_KSEG0 at h
  unfold WORD PAGE_SIZE
  omega

/-- Claim C17: alignment in `as_define_region`. For every `vaddr` and `memsize` with
`vaddr + memsize <= MIPS_KSEG0`, the base that is stored is `vaddr` rounded down
to a multiple of 4096 and the length that is stored is a multiple of 4096, the
least one with `base + length >= vaddr + memsize`; so the region covers
`[vaddr, vaddr + memsize)` and exceeds it by less than one page at each end.
When `as_define_region` returns 0 the new head of the region list has exactly
this base and this length. -/
theorem as_define_region_alignment (vaddr memsize : Nat) (h : vaddr + memsize ≤ MIPS_KSEG0) :
    region_base vaddr = vaddr / PAGE_SIZE * PAGE_SIZE ∧
    region_length vaddr memsize % PAGE_SIZE = 0 ∧
    region_base vaddr + region_length vaddr memsize ≥ vaddr + memsize ∧
    (∀ len, len % PAGE_SIZE = 0 → region_base vaddr + len ≥ vaddr + memsize →
      region_length vaddr memsize ≤ len) ∧
    region_base vaddr ≤ vaddr ∧ vaddr - region_base vaddr < PAGE_SIZE ∧
    region_base vaddr + region_length vaddr memsize - (vaddr + memsize) < PAGE_SIZE ∧
    (∀ (as : addrspace) (readable writeable executable : Int) (m : Machine),
      (as_define_region as vaddr memsize readable writeable executable m).1 = 0 →
      ∃ reg, (as_define_region as vaddr memsize readable writeable executable m).2.1.head
          = reg :: as.head ∧
        reg.base_addr = vaddr / PAGE_SIZE * PAGE_SIZE ∧
        reg.memsize = (memsize + vaddr % PAGE_SIZE + (PAGE_SIZE - 1)) / PAGE_SIZE * PAGE_SIZE) := by
  have hv : vaddr < WORD := by
    unfold MIPS_KSEG0 at h
    unfold WORD
    omega
  have hb := region_base_eq vaddr hv
  have hl := region_length_eq vaddr memsize h
  refine ⟨hb, ?_, ?_, ?_, ?_, ?_, ?_, ?_⟩
  · rw [hl]; exact Nat.mul_mod_left _ _
  · rw [hb, hl]; unfold PAGE_SIZE; omega
  · intro len h1 h2
    rw [hb] at h2
    rw [hl]
    unfold PAGE_SIZE at *
    omega
  · rw [hb]; unfold PAGE_SIZE; omega
  · rw [hb]; unfold PAGE_SIZE; omega
  · rw [hb, hl]; unfold PAGE_SIZE; omega
  · intro as readable writeable executable m hs
    obtain ⟨_, g, hs1, _, heq⟩ :=
      as_define_region_success as vaddr memsize readable writeable executable m hs
    rw [heq]
    exact ⟨_, rfl, hb, hl⟩

/-- Witness of C17: the request `(0x1234, 0x2000)` gives the base `0x1000` and the
length `0x3000`. -/
theorem as_define_region_alignment_witness :
    0x1234 + 0x2000 ≤ MIPS_KSEG0 ∧ region_base 0x1234 = 0x1000 ∧
    region_length 0x1234 0x2000 = 0x3000 ∧
    region_base 0x1234 = 0x1234 / PAGE_SIZE * PAGE_SIZE :=
  ⟨by decide, by decide, by decide,
    (as_define_region_alignment 0x1234 0x2000 (by decide)).1⟩

/-! ## Page-table insert -/

/-- Claim C18: `insert_pt` inserts if absent. For every address space and every
32-bit `vaddr`: if the slot of the page of `vaddr` is not `EMPTY`, `insert_pt`
fails with `EFAULT` (already mapped) and nothing changes; if the second-level
table is there and the slot is `EMPTY`, it returns 0, the slot holds exactly
the word supplied, every other slot reads as before and nothing is allocated;
if the second-level table is missing and `kmalloc` gives one, it returns 0, the
slot holds the word supplied, every other slot of the new table reads `EMPTY`
and every other table is as before; if the table is missing and `kmalloc`
fails, it returns `ENOMEM` and the address space is unchanged. -/
theorem insert_pt_if_absent (as : addrspace) (vaddr paddr : Nat) (m : Machine)
    (hv : vaddr < WORD) :
    (∀ t, as.pagetable (get_first_10_bits vaddr) = some t →
      t (get_middle_10_bits vaddr) ≠ EMPTY →
      insert_pt as vaddr paddr m = (EFAULT, as, m)) ∧
    (∀ t, as.pagetable (get_first_10_bits vaddr) = some t →
      t (get_middle_10_bits vaddr) = EMPTY →
      ∃ as1, insert_pt as vaddr paddr m = (0, as1, m) ∧ as1.head = as.head ∧
        pt_entry as1.pagetable (get_first_10_bits vaddr) (get_middle_10_bits vaddr)
          = some paddr ∧
        (∀ i, i ≠ get_first_10_bits vaddr → as1.pagetable i = as.pagetable i) ∧
        (∀ j, j ≠ get_middle_10_bits vaddr →
          pt_entry as1.pagetable (get_first_10_bits vaddr) j = some (t j))) ∧
    (as.pagetable (get_first_10_bits vaddr) = none →
      ∀ g hs, m.heap = some g :: hs →
      ∃ as1, insert_pt as vaddr paddr m = (0, as1, { m with heap := hs }) ∧
        as1.head = as.head ∧
        pt_entry as1.pagetable (get_first_10_bits vaddr) (get_middle_10_bits vaddr)
          = some paddr ∧
        (∀ i, i ≠ get_first_10_bits vaddr → as1.pagetable i = as.pagetable i) ∧
        (∀ j, j ≠ get_middle_10_bits vaddr →
          pt_entry as1.pagetable (get_first_10_bits vaddr) j = some EMPTY)) ∧
    (as.pagetable (get_first_10_bits vaddr) = none →
      (m.heap = [] ∨ ∃ hs, m.heap = none :: hs) →
      insert_pt as vaddr paddr m = (ENOMEM, as, { m with heap := m.heap.tail })) := by
  have h1 := get_first_10_bits_lt vaddr hv
  have h2 := get_middle_10_bits_lt vaddr
  have hge : ¬ (get_first_10_bits vaddr ≥ PAGETABLE_SIZE ∨
      get_middle_10_bits vaddr ≥ PAGETABLE_SIZE) := by omega
  refine ⟨?_, ?_, ?_, ?_⟩
  · intro t ht he
    simp only [insert_pt, if_neg hge, ht, he, ne_eq, not_false_eq_true, if_true]
  · intro t ht he
    refine ⟨{ as with
      pagetable := Function.update as.pagetable (get_first_10_bits vaddr)
        (some (Function.update t (get_middle_10_bits vaddr) paddr)) }, ?_, rfl, ?_, ?_, ?_⟩
    · simp only [insert_pt, if_neg hge, ht, he, ne_eq, not_true_eq_false, if_false]
    · simp [pt_entry]
    · intro i hi
      simp [Function.update_noteq hi]
    · intro j hj
      simp [pt_entry, Function.update_noteq hj]
  · intro ht g hs hh
    refine ⟨{ as with
      pagetable := Function.update as.pagetable (get_first_10_bits vaddr)
        (some (Function.update (fun _ => EMPTY) (get_middle_10_bits vaddr) paddr)) },
      ?_, rfl, ?_, ?_, ?_⟩
    · simp only [insert_pt, if_neg hge, ht, kmalloc, hh]
    · simp [pt_entry]
    · intro i hi
      simp [Function.update_noteq hi]
    · intro j hj
      simp [pt_entry, Function.update_noteq hj]
  · intro ht hh
    rcases hh with hh | ⟨hs, hh⟩
    · simp only [insert_pt, if_neg hge, ht, kmalloc, hh, List.tail_nil]
      cases m
      simp_all
    · simp only [insert_pt, if_neg hge, ht, kmalloc, hh, List.tail_cons]

/-! ## Destroying an address space -/

theorem released_frame_eq (e : Nat) (he : e < WORD) : released_frame e = entry_frame e := by
  unfold released_frame entry_frame
  have h1 : PADDR_TO_KVADDR e < WORD := Nat.mod_lt _ (by decide)
  have h2 : e &&& PAGE_FRAME = e / PAGE_SIZE * PAGE_SIZE := and_frame_eq_div e he
  rw [and_frame_eq_div _ h1, h2]
  unfold PADDR_TO_KVADDR MIPS_KSEG0 WORD PAGE_SIZE
  unfold WORD at he
  omega

theorem as_destroy_row_eq (t : Nat → Nat) :
    ∀ (n j : Nat) (m : Machine),
      as_destroy_row t n j m =
        { m with released :=
            ((((List.range' j n).map t).filter (fun e => e ≠ EMPTY)).map released_frame).reverse
              ++ m.released } := by
  intro n
  induction n with
  | zero => intro j m; simp [as_destroy_row]
  | succ n ih =>
    intro j m
    unfold as_destroy_row
    by_cases he : t j = EMPTY
    · rw [if_neg (not_not.mpr he), ih]
      simp [List.range'_succ, he]
    · rw [if_pos he, ih]
      simp [List.range'_succ, he, free_kpages, released_frame]

theorem as_destroy_tables_eq (pt : Nat → Option (Nat → Nat)) :
    ∀ (n i : Nat) (m : Machine),
      as_destroy_tables pt n i m =
        { m with
          released :=
            ((((List.range' i n).map (fun i =>
              match pt i with
              | some t => mapped_in_table t
              | none => [])).flatten).map released_frame).reverse ++ m.released
          kfreed :=
            (((List.range' i n).filter (fun i => (pt i).isSome)).map
              KObject.second_table).reverse ++ m.kfreed } := by
  intro n
  induction n with
  | zero => intro i m; simp [as_destroy_tables]
  | succ n ih =>
    intro i m
    unfold as_destroy_tables
    cases hpt : pt i with
    | none =>
      simp only []
      rw [ih]
      simp [List.range'_succ, hpt]
    | some t =>
      simp only []
      rw [ih, as_destroy_row_eq]
      simp [List.range'_succ, hpt, kfree, mapped_in_table, List.range_eq_range']

theorem regions_cleanup_eq :
    ∀ (l : List region) (m : Machine),
      regions_cleanup l m =
        { m with kfreed := (l.map KObject.region_record).reverse ++ m.kfreed } := by
  intro l
  induction l with
  | nil => intro m; simp [regions_cleanup]
  | cons r rest ih =>
    intro m
    unfold regions_cleanup
    rw [ih]
    simp [kfree]

/-- Claim C20: `as_destroy` calls `free_kpages` once for each entry that is not
`EMPTY`, in the order of the two indices, with the frame address of the entry
(`PADDR_TO_KVADDR(entry) & PAGE_FRAME`, which for a 32-bit entry is the kernel
address of `entry & PAGE_FRAME`, the flags stripped): with `N` such entries
exactly `N` frames are released. It frees every allocated second-level table,
then the top-level table, then every region record, then the record of the
address space, and touches nothing else of the machine. -/
theorem as_destroy_releases (as : addrspace) (m : Machine) :
    (as_destroy as m).released =
      ((mapped_entries as.pagetable).map released_frame).reverse ++ m.released ∧
    (as_destroy as m).released.length =
      (mapped_entries as.pagetable).length + m.released.length ∧
    (∀ e, e < WORD → released_frame e = PADDR_TO_KVADDR (e &&& PAGE_FRAME)) ∧
    (as_destroy as m).kfreed =
      KObject.as_record :: ((as.head.map KObject.region_record).reverse ++
        (KObject.top_table ::
          (((allocated_tables as.pagetable).map KObject.second_table).reverse ++ m.kfreed))) ∧
    (as_destroy as m).frames = m.frames ∧ (as_destroy as m).heap = m.heap ∧
    (as_destroy as m).mem = m.mem ∧ (as_destroy as m).tlb = m.tlb := by
  have h : as_destroy as m =
      { m with
        released := ((mapped_entries as.pagetable).map released_frame).reverse ++ m.released
        kfreed := KObject.as_record :: ((as.head.map KObject.region_record).reverse ++
          (KObject.top_table ::
            (((allocated_tables as.pagetable).map KObject.second_table).reverse ++
              m.kfreed))) } := by
    unfold as_destroy
    simp only [as_destroy_tables_eq, regions_cleanup_eq, kfree, mapped_entries,
      allocated_tables, List.range_eq_range']
  rw [h]
  refine ⟨rfl, by simp, fun e he => released_frame_eq e he, rfl, rfl, rfl, rfl, rfl⟩

/-! ## Two failing runs -/

set_option maxRecDepth 100000 in
theorem as_copy_two_pages_run :
    (as_copy (some as_two_pages) machine_one_frame).1 = ENOMEM ∧
    (as_copy (some as_two_pages) machine_one_frame).2.1.isNone = true ∧
    (as_copy (some as_two_pages) machine_one_frame).2.2.frames = [] ∧
    (as_copy (some as_two_pages) machine_one_frame).2.2.released =
      List.replicate 1022 0x80003000 ++ [0x80020000] := by
  decide

/-- Claim C11, evaluated where it fails: the source maps the pages `0x1000` and
`0x2000`, one frame (`0x80020000`) is free, and the block that `kmalloc` gives
for the second-level table of the copy reads `0x3000` where it was not written.
`pt_copy` fills the entries 0 and 1 and fails on entry 2; `as_copy` returns
`ENOMEM` and publishes nothing, but `as_destroy` walks the whole table and
releases, besides the frame `0x80020000`, the address `0x80003000` for each of
the 1022 entries that were never written: frames that were never allocated. -/
theorem as_copy_rollback_releases_unallocated :
    machine_one_frame.frames = [0x80020000] ∧
    (as_copy (some as_two_pages) machine_one_frame).1 = ENOMEM ∧
    (as_copy (some as_two_pages) machine_one_frame).2.1.isNone = true ∧
    (as_copy (some as_two_pages) machine_one_frame).2.2.released =
      List.replicate 1022 0x80003000 ++ [0x80020000] ∧
    0x80003000 ∉ machine_one_frame.frames :=
  ⟨rfl, as_copy_two_pages_run.1, as_copy_two_pages_run.2.1, as_copy_two_pages_run.2.2.2,
    by decide⟩

/-- Claim C16, evaluated where it fails: for the 32-bit request
`(0x10000000, 0xFFFFF000)` the page-aligned span ends, in exact arithmetic, at
`0x10FFFFF000`, above `MIPS_KSEG0`; the sum that `region_valid` compares wraps
to `0x0FFFF000`, so on the address space that `as_create` makes
`as_define_region` returns 0 and the region list gains a region whose
`base_addr + memsize` is above the ceiling. -/
theorem as_define_region_ceiling_wraps :
    (0x10000000 < WORD ∧ 0xFFFFF000 < WORD) ∧
    0x10000000 / PAGE_SIZE * PAGE_SIZE +
      (0xFFFFF000 + 0x10000000 % PAGE_SIZE + (PAGE_SIZE - 1)) / PAGE_SIZE * PAGE_SIZE
        > MIPS_KSEG0 ∧
    (as_create machine_copy).1.map (fun as => as.head) = some [] ∧
    (∀ as0, (as_create machine_copy).1 = some as0 →
      (as_define_region as0 0x10000000 0xFFFFF000 1 1 0 machine_one).1 = 0 ∧
      (as_define_region as0 0x10000000 0xFFFFF000 1 1 0 machine_one).2.1.head =
        [⟨0x10000000, 0xFFFFF000, 1, 1, 7, 0⟩]) ∧
    0x10000000 + 0xFFFFF000 > MIPS_KSEG0 := by
  refine ⟨by decide, by decide, by decide, ?_, by decide⟩
  intro as0 h
  have h0 : as0 = { head := [], pagetable := fun _ => none, pt_lock := true } := by
    simp [as_create, kmalloc, lock_create, machine_copy] at h
    exact h.symm
  subst h0
  exact ⟨by decide, by decide⟩

/-! ## Loading: prepare and complete -/

theorem as_complete_load_row_eq (as : addrspace) (i : Nat) :
    ∀ (n j : Nat) (t : Nat → Nat),
      (∀ j1, j ≤ j1 → j1 < j + n → t j1 ≠ EMPTY →
        ∃ r, get_region as (page_vaddr i j1) = some r) →
      as_complete_load_row as i n j t =
        some (fun j1 => if j ≤ j1 ∧ j1 < j + n then protect_entry as i j1 (t j1) else t j1) := by
  intro n
  induction n with
  | zero =>
    intro j t _
    simp only [as_complete_load_row, Option.some.injEq]
    funext j1
    rw [if_neg (by omega)]
  | succ n ih =>
    intro j t hcov
    unfold as_complete_load_row
    by_cases he : t j = EMPTY
    · rw [if_neg (not_not.mpr he), ih (j + 1) t (fun j1 a b c => hcov j1 (by omega) (by omega) c)]
      simp only [Option.some.injEq]
      funext j1
      by_cases hj : j1 = j
      · subst hj
        rw [if_neg (by omega), if_pos (by omega)]
        simp [protect_entry, he]
      · by_cases hr : j ≤ j1 ∧ j1 < j + (n + 1)
        · rw [if_pos hr, if_pos (by omega)]
        · rw [if_neg hr, if_neg (by omega)]
    · rw [if_pos he]
      obtain ⟨r, hr⟩ := hcov j (le_refl _) (by omega) he
      have hr' : get_region as ((i <<< 22) % WORD ||| (j <<< 12) % WORD) = some r := hr
      simp only [hr']
      by_cases hw : r.old_writeable = 0
      · rw [if_pos hw, ih (j + 1) _ (fun j1 a b c => by
          rw [Function.update_noteq (by omega)] at c
          exact hcov j1 (by omega) (by omega) c)]
        simp only [Option.some.injEq]
        funext j1
        by_cases hj : j1 = j
        · subst hj
          rw [if_neg (by omega), if_pos (by omega), Function.update_same]
          simp [protect_entry, he, hr, hw]
        · rw [Function.update_noteq hj]
          by_cases hrange : j ≤ j1 ∧ j1 < j + (n + 1)
          · rw [if_pos hrange, if_pos (by omega)]
          · rw [if_neg hrange, if_neg (by omega)]
      · rw [if_neg hw, ih (j + 1) t (fun j1 a b c => hcov j1 (by omega) (by omega) c)]
        simp only [Option.some.injEq]
        funext j1
        by_cases hj : j1 = j
        · subst hj
          rw [if_neg (by omega), if_pos (by omega)]
          simp [protect_entry, he, hr, hw]
        · by_cases hrange : j ≤ j1 ∧ j1 < j + (n + 1)
          · rw [if_pos hrange, if_pos (by omega)]
          · rw [if_neg hrange, if_neg (by omega)]

theorem as_complete_load_tables_eq (as : addrspace) :
    ∀ (n i : Nat) (pt : Nat → Option (Nat → Nat)),
      (∀ i1 j1 t, i ≤ i1 → i1 < i + n → j1 < PAGETABLE_SIZE → pt i1 = some t → t j1 ≠ EMPTY →
        ∃ r, get_region as (page_vaddr i1 j1) = some r) →
      as_complete_load_tables as n i pt =
        some (fun i1 =>
          if i ≤ i1 ∧ i1 < i + n then
            (pt i1).map (fun t j => if j < PAGETABLE_SIZE then protect_entry as i1 j (t j) else t j)
          else pt i1) := by
  intro n
  induction n with
  | zero =>
    intro i pt _
    simp only [as_complete_load_tables, Option.some.injEq]
    funext i1
    rw [if_neg (by omega)]
  | succ n ih =>
    intro i pt hcov
    unfold as_complete_load_tables
    cases hpt : pt i with
    | none =>
      simp only []
      rw [ih (i + 1) pt (fun i1 j1 t a b c d e => hcov i1 j1 t (by omega) (by omega) c d e)]
      simp only [Option.some.injEq]
      funext i1
      by_cases hi : i1 = i
      · subst hi
        rw [if_neg (by omega), if_pos (by omega), hpt]
        rfl
      · by_cases hrange : i ≤ i1 ∧ i1 < i + (n + 1)
        · rw [if_pos hrange, if_pos (by omega)]
        · rw [if_neg hrange, if_neg (by omega)]
    | some t =>
      simp only []
      rw [as_complete_load_row_eq as i PAGETABLE_SIZE 0 t
        (fun j1 _ b c => hcov i j1 t (le_refl _) (by omega) (by omega) hpt c)]
      simp only []
      rw [ih (i + 1) _ (fun i1 j1 t1 a b c d e => by
        rw [Function.update_noteq (by omega)] at d
        exact hcov i1 j1 t1 (by omega) (by omega) c d e)]
      simp only [Option.some.injEq]
      funext i1
      by_cases hi : i1 = i
      · subst hi
        rw [if_neg (by omega), if_pos (by omega), Function.update_same, hpt]
        simp
      · rw [Function.update_noteq hi]
        by_cases hrange : i ≤ i1 ∧ i1 < i + (n + 1)
        · rw [if_pos hrange, if_pos (by omega)]
        · rw [if_neg hrange, if_neg (by omega)]

/-- What `as_complete_load` returns when every mapped page lies in a region. -/
theorem as_complete_load_eq (cur : Option addrspace) (as : addrspace) (m : Machine)
    (hcov : pages_in_regions as) :
    as_complete_load cur as m =
      some (0, { as with head := as_complete_load_loop as.head, pagetable := protected_table as },
        as_activate cur m) := by
  unfold as_complete_load
  simp only []
  rw [as_complete_load_tables_eq as PAGETABLE_SIZE 0 as.pagetable
    (fun i1 j1 t _ b c d e => hcov i1 j1 t (by omega) c d e)]
  simp only [Nat.zero_le, true_and, Nat.zero_add]
  rfl

theorem as_prepare_load_loop_eq (l : List region) :
    as_prepare_load_loop l =
      l.map (fun r => { r with old_writeable := r.writeable, writeable := 1 }) := by
  induction l with
  | nil => rfl
  | cons r rest ih => simp [as_prepare_load_loop, ih]

theorem as_complete_load_loop_eq (l : List region) :
    as_complete_load_loop l = l.map (fun r => { r with writeable := r.old_writeable }) := by
  induction l with
  | nil => rfl
  | cons r rest ih => simp [as_complete_load_loop, ih]

theorem protect_word_frame (e : Nat) :
    ((e &&& PAGE_FRAME) ||| TLBLO_VALID) &&& PAGE_FRAME = e &&& PAGE_FRAME := by
  rw [Nat.and_distrib_right, Nat.and_assoc, Nat.and_self,
    show TLBLO_VALID &&& PAGE_FRAME = 0 by decide, Nat.or_zero]

theorem protect_word_valid (e : Nat) :
    ((e &&& PAGE_FRAME) ||| TLBLO_VALID) &&& TLBLO_VALID = TLBLO_VALID := by
  rw [Nat.and_distrib_right, Nat.and_assoc, show PAGE_FRAME &&& TLBLO_VALID = 0 by decide,
    Nat.and_zero, Nat.zero_or, Nat.and_self]

theorem get_region_loop_map (f : region → region)
    (hf : ∀ r, (f r).base_addr = r.base_addr ∧ (f r).memsize = r.memsize) (a : Nat) :
    ∀ l : List region, get_region_loop a (l.map f) = (get_region_loop a l).map f := by
  intro l
  induction l with
  | nil => rfl
  | cons r rest ih =>
    simp only [List.map_cons, get_region_loop]
    have h : region_holds (f r) a ↔ region_holds r a := by
      unfold region_holds
      rw [(hf r).1, (hf r).2]
    by_cases hr : region_holds r a
    · rw [if_pos hr, if_pos (h.mpr hr)]
      rfl
    · rw [if_neg hr, if_neg (fun x => hr (h.mp x)), ih]

theorem pages_in_regions_of_map (as as1 : addrspace) (f : region → region)
    (hf : ∀ r, (f r).base_addr = r.base_addr ∧ (f r).memsize = r.memsize)
    (hhead : as1.head = as.head.map f) (hpt : as1.pagetable = as.pagetable)
    (hcov : pages_in_regions as) : pages_in_regions as1 := by
  intro i j t hi hj ht he
  rw [hpt] at ht
  obtain ⟨r, hr⟩ := hcov i j t hi hj ht he
  refine ⟨f r, ?_⟩
  unfold get_region at hr ⊢
  rw [hhead, get_region_loop_map f hf, hr]
  rfl

theorem pages_in_regions_of_unmapped (as : addrspace) (h : ∀ i, as.pagetable i = none) :
    pages_in_regions as := by
  intro i j t _ _ ht
  rw [h i] at ht
  exact Option.noConfusion ht

theorem page_vaddr_of_bits (a : Nat) (ha : a < WORD) :
    page_vaddr (get_first_10_bits a) (get_middle_10_bits a) = a &&& PAGE_FRAME := by
  rw [and_frame_eq_div a ha]
  unfold page_vaddr get_first_10_bits get_middle_10_bits
  rw [Nat.shiftRight_eq_div_pow, Nat.shiftRight_eq_div_pow, Nat.shiftLeft_eq, Nat.shiftLeft_eq,
    Nat.shiftLeft_eq]
  have h1 : a / 2 ^ 22 * 2 ^ 22 % WORD = 2 ^ 22 * (a / 2 ^ 22) := by
    unfold WORD at *
    omega
  have h2 : a * 2 ^ 10 % WORD / 2 ^ 22 * 2 ^ 12 % WORD = a * 2 ^ 10 % WORD / 2 ^ 22 * 2 ^ 12 := by
    unfold WORD at *
    omega
  have h3 : a * 2 ^ 10 % WORD / 2 ^ 22 * 2 ^ 12 < 2 ^ 22 := by
    unfold WORD at *
    omega
  rw [h1, h2, ← Nat.mul_add_lt_is_or h3]
  unfold WORD PAGE_SIZE at *
  omega

theorem region_holds_page (r : region) (a : Nat) (ha : a < WORD)
    (hb : r.base_addr % PAGE_SIZE = 0) (hl : r.memsize % PAGE_SIZE = 0) :
    region_holds r (a &&& PAGE_FRAME) ↔ region_holds r a := by
  rw [and_frame_eq_div a ha]
  unfold region_holds
  unfold WORD PAGE_SIZE at *
  omega

theorem get_region_loop_page (a : Nat) (ha : a < WORD) :
    ∀ l : List region,
      (∀ r ∈ l, r.base_addr % PAGE_SIZE = 0 ∧ r.memsize % PAGE_SIZE = 0) →
      get_region_loop (a &&& PAGE_FRAME) l = get_region_loop a l := by
  intro l
  induction l with
  | nil => intro _; rfl
  | cons r rest ih =>
    intro hal
    have h := region_holds_page r a ha (hal r (List.mem_cons_self _ _)).1
      (hal r (List.mem_cons_self _ _)).2
    simp only [get_region_loop]
    by_cases hr : region_holds r a
    · rw [if_pos hr, if_pos (h.mpr hr)]
    · rw [if_neg hr, if_neg (fun x => hr (h.mp x)),
        ih (fun r1 h1 => hal r1 (List.mem_cons_of_mem _ h1))]

theorem insert_pt_head (as : addrspace) (v p : Nat) (m : Machine) :
    (insert_pt as v p m).2.1.head = as.head := by
  unfold insert_pt
  simp only []
  split_ifs
  · rfl
  · split
    · split <;> rfl
    · split_ifs <;> rfl

theorem vm_fault_head (as : addrspace) (ft : Int) (a : Nat) (m : Machine) (r : Int)
    (as1 : addrspace) (m1 : Machine)
    (h : vm_fault (some as) ft a m = some (r, some as1, m1)) : as1.head = as.head := by
  have hinj : ∀ (x : Int) (y : Machine),
      some (x, some as, y) = some (r, some as1, m1) → as1.head = as.head := by
    intro x y hxy
    simp only [Option.some.injEq, Prod.mk.injEq] at hxy
    rw [← hxy.2.1]
  unfold vm_fault at h
  by_cases c1 : ft = VM_FAULT_READONLY
  · rw [if_pos c1] at h
    exact hinj _ _ h
  · rw [if_neg c1] at h
    by_cases c2 : ¬ (ft = VM_FAULT_WRITE ∨ ft = VM_FAULT_READ)
    · rw [if_pos c2] at h
      exact hinj _ _ h
    · rw [if_neg c2] at h
      simp only [] at h
      by_cases c3 : probe_pt as a = 0
      · rw [if_pos c3] at h
        by_cases c4 : lookup_region as a ft = 0
        · rw [if_pos c4] at h
          split at h
          · exact Option.noConfusion h
          · exact hinj _ _ h
        · rw [if_neg c4] at h
          exact hinj _ _ h
      · rw [if_neg c3] at h
        by_cases c5 : lookup_region as a ft ≠ 0
        · rw [if_pos c5] at h
          exact hinj _ _ h
        · rw [if_neg c5] at h
          repeat' split at h
          all_goals first
            | exact Option.noConfusion h
            | exact hinj _ _ h
            | (simp only [Option.some.injEq, Prod.mk.injEq] at h
               rw [← h.2.1]
               exact insert_pt_head _ _ _ _)

theorem region_valid_loop_zero (v len : Nat) (l : List region)
    (h : region_valid_loop v len l = 0) (curr : region) (hc : curr ∈ l) (a : Nat)
    (h1 : v ≤ a) (h2 : a < (v + len) % WORD) : ¬ region_holds curr a := by
  intro hold
  rw [region_valid_loop_of_shared v len a curr l hc h1 h2 hold] at h
  revert h
  decide

theorem as_define_region_failed (as : addrspace) (vaddr memsize : Nat)
    (readable writeable executable : Int) (m : Machine)
    (h : (as_define_region as vaddr memsize readable writeable executable m).1 ≠ 0) :
    (as_define_region as vaddr memsize readable writeable executable m).2.1 = as := by
  unfold as_define_region at h ⊢
  simp only [] at h ⊢
  split_ifs with hv
  · rfl
  · rw [if_neg hv] at h
    split
    · rfl
    · rename_i new m1 hc
      rw [hc] at h
      exact absurd rfl h

theorem as_complete_load_head (cur : Option addrspace) (as : addrspace) (m : Machine) (r : Int)
    (as1 : addrspace) (m1 : Machine) (h : as_complete_load cur as m = some (r, as1, m1)) :
    as1.head = as_complete_load_loop as.head := by
  unfold as_complete_load at h
  simp only [] at h
  split at h
  · exact Option.noConfusion h
  · simp only [Option.some.injEq, Prod.mk.injEq] at h
    rw [← h.2.1]

theorem regions_disjoint_map (f : region → region)
    (hf : ∀ r, (f r).base_addr = r.base_addr ∧ (f r).memsize = r.memsize) (l : List region)
    (h : regions_disjoint l) : regions_disjoint (l.map f) := by
  unfold regions_disjoint at h ⊢
  apply List.Pairwise.map f _ h
  intro r1 r2 hr a
  have e1 : region_holds (f r1) a ↔ region_holds r1 a := by
    unfold region_holds
    rw [(hf r1).1, (hf r1).2]
  have e2 : region_holds (f r2) a ↔ region_holds r2 a := by
    unfold region_holds
    rw [(hf r2).1, (hf r2).2]
  rw [e1, e2]
  exact hr a

theorem reachable_regions_disjoint (as : addrspace) (h : reachable as) :
    regions_disjoint as.head := by
  induction h with
  | create m m1 as hc =>
    rw [(as_create_some m as m1 hc).1]
    exact List.Pairwise.nil
  | define as vaddr memsize readable writeable executable m _ ih =>
    by_cases hs : (as_define_region as vaddr memsize readable writeable executable m).1 = 0
    · obtain ⟨hv, g, hs1, _, heq⟩ :=
        as_define_region_success as vaddr memsize readable writeable executable m hs
      rw [heq]
      unfold regions_disjoint
      simp only [List.pairwise_cons]
      refine ⟨?_, ih⟩
      intro curr hcurr a hboth
      unfold region_valid at hv
      split_ifs at hv with hc
      · revert hv; decide
      · exact region_valid_loop_zero _ _ _ hv curr hcurr a hboth.1.1 hboth.1.2 hboth.2
    · rw [as_define_region_failed as vaddr memsize readable writeable executable m hs]
      exact ih
  | prepare as _ ih =>
    show regions_disjoint (as_prepare_load_loop as.head)
    rw [as_prepare_load_loop_eq]
    exact regions_disjoint_map (fun r => { r with old_writeable := r.writeable, writeable := 1 })
      (fun r => ⟨rfl, rfl⟩) _ ih
  | complete cur as m r as1 m1 _ hc ih =>
    rw [as_complete_load_head cur as m r as1 m1 hc, as_complete_load_loop_eq]
    exact regions_disjoint_map (fun r => { r with writeable := r.old_writeable })
      (fun r => ⟨rfl, rfl⟩) _ ih
  | fault as ft a m r as1 m1 _ hf ih =>
    rw [vm_fault_head as ft a m r as1 m1 hf]
    exact ih
  | copy as m as1 m1 _ hc ih =>
    have h0 : (as_copy (some as) m).1 = 0 := by rw [hc]
    obtain ⟨new, _, heq, hhead, _⟩ := as_copy_success as m h0
    rw [hc] at heq
    simp only [Prod.mk.injEq, Option.some.injEq, true_and] at heq
    rw [heq.1, hhead]
    exact ih

/-- In every reachable address space two regions at different places of the
region list hold no common address, a region holding the addresses from its
base up to its end, the 32-bit sum that the code compares; for two regions
that end within the user ceiling this is the disjointness of the intervals
`[base_addr, base_addr + memsize)`. -/
theorem regions_hold_disjoint (as : addrspace) (h : reachable as) :
    ∀ (k1 k2 : Nat) (r1 r2 : region), k1 ≠ k2 → as.head[k1]? = some r1 →
      as.head[k2]? = some r2 →
      (∀ a, ¬ (region_holds r1 a ∧ region_holds r2 a)) ∧
      (r1.base_addr + r1.memsize ≤ MIPS_KSEG0 → r2.base_addr + r2.memsize ≤ MIPS_KSEG0 →
        ∀ a, ¬ ((r1.base_addr ≤ a ∧ a < r1.base_addr + r1.memsize) ∧
          (r2.base_addr ≤ a ∧ a < r2.base_addr + r2.memsize))) := by
  have hd := reachable_regions_disjoint as h
  unfold regions_disjoint at hd
  rw [List.pairwise_iff_getElem] at hd
  intro k1 k2 r1 r2 hne h1 h2
  obtain ⟨hk1, e1⟩ := List.getElem?_eq_some_iff.mp h1
  obtain ⟨hk2, e2⟩ := List.getElem?_eq_some_iff.mp h2
  have hcode : ∀ a, ¬ (region_holds r1 a ∧ region_holds r2 a) := by
    intro a hboth
    rcases Nat.lt_or_gt_of_ne hne with hlt | hgt
    · exact hd k1 k2 hk1 hk2 hlt a (by rw [e1, e2]; exact hboth)
    · exact hd k2 k1 hk2 hk1 hgt a (by rw [e1, e2]; exact ⟨hboth.2, hboth.1⟩)
  refine ⟨hcode, ?_⟩
  intro hc1 hc2 a hboth
  apply hcode a
  unfold region_holds
  unfold MIPS_KSEG0 at hc1 hc2
  unfold WORD
  omega

theorem as_empty_reachable : reachable as_empty :=
  reachable.create machine_copy (as_create machine_copy).2 as_empty rfl

/-- Two regions defined one after the other on the address space that
`as_create` makes. -/
theorem regions_hold_disjoint_run :
    reachable (as_define_region
      (as_define_region as_empty 0x1000 0x2000 1 0 1 machine_one).2.1
      0x400000 0x1000 1 1 0 machine_one).2.1 ∧
    (as_define_region (as_define_region as_empty 0x1000 0x2000 1 0 1 machine_one).2.1
      0x400000 0x1000 1 1 0 machine_one).2.1.head =
      [⟨0x400000, 0x1000, 1, 1, 7, 0⟩, ⟨0x1000, 0x2000, 1, 0, 7, 1⟩] ∧
    ∀ a, ¬ (region_holds ⟨0x400000, 0x1000, 1, 1, 7, 0⟩ a ∧
      region_holds ⟨0x1000, 0x2000, 1, 0, 7, 1⟩ a) :=
  ⟨reachable.define _ _ _ _ _ _ _ (reachable.define _ _ _ _ _ _ _ as_empty_reachable),
    by decide,
    (regions_hold_disjoint
      (as_define_region (as_define_region as_empty 0x1000 0x2000 1 0 1 machine_one).2.1
        0x400000 0x1000 1 1 0 machine_one).2.1
      (reachable.define _ _ _ _ _ _ _ (reachable.define _ _ _ _ _ _ _ as_empty_reachable))
      0 1 ⟨0x400000, 0x1000, 1, 1, 7, 0⟩ ⟨0x1000, 0x2000, 1, 0, 7, 1⟩
      (by decide) (by decide) (by decide)).1⟩

/-- Witness of C18: inserting at `0x1500`, a page that is already mapped. -/
theorem insert_pt_if_absent_witness :
    0x1500 < WORD ∧
    (∀ t, as_readonly.pagetable (get_first_10_bits 0x1500) = some t →
      t (get_middle_10_bits 0x1500) ≠ EMPTY →
      insert_pt as_readonly 0x1500 0x20600 machine_one = (EFAULT, as_readonly, machine_one)) :=
  ⟨by decide, (insert_pt_if_absent as_readonly 0x1500 0x20600 machine_one (by decide)).1⟩

theorem or_valid_and_valid (p : Nat) : (p ||| TLBLO_VALID) &&& TLBLO_VALID = TLBLO_VALID := by
  rw [Nat.and_distrib_right, Nat.and_self]
  apply Nat.eq_of_testBit_eq
  intro i
  simp only [Nat.testBit_or, Nat.testBit_and]
  cases (TLBLO_VALID.testBit i) <;> simp

theorem as_define_region_pagetable (as : addrspace) (vaddr memsize : Nat)
    (readable writeable executable : Int) (m : Machine) :
    (as_define_region as vaddr memsize readable writeable executable m).2.1.pagetable
      = as.pagetable := by
  by_cases hs : (as_define_region as vaddr memsize readable writeable executable m).1 = 0
  · obtain ⟨_, g, hs1, _, heq⟩ :=
      as_define_region_success as vaddr memsize readable writeable executable m hs
    rw [heq]
  · rw [as_define_region_failed as vaddr memsize readable writeable executable m hs]

theorem insert_pt_entries (as : addrspace) (v p : Nat) (m : Machine) (i j : Nat)
    (t1 : Nat → Nat) (h : (insert_pt as v p m).2.1.pagetable i = some t1) (he : t1 j ≠ EMPTY) :
    t1 j = p ∨ ∃ t, as.pagetable i = some t ∧ t1 j = t j := by
  unfold insert_pt at h
  simp only [] at h
  split_ifs at h with c1
  · exact Or.inr ⟨t1, h, rfl⟩
  · split at h
    · rename_i hn
      split at h
      · exact Or.inr ⟨t1, h, rfl⟩
      · simp only [] at h
        by_cases hi : i = get_first_10_bits v
        · subst hi
          rw [Function.update_same] at h
          have ht := Option.some.inj h
          by_cases hj : j = get_middle_10_bits v
          · subst hj
            rw [← ht, Function.update_same]
            exact Or.inl rfl
          · rw [← ht, Function.update_noteq hj] at he
            exact absurd rfl he
        · rw [Function.update_noteq hi] at h
          exact Or.inr ⟨t1, h, rfl⟩
    · rename_i t0 ht0
      split_ifs at h with c2
      · exact Or.inr ⟨t1, h, rfl⟩
      · simp only [] at h
        by_cases hi : i = get_first_10_bits v
        · subst hi
          rw [Function.update_same] at h
          have ht := Option.some.inj h
          by_cases hj : j = get_middle_10_bits v
          · subst hj
            rw [← ht, Function.update_same]
            exact Or.inl rfl
          · rw [← ht, Function.update_noteq hj]
            exact Or.inr ⟨t0, ht0, rfl⟩
        · rw [Function.update_noteq hi] at h
          exact Or.inr ⟨t1, h, rfl⟩

/-- The address space after a fault is the one before, or the one that
`insert_pt` made of it with a valid word. -/
theorem vm_fault_pagetable (as : addrspace) (ft : Int) (a : Nat) (m : Machine) (r : Int)
    (as1 : addrspace) (m1 : Machine)
    (h : vm_fault (some as) ft a m = some (r, some as1, m1)) :
    as1 = as ∨ ∃ p m2, as1 = (insert_pt as a (p ||| TLBLO_VALID) m2).2.1 := by
  have hinj : ∀ (x : Int) (y : Machine),
      some (x, some as, y) = some (r, some as1, m1) →
        as1 = as ∨ ∃ p m2, as1 = (insert_pt as a (p ||| TLBLO_VALID) m2).2.1 := by
    intro x y hxy
    simp only [Option.some.injEq, Prod.mk.injEq] at hxy
    exact Or.inl hxy.2.1.symm
  unfold vm_fault at h
  by_cases c1 : ft = VM_FAULT_READONLY
  · rw [if_pos c1] at h
    exact hinj _ _ h
  · rw [if_neg c1] at h
    by_cases c2 : ¬ (ft = VM_FAULT_WRITE ∨ ft = VM_FAULT_READ)
    · rw [if_pos c2] at h
      exact hinj _ _ h
    · rw [if_neg c2] at h
      simp only [] at h
      by_cases c3 : probe_pt as a = 0
      · rw [if_pos c3] at h
        by_cases c4 : lookup_region as a ft = 0
        · rw [if_pos c4] at h
          split at h
          · exact Option.noConfusion h
          · exact hinj _ _ h
        · rw [if_neg c4] at h
          exact hinj _ _ h
      · rw [if_neg c3] at h
        by_cases c5 : lookup_region as a ft ≠ 0
        · rw [if_pos c5] at h
          exact hinj _ _ h
        · rw [if_neg c5] at h
          repeat' split at h
          all_goals first
            | exact Option.noConfusion h
            | exact hinj _ _ h
            | (simp only [Option.some.injEq, Prod.mk.injEq] at h
               rw [← h.2.1]
               exact Or.inr ⟨_, _, rfl⟩)

theorem as_complete_load_row_entries (as : addrspace) (i : Nat) :
    ∀ (n j : Nat) (t t1 : Nat → Nat), as_complete_load_row as i n j t = some t1 →
      ∀ j1, t1 j1 = t j1 ∨ t1 j1 = (t j1 &&& PAGE_FRAME) ||| TLBLO_VALID := by
  intro n
  induction n with
  | zero =>
    intro j t t1 h j1
    simp only [as_complete_load_row, Option.some.injEq] at h
    rw [← h]
    exact Or.inl rfl
  | succ n ih =>
    intro j t t1 h j1
    unfold as_complete_load_row at h
    simp only [] at h
    split_ifs at h with c1
    · split at h
      · exact Option.noConfusion h
      · split_ifs at h with c2
        · rcases ih (j + 1) _ t1 h j1 with h1 | h1
          · by_cases hj : j1 = j
            · subst hj
              rw [Function.update_same] at h1
              exact Or.inr h1
            · rw [Function.update_noteq hj] at h1
              exact Or.inl h1
          · by_cases hj : j1 = j
            · subst hj
              rw [Function.update_same, protect_word_frame] at h1
              exact Or.inr h1
            · rw [Function.update_noteq hj] at h1
              exact Or.inr h1
        · exact ih (j + 1) t t1 h j1
    · exact ih (j + 1) t t1 h j1

theorem as_complete_load_tables_entries (as : addrspace) :
    ∀ (n i : Nat) (pt pt1 : Nat → Option (Nat → Nat)),
      as_complete_load_tables as n i pt = some pt1 →
      ∀ i1 t1, pt1 i1 = some t1 →
        ∃ t, pt i1 = some t ∧
          ∀ j1, t1 j1 = t j1 ∨ t1 j1 = (t j1 &&& PAGE_FRAME) ||| TLBLO_VALID := by
  intro n
  induction n with
  | zero =>
    intro i pt pt1 h i1 t1 h1
    simp only [as_complete_load_tables, Option.some.injEq] at h
    rw [← h] at h1
    exact ⟨t1, h1, fun _ => Or.inl rfl⟩
  | succ n ih =>
    intro i pt pt1 h i1 t1 h1
    unfold as_complete_load_tables at h
    split at h
    · rename_i t0 ht0
      split at h
      · exact Option.noConfusion h
      · rename_i t2 hrow
        obtain ⟨t, ht, hall⟩ := ih (i + 1) _ pt1 h i1 t1 h1
        by_cases hi : i1 = i
        · subst hi
          rw [Function.update_same] at ht
          have e := Option.some.inj ht
          subst e
          refine ⟨t0, ht0, ?_⟩
          intro j1
          rcases hall j1 with h2 | h2
          · rcases as_complete_load_row_entries as i1 _ _ t0 _ hrow j1 with h3 | h3
            · exact Or.inl (h2.trans h3)
            · exact Or.inr (h2.trans h3)
          · rcases as_complete_load_row_entries as i1 _ _ t0 _ hrow j1 with h3 | h3
            · rw [h3] at h2
              exact Or.inr h2
            · rw [h3, protect_word_frame] at h2
              exact Or.inr h2
        · rw [Function.update_noteq hi] at ht
          exact ⟨t, ht, hall⟩
    · exact ih (i + 1) pt pt1 h i1 t1 h1

theorem as_complete_load_pagetable (cur : Option addrspace) (as : addrspace) (m : Machine)
    (r : Int) (as1 : addrspace) (m1 : Machine)
    (h : as_complete_load cur as m = some (r, as1, m1)) :
    as_complete_load_tables as PAGETABLE_SIZE 0 as.pagetable = some as1.pagetable := by
  unfold as_complete_load at h
  simp only [] at h
  split at h
  · exact Option.noConfusion h
  · rename_i pt hpt
    simp only [Option.some.injEq, Prod.mk.injEq] at h
    rw [← h.2.1]
    exact hpt

/-- In every reachable address space the entries that are not `EMPTY` are valid. -/
theorem reachable_entries_valid (as : addrspace) (h : reachable as) : entries_valid as := by
  induction h with
  | create m m1 as hc =>
    intro i j t _ _ ht
    rw [(as_create_some m as m1 hc).2.1] at ht
    exact Option.noConfusion ht
  | define as vaddr memsize readable writeable executable m _ ih =>
    intro i j t hi hj ht he
    rw [as_define_region_pagetable] at ht
    exact ih i j t hi hj ht he
  | prepare as _ ih => exact ih
  | complete cur as m r as1 m1 _ hc ih =>
    intro i j t1 hi hj ht he
    obtain ⟨t, ht0, hall⟩ := as_complete_load_tables_entries as _ _ _ _
      (as_complete_load_pagetable cur as m r as1 m1 hc) i t1 ht
    rcases hall j with h1 | h1
    · rw [h1] at he ⊢
      exact ih i j t hi hj ht0 he
    · rw [h1]
      exact protect_word_valid _
  | fault as ft a m r as1 m1 _ hf ih =>
    rcases vm_fault_pagetable as ft a m r as1 m1 hf with h1 | ⟨p, m2, h1⟩
    · rw [h1]; exact ih
    · intro i j t1 hi hj ht he
      rw [h1] at ht
      rcases insert_pt_entries as a _ m2 i j t1 ht he with h2 | ⟨t, ht0, h2⟩
      · rw [h2]; exact or_valid_and_valid p
      · rw [h2] at he ⊢
        exact ih i j t hi hj ht0 he
  | copy as m as1 m1 _ hc ih =>
    have h0 : (as_copy (some as) m).1 = 0 := by rw [hc]
    obtain ⟨new, used, hnew, _, _, _, hnone, hsome⟩ := as_copy_pagetable as m h0
    rw [hc] at hnew
    simp only [Option.some.injEq] at hnew
    subst hnew
    intro i j t1 hi hj ht he
    cases hold : as.pagetable i with
    | none =>
      rw [hnone i hi hold] at ht
      exact Option.noConfusion ht
    | some t =>
      obtain ⟨t2, ht2, hrest⟩ := hsome i t hi hold
      rw [ht2] at ht
      have e := Option.some.inj ht
      subst e
      by_cases hte : t j = EMPTY
      · exact absurd ((hrest j hj).1 hte) he
      · obtain ⟨f, _, _, hfe, _⟩ := (hrest j hj).2 hte
        rw [hfe, copy_entry_valid]
        exact ih i j t hi hj hold hte

/-! ## Probing the page table -/

/-- Claim C19: for a 32-bit `vaddr`, `probe_pt` returns 0 (present) or -1 (absent);
it returns 0 exactly when the second-level table of the first index is
allocated and the selected entry is not `EMPTY`, which, in a page table whose
non-empty entries are valid - as in every reachable address space - is exactly
when a valid entry exists for the page; the result is the same for two
addresses of the same page. `probe_pt` is a function of the address space and
the address alone: it changes no page table and allocates nothing. -/
theorem probe_pt_present_iff (as : addrspace) (vaddr : Nat) (hv : vaddr < WORD) :
    (probe_pt as vaddr = 0 ∨ probe_pt as vaddr = -1) ∧
    (probe_pt as vaddr = 0 ↔
      ∃ t, as.pagetable (get_first_10_bits vaddr) = some t ∧
        t (get_middle_10_bits vaddr) ≠ EMPTY) ∧
    ((∀ i j t, i < PAGETABLE_SIZE → j < PAGETABLE_SIZE → as.pagetable i = some t →
        t j ≠ EMPTY → t j &&& TLBLO_VALID = TLBLO_VALID) →
      (probe_pt as vaddr = 0 ↔
        ∃ t, as.pagetable (get_first_10_bits vaddr) = some t ∧
          t (get_middle_10_bits vaddr) &&& TLBLO_VALID = TLBLO_VALID)) ∧
    (reachable as →
      (probe_pt as vaddr = 0 ↔
        ∃ t, as.pagetable (get_first_10_bits vaddr) = some t ∧
          t (get_middle_10_bits vaddr) &&& TLBLO_VALID = TLBLO_VALID)) ∧
    (∀ v2, v2 < WORD → v2 / PAGE_SIZE = vaddr / PAGE_SIZE →
      probe_pt as v2 = probe_pt as vaddr) := by
  have h1 := get_first_10_bits_lt vaddr hv
  have h2 := get_middle_10_bits_lt vaddr
  have hiff := probe_pt_eq_zero_iff as vaddr hv
  have hvalid : (∀ i j t, i < PAGETABLE_SIZE → j < PAGETABLE_SIZE → as.pagetable i = some t →
      t j ≠ EMPTY → t j &&& TLBLO_VALID = TLBLO_VALID) →
      (probe_pt as vaddr = 0 ↔
        ∃ t, as.pagetable (get_first_10_bits vaddr) = some t ∧
          t (get_middle_10_bits vaddr) &&& TLBLO_VALID = TLBLO_VALID) := by
    intro hwf
    rw [hiff]
    constructor
    · rintro ⟨t, ht, he⟩
      exact ⟨t, ht, hwf _ _ t h1 h2 ht he⟩
    · rintro ⟨t, ht, he⟩
      refine ⟨t, ht, ?_⟩
      intro h0
      rw [h0] at he
      revert he
      decide
  refine ⟨?_, hiff, hvalid, fun hr => hvalid (reachable_entries_valid as hr), ?_⟩
  · unfold probe_pt
    simp only []
    split_ifs
    · exact Or.inr rfl
    · cases as.pagetable (get_first_10_bits vaddr) with
      | none => exact Or.inr rfl
      | some t =>
        simp only []
        split_ifs
        · exact Or.inr rfl
        · exact Or.inl rfl
  · intro v2 hv2 hpage
    have e1 : get_first_10_bits v2 = get_first_10_bits vaddr := by
      unfold get_first_10_bits
      rw [Nat.shiftRight_eq_div_pow, Nat.shiftRight_eq_div_pow]
      unfold PAGE_SIZE at hpage
      omega
    have e2 : get_middle_10_bits v2 = get_middle_10_bits vaddr := by
      unfold get_middle_10_bits
      rw [Nat.shiftRight_eq_div_pow, Nat.shiftRight_eq_div_pow, Nat.shiftLeft_eq,
        Nat.shiftLeft_eq]
      unfold PAGE_SIZE at hpage
      unfold WORD at *
      omega
    unfold probe_pt
    simp only [e1, e2]

/-- Witness of C19: the mapped page `0x1000` and the unmapped page `0x2000`. -/
theorem probe_pt_present_iff_witness :
    0x1500 < WORD ∧ probe_pt as_readonly 0x1500 = 0 ∧ probe_pt as_readonly 0x2500 = -1 ∧
    (probe_pt as_readonly 0x1500 = 0 ↔
      ∃ t, as_readonly.pagetable (get_first_10_bits 0x1500) = some t ∧
        t (get_middle_10_bits 0x1500) ≠ EMPTY) :=
  ⟨by decide, by decide, by decide,
    (probe_pt_present_iff as_readonly 0x1500 (by decide)).2.1⟩

/-! ## Mapped pages lie in regions -/

theorem insert_pt_new_entry (as : addrspace) (v p : Nat) (m : Machine) (i j : Nat)
    (t1 : Nat → Nat) (h : (insert_pt as v p m).2.1.pagetable i = some t1) (he : t1 j ≠ EMPTY) :
    (v < WORD ∧ i = get_first_10_bits v ∧ j = get_middle_10_bits v) ∨
      ∃ t, as.pagetable i = some t ∧ t1 j = t j := by
  unfold insert_pt at h
  simp only [] at h
  split_ifs at h with c1
  · exact Or.inr ⟨t1, h, rfl⟩
  · have hv : v < WORD := by
      have : get_first_10_bits v < PAGETABLE_SIZE := by omega
      unfold get_first_10_bits PAGETABLE_SIZE at this
      rw [Nat.shiftRight_eq_div_pow] at this
      unfold WORD
      omega
    split at h
    · rename_i hn
      split at h
      · exact Or.inr ⟨t1, h, rfl⟩
      · simp only [] at h
        by_cases hi : i = get_first_10_bits v
        · subst hi
          rw [Function.update_same] at h
          have ht := Option.some.inj h
          by_cases hj : j = get_middle_10_bits v
          · exact Or.inl ⟨hv, rfl, hj⟩
          · rw [← ht, Function.update_noteq hj] at he
            exact absurd rfl he
        · rw [Function.update_noteq hi] at h
          exact Or.inr ⟨t1, h, rfl⟩
    · rename_i t0 ht0
      split_ifs at h with c2
      · exact Or.inr ⟨t1, h, rfl⟩
      · simp only [] at h
        by_cases hi : i = get_first_10_bits v
        · subst hi
          rw [Function.update_same] at h
          have ht := Option.some.inj h
          by_cases hj : j = get_middle_10_bits v
          · exact Or.inl ⟨hv, rfl, hj⟩
          · rw [← ht, Function.update_noteq hj]
            exact Or.inr ⟨t0, ht0, rfl⟩
        · rw [Function.update_noteq hi] at h
          exact Or.inr ⟨t1, h, rfl⟩

/-- The address space after a fault is the one before, or the one that
`insert_pt` made of it for an address that lies in a region. -/
theorem vm_fault_inserted (as : addrspace) (ft : Int) (a : Nat) (m : Machine) (r : Int)
    (as1 : addrspace) (m1 : Machine)
    (h : vm_fault (some as) ft a m = some (r, some as1, m1)) :
    as1 = as ∨
      ((∃ reg, get_region as a = some reg) ∧ ∃ p m2, as1 = (insert_pt as a p m2).2.1) := by
  have hinj : ∀ (x : Int) (y : Machine),
      some (x, some as, y) = some (r, some as1, m1) →
        as1 = as ∨
          ((∃ reg, get_region as a = some reg) ∧ ∃ p m2, as1 = (insert_pt as a p m2).2.1) := by
    intro x y hxy
    simp only [Option.some.injEq, Prod.mk.injEq] at hxy
    exact Or.inl hxy.2.1.symm
  unfold vm_fault at h
  by_cases c1 : ft = VM_FAULT_READONLY
  · rw [if_pos c1] at h
    exact hinj _ _ h
  · rw [if_neg c1] at h
    by_cases c2 : ¬ (ft = VM_FAULT_WRITE ∨ ft = VM_FAULT_READ)
    · rw [if_pos c2] at h
      exact hinj _ _ h
    · rw [if_neg c2] at h
      simp only [] at h
      by_cases c3 : probe_pt as a = 0
      · rw [if_pos c3] at h
        by_cases c4 : lookup_region as a ft = 0
        · rw [if_pos c4] at h
          split at h
          · exact Option.noConfusion h
          · exact hinj _ _ h
        · rw [if_neg c4] at h
          exact hinj _ _ h
      · rw [if_neg c3] at h
        by_cases c5 : lookup_region as a ft ≠ 0
        · rw [if_pos c5] at h
          exact hinj _ _ h
        · rw [if_neg c5] at h
          have hreg : ∃ reg, get_region as a = some reg := by
            cases hg : get_region as a with
            | none =>
              exfalso
              apply c5
              unfold get_region at hg
              unfold lookup_region
              simp only [hg]
              decide
            | some reg => exact ⟨reg, rfl⟩
          repeat' split at h
          all_goals first
            | exact Option.noConfusion h
            | exact hinj _ _ h
            | (simp only [Option.some.injEq, Prod.mk.injEq] at h
               rw [← h.2.1]
               exact Or.inr ⟨hreg, _, _, rfl⟩)

theorem get_region_loop_cons_some (a : Nat) (new : region) (l : List region)
    (h : ∃ r, get_region_loop a l = some r) : ∃ r, get_region_loop a (new :: l) = some r := by
  simp only [get_region_loop]
  split_ifs
  · exact ⟨new, rfl⟩
  · exact h

theorem reachable_regions_aligned (as : addrspace) (h : reachable as) : regions_aligned as := by
  induction h with
  | create m m1 as hc =>
    intro r hr
    rw [(as_create_some m as m1 hc).1] at hr
    simp at hr
  | define as vaddr memsize readable writeable executable m _ ih =>
    by_cases hs : (as_define_region as vaddr memsize readable writeable executable m).1 = 0
    · obtain ⟨_, g, hs1, _, heq⟩ :=
        as_define_region_success as vaddr memsize readable writeable executable m hs
      rw [heq]
      intro r hr
      rcases List.mem_cons.mp hr with h1 | h1
      · rw [h1]
        exact ⟨and_frame_mod _, and_frame_mod _⟩
      · exact ih r h1
    · rw [as_define_region_failed as vaddr memsize readable writeable executable m hs]
      exact ih
  | prepare as _ ih =>
    intro r hr
    have hr' : r ∈ as_prepare_load_loop as.head := hr
    rw [as_prepare_load_loop_eq, List.mem_map] at hr'
    obtain ⟨r0, hr0, heq⟩ := hr'
    rw [← heq]
    exact ih r0 hr0
  | complete cur as m r as1 m1 _ hc ih =>
    intro r1 hr
    rw [as_complete_load_head cur as m r as1 m1 hc, as_complete_load_loop_eq,
      List.mem_map] at hr
    obtain ⟨r0, hr0, heq⟩ := hr
    rw [← heq]
    exact ih r0 hr0
  | fault as ft a m r as1 m1 _ hf ih =>
    intro r1 hr
    rw [vm_fault_head as ft a m r as1 m1 hf] at hr
    exact ih r1 hr
  | copy as m as1 m1 _ hc ih =>
    have h0 : (as_copy (some as) m).1 = 0 := by rw [hc]
    obtain ⟨new, _, heq, hhead, _⟩ := as_copy_success as m h0
    rw [hc] at heq
    simp only [Prod.mk.injEq, Option.some.injEq, true_and] at heq
    intro r1 hr
    rw [heq.1, hhead] at hr
    exact ih r1 hr

/-- In every reachable address space every mapped page lies in a region. -/
theorem reachable_pages_in_regions (as : addrspace) (h : reachable as) :
    pages_in_regions as := by
  induction h with
  | create m m1 as hc =>
    exact pages_in_regions_of_unmapped as (fun i => by rw [(as_create_some m as m1 hc).2.1])
  | define as vaddr memsize readable writeable executable m _ ih =>
    by_cases hs : (as_define_region as vaddr memsize readable writeable executable m).1 = 0
    · obtain ⟨_, g, hs1, _, heq⟩ :=
        as_define_region_success as vaddr memsize readable writeable executable m hs
      rw [heq]
      intro i j t hi hj ht he
      exact get_region_loop_cons_some _ _ _ (ih i j t hi hj ht he)
    · rw [as_define_region_failed as vaddr memsize readable writeable executable m hs]
      exact ih
  | prepare as _ ih =>
    exact pages_in_regions_of_map as _
      (fun r => { r with old_writeable := r.writeable, writeable := 1 })
      (fun r => ⟨rfl, rfl⟩) (as_prepare_load_loop_eq as.head) rfl ih
  | complete cur as m r as1 m1 _ hc ih =>
    have heq := as_complete_load_eq cur as m ih
    rw [hc] at heq
    simp only [Option.some.injEq, Prod.mk.injEq] at heq
    rw [heq.2.1]
    intro i j t1 hi hj ht he
    simp only [protected_table, if_pos hi, Option.map_eq_some'] at ht
    obtain ⟨t, ht0, hte⟩ := ht
    have he0 : t j ≠ EMPTY := by
      intro h0
      apply he
      rw [← hte]
      simp [hj, protect_entry, h0]
    obtain ⟨r0, hr0⟩ := ih i j t hi hj ht0 he0
    refine ⟨{ r0 with writeable := r0.old_writeable }, ?_⟩
    show get_region_loop _ (as_complete_load_loop as.head) = _
    rw [as_complete_load_loop_eq, get_region_loop_map
      (fun r => { r with writeable := r.old_writeable }) (fun r => ⟨rfl, rfl⟩)]
    unfold get_region at hr0
    rw [hr0]
    rfl
  | fault as ft a m r as1 m1 hreach hf ih =>
    rcases vm_fault_inserted as ft a m r as1 m1 hf with h1 | ⟨⟨reg, hreg⟩, p, m2, h1⟩
    · rw [h1]; exact ih
    · have hhead : as1.head = as.head := vm_fault_head as ft a m r as1 m1 hf
      intro i j t1 hi hj ht he
      rw [h1] at ht
      show ∃ r, get_region_loop (page_vaddr i j) as1.head = some r
      rw [hhead]
      rcases insert_pt_new_entry as a p m2 i j t1 ht he with ⟨hv, hi0, hj0⟩ | ⟨t, ht0, h2⟩
      · rw [hi0, hj0, page_vaddr_of_bits a hv,
          get_region_loop_page a hv _ (reachable_regions_aligned as hreach)]
        exact ⟨reg, hreg⟩
      · rw [h2] at he
        exact ih i j t hi hj ht0 he
  | copy as m as1 m1 _ hc ih =>
    have h0 : (as_copy (some as) m).1 = 0 := by rw [hc]
    obtain ⟨new, used, hnew, hhead, _, _, hnone, hsome⟩ := as_copy_pagetable as m h0
    rw [hc] at hnew
    simp only [Option.some.injEq] at hnew
    subst hnew
    intro i j t1 hi hj ht he
    show ∃ r, get_region_loop (page_vaddr i j) as1.head = some r
    rw [hhead]
    cases hold : as.pagetable i with
    | none =>
      rw [hnone i hi hold] at ht
      exact Option.noConfusion ht
    | some t =>
      obtain ⟨t2, ht2, hrest⟩ := hsome i t hi hold
      rw [ht2] at ht
      have e := Option.some.inj ht
      subst e
      by_cases hte : t j = EMPTY
      · exact absurd ((hrest j hj).1 hte) he
      · exact ih i j t hi hj hold hte

/-! ## Preparing a load -/

/-- Claim C14: `as_prepare_load` returns 0 and gives every region `old_writeable`
equal to its former `writeable` and `writeable = 1`; the bases, lengths,
`readable`, `executable`, the order of the regions and the page table are
unchanged. Consequently, on an address space in which every mapped page lies
in a region, as in every reachable address space, `as_prepare_load` followed by
`as_complete_load` returns 0 and gives back every region with the `writeable`
flag it had before `as_prepare_load`. -/
theorem as_prepare_load_saves (as : addrspace) :
    (as_prepare_load as).1 = 0 ∧
    (as_prepare_load as).2.head =
      as.head.map (fun r => { r with old_writeable := r.writeable, writeable := 1 }) ∧
    (as_prepare_load as).2.head.length = as.head.length ∧
    (as_prepare_load as).2.pagetable = as.pagetable ∧
    (as_prepare_load as).2.pt_lock = as.pt_lock ∧
    (pages_in_regions as → ∀ (cur : Option addrspace) (m : Machine),
      ∃ as2 m2, as_complete_load cur (as_prepare_load as).2 m = some (0, as2, m2) ∧
        as2.head = as.head.map (fun r => { r with old_writeable := r.writeable }) ∧
        as2.head.map (fun r => r.writeable) = as.head.map (fun r => r.writeable)) ∧
    (reachable as → ∀ (cur : Option addrspace) (m : Machine),
      ∃ as2 m2, as_complete_load cur (as_prepare_load as).2 m = some (0, as2, m2) ∧
        as2.head = as.head.map (fun r => { r with old_writeable := r.writeable }) ∧
        as2.head.map (fun r => r.writeable) = as.head.map (fun r => r.writeable)) := by
  have hhead : (as_prepare_load as).2.head =
      as.head.map (fun r => { r with old_writeable := r.writeable, writeable := 1 }) :=
    as_prepare_load_loop_eq as.head
  have hmain : pages_in_regions as → ∀ (cur : Option addrspace) (m : Machine),
      ∃ as2 m2, as_complete_load cur (as_prepare_load as).2 m = some (0, as2, m2) ∧
        as2.head = as.head.map (fun r => { r with old_writeable := r.writeable }) ∧
        as2.head.map (fun r => r.writeable) = as.head.map (fun r => r.writeable) := ?_
  · exact ⟨rfl, hhead, by rw [hhead, List.length_map], rfl, rfl, hmain,
      fun hr => hmain (reachable_pages_in_regions as hr)⟩
  intro hcov cur m
  have hcov1 : pages_in_regions (as_prepare_load as).2 :=
    pages_in_regions_of_map as _
      (fun r => { r with old_writeable := r.writeable, writeable := 1 })
      (fun r => ⟨rfl, rfl⟩) hhead rfl hcov
  refine ⟨_, _, as_complete_load_eq cur _ m hcov1, ?_, ?_⟩
  · simp only [as_complete_load_loop_eq, hhead, List.map_map]
    rfl
  · simp only [as_complete_load_loop_eq, hhead, List.map_map]
    rfl

/-! ## Address slicing -/

theorem get_first_10_bits_eq (v : Nat) : get_first_10_bits v = v / 2 ^ 22 := by
  unfold get_first_10_bits
  rw [Nat.shiftRight_eq_div_pow]

theorem get_middle_10_bits_eq (v : Nat) :
    get_middle_10_bits v = v / 2 ^ 12 % 1024 := by
  unfold get_middle_10_bits
  rw [Nat.shiftRight_eq_div_pow, Nat.shiftLeft_eq]
  unfold WORD at *
  omega

theorem page_vaddr_eq (i j : Nat) (hi : i < PAGETABLE_SIZE) (hj : j < PAGETABLE_SIZE) :
    page_vaddr i j = i * 2 ^ 22 + j * 2 ^ 12 := by
  unfold page_vaddr
  rw [Nat.shiftLeft_eq, Nat.shiftLeft_eq]
  unfold PAGETABLE_SIZE at *
  have h1 : i * 2 ^ 22 % WORD = 2 ^ 22 * i := by
    unfold WORD
    omega
  have h2 : j * 2 ^ 12 % WORD = j * 2 ^ 12 := by
    unfold WORD
    omega
  have h3 : j * 2 ^ 12 < 2 ^ 22 := by omega
  rw [h1, h2, ← Nat.mul_add_lt_is_or h3]
  omega

/-- Claim C29: for a 32-bit address `v`, `get_first_10_bits v` is `v / 2^22` and
`get_middle_10_bits v` is `(v / 2^12) % 1024`; both are below `PAGETABLE_SIZE`,
so the range tests of `insert_pt` and `probe_pt` are false; `v` is the sum of
the first index times `2^22`, the middle index times `2^12` and `v % 4096`.
Conversely, for `i, j < 1024` the address `(i << 22) | (j << 12)` that
`as_complete_load` rebuilds is `i * 2^22 + j * 2^12`, a 32-bit address whose
indices are `i` and `j`. -/
theorem address_slicing (v i j : Nat) (hv : v < WORD) (hi : i < PAGETABLE_SIZE)
    (hj : j < PAGETABLE_SIZE) :
    get_first_10_bits v = v / 2 ^ 22 ∧
    get_middle_10_bits v = v / 2 ^ 12 % 1024 ∧
    get_first_10_bits v < PAGETABLE_SIZE ∧
    get_middle_10_bits v < PAGETABLE_SIZE ∧
    ¬ (get_first_10_bits v ≥ PAGETABLE_SIZE ∨ get_middle_10_bits v ≥ PAGETABLE_SIZE) ∧
    v = get_first_10_bits v * 2 ^ 22 + get_middle_10_bits v * 2 ^ 12 + v % 4096 ∧
    (∀ (as : addrspace) (p : Nat) (m : Machine),
      (insert_pt as v p m).1 = EFAULT →
        ∃ t, as.pagetable (get_first_10_bits v) = some t ∧ t (get_middle_10_bits v) ≠ EMPTY) ∧
    (∀ as : addrspace, probe_pt as v = -1 →
      as.pagetable (get_first_10_bits v) = none ∨
        ∃ t, as.pagetable (get_first_10_bits v) = some t ∧ t (get_middle_10_bits v) = EMPTY) ∧
    page_vaddr i j = i * 2 ^ 22 + j * 2 ^ 12 ∧
    page_vaddr i j < WORD ∧
    page_vaddr i j % 4096 = 0 ∧
    get_first_10_bits (page_vaddr i j) = i ∧
    get_middle_10_bits (page_vaddr i j) = j := by
  have h1 := get_first_10_bits_eq v
  have h2 := get_middle_10_bits_eq v
  have h3 : get_first_10_bits v < PAGETABLE_SIZE := get_first_10_bits_lt v hv
  have h4 : get_middle_10_bits v < PAGETABLE_SIZE := get_middle_10_bits_lt v
  have h5 := page_vaddr_eq i j hi hj
  have h6 : page_vaddr i j < WORD := by
    rw [h5]
    unfold WORD PAGETABLE_SIZE at *
    omega
  refine ⟨h1, h2, h3, h4, by omega, ?_, ?_, ?_, h5, h6, ?_, ?_, ?_⟩
  · rw [h1, h2]
    omega
  · intro as p m h
    have hr : ¬ (get_first_10_bits v ≥ PAGETABLE_SIZE ∨ get_middle_10_bits v ≥ PAGETABLE_SIZE) := by
      omega
    unfold insert_pt at h
    simp only [] at h
    rw [if_neg hr] at h
    cases ht : as.pagetable (get_first_10_bits v) with
    | none =>
      rw [ht] at h
      simp only [] at h
      cases hk : kmalloc m with
      | mk o m1 =>
        rw [hk] at h
        cases o with
        | none => simp [ENOMEM, EFAULT] at h
        | some g => simp [EFAULT] at h
    | some t =>
      rw [ht] at h
      simp only [] at h
      by_cases he : t (get_middle_10_bits v) ≠ EMPTY
      · exact ⟨t, rfl, he⟩
      · rw [if_neg he] at h
        simp [EFAULT] at h
  · intro as h
    have hr : ¬ (get_first_10_bits v ≥ PAGETABLE_SIZE ∨ get_middle_10_bits v ≥ PAGETABLE_SIZE) := by
      omega
    unfold probe_pt at h
    simp only [] at h
    rw [if_neg hr] at h
    cases ht : as.pagetable (get_first_10_bits v) with
    | none => exact Or.inl rfl
    | some t =>
      rw [ht] at h
      simp only [] at h
      by_cases he : t (get_middle_10_bits v) = EMPTY
      · exact Or.inr ⟨t, rfl, he⟩
      · rw [if_neg he] at h
        simp at h
  · rw [h5]
    omega
  · rw [get_first_10_bits_eq, h5]
    unfold PAGETABLE_SIZE at *
    omega
  · rw [get_middle_10_bits_eq, h5]
    unfold PAGETABLE_SIZE at *
    omega

/-- Witness of C29: the address `0x00C03ABC` has the indices 3 and 3 and the
offset `0xABC`; the indices 3 and 5 rebuild the address `0x00C05000`. -/
theorem address_slicing_witness :
    get_first_10_bits 0x00C03ABC = 3 ∧ get_middle_10_bits 0x00C03ABC = 3 ∧
    page_vaddr 3 5 = 0x00C05000 ∧
    get_first_10_bits (page_vaddr 3 5) = 3 ∧ get_middle_10_bits (page_vaddr 3 5) = 5 := by
  have h := address_slicing 0x00C03ABC 3 5 (by decide) (by decide) (by decide)
  exact ⟨h.1.trans (by norm_num), h.2.1.trans (by norm_num),
    h.2.2.2.2.2.2.2.2.1.trans (by norm_num),
    h.2.2.2.2.2.2.2.2.2.2.2.1, h.2.2.2.2.2.2.2.2.2.2.2.2⟩

/-! ## The insert of the fault handler -/

/-- An address that a region holds is a 32-bit address. -/
theorem get_region_lt_word (as : addrspace) (a : Nat) (r : region)
    (h : get_region as a = some r) : r ∈ as.head ∧ region_holds r a ∧ a < WORD := by
  unfold get_region at h
  have key : ∀ l : List region, get_region_loop a l = some r → r ∈ l ∧ region_holds r a := by
    intro l
    induction l with
    | nil => intro h1; exact Option.noConfusion h1
    | cons hd tl ih =>
      intro h1
      simp only [get_region_loop] at h1
      split_ifs at h1 with c
      · have e := Option.some.inj h1
        subst e
        exact ⟨List.mem_cons_self _ _, c⟩
      · exact ⟨List.mem_cons_of_mem _ (ih h1).1, (ih h1).2⟩
  obtain ⟨h1, h2⟩ := key as.head h
  refine ⟨h1, h2, ?_⟩
  have h3 := h2.2
  have h4 : (r.base_addr + r.memsize) % WORD < WORD := Nat.mod_lt _ (by unfold WORD; omega)
  omega

theorem lookup_region_zero_get (as : addrspace) (a : Nat) (ft : Int)
    (h : lookup_region as a ft = 0) : ∃ r, get_region as a = some r := by
  unfold lookup_region at h
  unfold get_region
  cases hg : get_region_loop a as.head with
  | none =>
    rw [hg] at h
    simp [EFAULT] at h
  | some r => exact ⟨r, rfl⟩

/-- What `insert_pt` does for a 32-bit address that `probe_pt` reports absent. -/
theorem insert_pt_of_absent (as : addrspace) (a p : Nat) (m : Machine) (ha : a < WORD)
    (hprobe : probe_pt as a ≠ 0) :
    (∀ t, as.pagetable (get_first_10_bits a) = some t → t (get_middle_10_bits a) = EMPTY) ∧
    insert_pt as a p m =
      match as.pagetable (get_first_10_bits a) with
      | none =>
        match kmalloc m with
        | (none, m1) => (ENOMEM, as, m1)
        | (some _, m1) =>
          (0, with_entry as (get_first_10_bits a) (get_middle_10_bits a) (fun _ => EMPTY) p, m1)
      | some t => (0, with_entry as (get_first_10_bits a) (get_middle_10_bits a) t p, m) := by
  have h3 : get_first_10_bits a < PAGETABLE_SIZE := get_first_10_bits_lt a ha
  have h4 : get_middle_10_bits a < PAGETABLE_SIZE := get_middle_10_bits_lt a
  have hr : ¬ (get_first_10_bits a ≥ PAGETABLE_SIZE ∨ get_middle_10_bits a ≥ PAGETABLE_SIZE) := by
    omega
  have hE : ∀ t, as.pagetable (get_first_10_bits a) = some t →
      t (get_middle_10_bits a) = EMPTY := by
    intro t ht
    by_contra hne
    exact hprobe ((probe_pt_eq_zero_iff as a ha).mpr ⟨t, ht, hne⟩)
  refine ⟨hE, ?_⟩
  unfold insert_pt
  simp only []
  rw [if_neg hr]
  cases ht : as.pagetable (get_first_10_bits a) with
  | none => rfl
  | some t =>
    simp only []
    rw [if_neg (not_not.mpr (hE t ht))]
    rfl

/-- Claim C27: when `vm_fault` has found the page absent (`probe_pt` is not 0)
and `lookup_region` permits the access, the address is a 32-bit address in a
region, both indices are in range, and the entry that `insert_pt` tests is
`EMPTY` whenever its table is there: the call of `insert_pt` that the handler
makes never returns `EFAULT`, it returns 0, or `ENOMEM` when the second-level
table is missing and `kmalloc` gives none. With a frame available the result
of `vm_fault` is the one of that call. On the present path the handler leaves
the page table as it is. -/
theorem vm_fault_never_already_mapped (as : addrspace) (ft : Int) (a : Nat)
    (hprobe : probe_pt as a ≠ 0) (hperm : lookup_region as a ft = 0) :
    a < WORD ∧
    ¬ (get_first_10_bits a ≥ PAGETABLE_SIZE ∨ get_middle_10_bits a ≥ PAGETABLE_SIZE) ∧
    (∀ t, as.pagetable (get_first_10_bits a) = some t → t (get_middle_10_bits a) = EMPTY) ∧
    (∀ (p : Nat) (m : Machine),
      (insert_pt as a p m).1 ≠ EFAULT ∧
      ((insert_pt as a p m).1 = 0 ∨
        ((insert_pt as a p m).1 = ENOMEM ∧ as.pagetable (get_first_10_bits a) = none ∧
          (kmalloc m).1 = none))) ∧
    (∃ r, get_region as a = some r ∧
      ∀ (m : Machine) (f : Nat) (fs : List Nat), m.frames = f :: fs → f ≠ 0 →
        (ft = VM_FAULT_WRITE ∨ ft = VM_FAULT_READ) →
        vm_fault (some as) ft a m =
          match insert_pt as a (fault_entry f r.writeable) (alloc_frame as a m).2 with
          | (result, as1, m2) =>
            if result ≠ 0 then some (ENOMEM, some as1, m2)
            else
              match pt_entry as1.pagetable (get_first_10_bits a) (get_middle_10_bits a) with
              | none => none
              | some e => some (0, some as1, load_tlb (a &&& PAGE_FRAME) e m2)) ∧
    (∀ (as0 : addrspace) (m : Machine) (res : Int) (as1 : Option addrspace) (m1 : Machine),
      probe_pt as0 a = 0 → vm_fault (some as0) ft a m = some (res, as1, m1) →
        as1 = some as0 ∧ m1.heap = m.heap ∧ m1.frames = m.frames) := by
  obtain ⟨r, hreg⟩ := lookup_region_zero_get as a ft hperm
  have ha : a < WORD := (get_region_lt_word as a r hreg).2.2
  have h3 : get_first_10_bits a < PAGETABLE_SIZE := get_first_10_bits_lt a ha
  have h4 : get_middle_10_bits a < PAGETABLE_SIZE := get_middle_10_bits_lt a
  refine ⟨ha, by omega, fun t ht => (insert_pt_of_absent as a 0 machine_one ha hprobe).1 t ht,
    ?_, ⟨r, hreg, ?_⟩, ?_⟩
  · intro p m
    rw [(insert_pt_of_absent as a p m ha hprobe).2]
    cases ht : as.pagetable (get_first_10_bits a) with
    | none =>
      simp only []
      cases hk : kmalloc m with
      | mk o m1 =>
        cases o with
        | none => simp [ENOMEM, EFAULT]
        | some g => simp [EFAULT]
    | some t =>
      refine ⟨?_, Or.inl rfl⟩
      show (0 : Int) ≠ EFAULT
      decide
  · intro m f fs hfr hf hft
    have hal : alloc_frame as a m = (f, (alloc_frame as a m).2) := by
      unfold alloc_frame alloc_kpages
      rw [hfr]
      simp only []
      rw [if_neg hf]
    have hft1 : ¬ ft = VM_FAULT_READONLY := by
      rcases hft with h | h <;> rw [h] <;> decide
    unfold vm_fault
    rw [if_neg hft1, if_neg (not_not.mpr hft)]
    simp only []
    rw [if_neg hprobe, if_neg (not_not.mpr hperm), hal]
    simp only []
    rw [if_neg hf, hreg]
    rfl
  · intro as0 m res as1 m1 hp hv
    have hinj : ∀ (x : Int), some (x, some as0, m) = some (res, as1, m1) →
        as1 = some as0 ∧ m1.heap = m.heap ∧ m1.frames = m.frames := by
      intro x hxy
      simp only [Option.some.injEq, Prod.mk.injEq] at hxy
      exact ⟨hxy.2.1.symm, by rw [← hxy.2.2], by rw [← hxy.2.2]⟩
    unfold vm_fault at hv
    by_cases c1 : ft = VM_FAULT_READONLY
    · rw [if_pos c1] at hv
      exact hinj _ hv
    · rw [if_neg c1] at hv
      by_cases c2 : ¬ (ft = VM_FAULT_WRITE ∨ ft = VM_FAULT_READ)
      · rw [if_pos c2] at hv
        exact hinj _ hv
      · rw [if_neg c2] at hv
        simp only [] at hv
        rw [if_pos hp] at hv
        by_cases c4 : lookup_region as0 a ft = 0
        · rw [if_pos c4] at hv
          split at hv
          · exact Option.noConfusion hv
          · simp only [Option.some.injEq, Prod.mk.injEq] at hv
            exact ⟨hv.2.1.symm, by rw [← hv.2.2]; rfl, by rw [← hv.2.2]; rfl⟩
        · rw [if_neg c4] at hv
          exact hinj _ hv

/-- Witness of C27: a write fault at `0x1500` in the region `[0x1000, 0x3000)`
with no page mapped. -/
theorem vm_fault_never_already_mapped_witness :
    probe_pt as_rw 0x1500 ≠ 0 ∧ lookup_region as_rw 0x1500 VM_FAULT_WRITE = 0 ∧
    (insert_pt as_rw 0x1500 0x10600 machine_one).1 ≠ EFAULT :=
  ⟨by decide, by decide,
    ((vm_fault_never_already_mapped as_rw VM_FAULT_WRITE 0x1500 (by decide)
      (by decide)).2.2.2.1 0x10600 machine_one).1⟩

/-- Claim C28, as the code behaves: when the second-level table of a first
touch is missing and `kmalloc` gives none, `insert_pt` fails and `vm_fault`
returns `ENOMEM` with the address space as it was; the frame that
`alloc_kpages` had just given is gone from the allocator, `free_kpages` was not
called, and no entry of the page table holds the frame: it is not given back. -/
theorem vm_fault_insert_failure_keeps_frame (as : addrspace) (ft : Int) (a : Nat)
    (m : Machine) (r : region) (f : Nat) (fs : List Nat)
    (hft : ft = VM_FAULT_WRITE ∨ ft = VM_FAULT_READ)
    (hreg : get_region as a = some r) (hperm : lookup_region as a ft = 0)
    (hfr : m.frames = f :: fs) (hf : f ≠ 0)
    (ht : as.pagetable (get_first_10_bits a) = none)
    (hh : m.heap = [] ∨ ∃ hs, m.heap = none :: hs) :
    (alloc_kpages m).1 = f ∧
    (insert_pt as a (fault_entry f r.writeable) (alloc_frame as a m).2).1 = ENOMEM ∧
    ∃ m1, vm_fault (some as) ft a m = some (ENOMEM, some as, m1) ∧
      ENOMEM ≠ 0 ∧
      m1.frames = fs ∧
      m1.released = m.released ∧
      m1.kfreed = m.kfreed := by
  have ha : a < WORD := (get_region_lt_word as a r hreg).2.2
  have hr : ¬ (get_first_10_bits a ≥ PAGETABLE_SIZE ∨ get_middle_10_bits a ≥ PAGETABLE_SIZE) := by
    have h3 : get_first_10_bits a < PAGETABLE_SIZE := get_first_10_bits_lt a ha
    have h4 : get_middle_10_bits a < PAGETABLE_SIZE := get_middle_10_bits_lt a
    omega
  refine ⟨?_, ?_, _, first_touch_table_refused as ft a m r f fs ha hft hreg hperm hfr hf ht hh,
    by decide, rfl, rfl, rfl⟩
  · unfold alloc_kpages
    rw [hfr]
  · unfold insert_pt
    simp only []
    rw [if_neg hr, ht]
    simp only []
    have hheap : (alloc_frame as a m).2.heap = m.heap := by
      unfold alloc_frame alloc_kpages
      rw [hfr]
      simp only []
      rw [if_neg hf]
      rfl
    unfold kmalloc
    rw [hheap]
    rcases hh with h | ⟨hs, h⟩ <;> rw [h]

/-- Witness of C28: a write fault at `0x1500` in the region `[0x1000, 0x3000)`
with one frame available and no memory for the second-level table: the frame
`0x80010000` is taken and not released. -/
theorem vm_fault_insert_failure_keeps_frame_witness :
    machine_no_heap.frames = [0x80010000] ∧ machine_no_heap.released = [] ∧
    ∃ m1, vm_fault (some as_rw) VM_FAULT_WRITE 0x1500 machine_no_heap
        = some (ENOMEM, some as_rw, m1) ∧
      m1.frames = [] ∧ m1.released = [] := by
  obtain ⟨m1, h1, _, h2, h3, _⟩ :=
    (vm_fault_insert_failure_keeps_frame as_rw VM_FAULT_WRITE 0x1500 machine_no_heap
      ⟨0x1000, 0x2000, 1, 1, 0, 0⟩ 0x80010000 [] (Or.inl rfl) (by decide) (by decide) rfl
      (by decide) rfl (Or.inl rfl)).2.2
  exact ⟨rfl, rfl, m1, h1, h2, h3⟩

/-- Claim C21, as the code behaves: `as_create` gives no address space when the
first `kmalloc` fails, and none when the second fails, after freeing the
record; when `lock_create` gives no lock the result is still an address space,
with a `NULL` lock, and nothing is freed. When the three allocations succeed
the result has no region, a lock, and `probe_pt` gives -1 at every address. -/
theorem as_create_lock_unchecked (m : Machine) (a b c : Nat) (hs : List (Option Nat)) :
    as_create { m with heap := [] } = (none, { m with heap := [] }) ∧
    as_create { m with heap := none :: hs } = (none, { m with heap := hs }) ∧
    as_create { m with heap := [some a] } =
      (none, { m with heap := [], kfreed := KObject.as_record :: m.kfreed }) ∧
    as_create { m with heap := some a :: none :: hs } =
      (none, { m with heap := hs, kfreed := KObject.as_record :: m.kfreed }) ∧
    as_create { m with heap := [some a, some b] } =
      (some { head := [], pagetable := fun _ => none, pt_lock := false },
        { m with heap := [] }) ∧
    as_create { m with heap := some a :: some b :: none :: hs } =
      (some { head := [], pagetable := fun _ => none, pt_lock := false },
        { m with heap := hs }) ∧
    as_create { m with heap := some a :: some b :: some c :: hs } =
      (some { head := [], pagetable := fun _ => none, pt_lock := true },
        { m with heap := hs }) ∧
    (∀ (lk : Bool) (v : Nat),
      probe_pt { head := [], pagetable := fun _ => none, pt_lock := lk } v = -1) := by
  refine ⟨rfl, rfl, rfl, rfl, rfl, rfl, rfl, ?_⟩
  intro lk v
  unfold probe_pt
  simp only []
  split_ifs <;> rfl

/-! ## No lookup without a region -/

/-- A region found at the address of a page holds the whole page, when its base
and length are page-aligned. -/
theorem region_holds_whole_page (r : region) (p : Nat) (hp : p % PAGE_SIZE = 0)
    (hb : r.base_addr % PAGE_SIZE = 0) (hl : r.memsize % PAGE_SIZE = 0)
    (h : region_holds r p) :
    r.base_addr ≤ p ∧ p + PAGE_SIZE ≤ (r.base_addr + r.memsize) % WORD ∧
      p + PAGE_SIZE ≤ r.base_addr + r.memsize := by
  unfold region_holds at h
  unfold WORD PAGE_SIZE at *
  omega

/-- The fault handler dereferences no `NULL` pointer. -/
theorem vm_fault_some (as : addrspace) (ft : Int) (a : Nat) (m : Machine) :
    ∃ res as1 m1, vm_fault (some as) ft a m = some (res, some as1, m1) := by
  unfold vm_fault
  by_cases c1 : ft = VM_FAULT_READONLY
  · rw [if_pos c1]
    exact ⟨_, _, _, rfl⟩
  · rw [if_neg c1]
    by_cases c2 : ¬ (ft = VM_FAULT_WRITE ∨ ft = VM_FAULT_READ)
    · rw [if_pos c2]
      exact ⟨_, _, _, rfl⟩
    · rw [if_neg c2]
      simp only []
      by_cases c3 : probe_pt as a = 0
      · rw [if_pos c3]
        by_cases c4 : lookup_region as a ft = 0
        · rw [if_pos c4]
          have ha : a < WORD := by
            by_contra hge
            have : get_first_10_bits a ≥ PAGETABLE_SIZE := by
              rw [get_first_10_bits_eq]
              unfold WORD PAGETABLE_SIZE at *
              omega
            unfold probe_pt at c3
            simp only [] at c3
            rw [if_pos (Or.inl this)] at c3
            exact absurd c3 (by decide)
          obtain ⟨t, ht, _⟩ := (probe_pt_eq_zero_iff as a ha).mp c3
          unfold pt_entry
          rw [ht]
          exact ⟨_, _, _, rfl⟩
        · rw [if_neg c4]
          exact ⟨_, _, _, rfl⟩
      · rw [if_neg c3]
        by_cases c5 : lookup_region as a ft ≠ 0
        · rw [if_pos c5]
          exact ⟨_, _, _, rfl⟩
        · rw [if_neg c5]
          obtain ⟨r, hreg⟩ := lookup_region_zero_get as a ft (not_not.mp c5)
          have ha : a < WORD := (get_region_lt_word as a r hreg).2.2
          cases hal : alloc_frame as a m with
          | mk f m1 =>
            simp only []
            by_cases c6 : f = 0
            · rw [if_pos c6]
              exact ⟨_, _, _, rfl⟩
            · rw [if_neg c6, hreg]
              simp only []
              rw [(insert_pt_of_absent as a _ m1 ha c3).2]
              cases ht : as.pagetable (get_first_10_bits a) with
              | none =>
                simp only []
                cases hk : kmalloc m1 with
                | mk o m2 =>
                  cases o with
                  | none => exact ⟨_, _, _, rfl⟩
                  | some g =>
                    simp only [with_entry, pt_entry, Function.update_same, Option.map_some',
                      ne_eq, not_true_eq_false, if_false]
                    exact ⟨_, _, _, rfl⟩
              | some t =>
                simp only [with_entry, pt_entry, Function.update_same, Option.map_some',
                  ne_eq, not_true_eq_false, if_false]
                exact ⟨_, _, _, rfl⟩

/-- Claim C30: in every address space reachable from `as_create` by
`as_define_region`, `as_prepare_load`, `as_complete_load`, `vm_fault` and
`as_copy`, the page of every entry that is not `EMPTY` lies, as a whole, in the
interval of a region of the address space, the region that `get_region` finds
at the address of the page. Hence `as_complete_load` completes and returns 0,
on the present path of `vm_fault` the lookup finds a region holding the fault
address, and `vm_fault` dereferences no `NULL` pointer. -/
theorem mapped_pages_in_regions (as : addrspace) (h : reachable as) :
    (∀ i j t, i < PAGETABLE_SIZE → j < PAGETABLE_SIZE → as.pagetable i = some t →
      t j ≠ EMPTY →
        ∃ r, get_region as (page_vaddr i j) = some r ∧ r ∈ as.head ∧
          r.base_addr ≤ page_vaddr i j ∧
          page_vaddr i j + PAGE_SIZE ≤ r.base_addr + r.memsize) ∧
    (∀ (cur : Option addrspace) (m : Machine),
      ∃ as1 m1, as_complete_load cur as m = some (0, as1, m1)) ∧
    (∀ a, probe_pt as a = 0 →
      ∃ r, get_region as a = some r ∧ r ∈ as.head ∧
        r.base_addr ≤ a ∧ a < r.base_addr + r.memsize ∧
        ∀ ft, lookup_region as a ft ≠ EFAULT) ∧
    (∀ (ft : Int) (a : Nat) (m : Machine),
      ∃ res as1 m1, vm_fault (some as) ft a m = some (res, some as1, m1)) := by
  have hcov := reachable_pages_in_regions as h
  have hal := reachable_regions_aligned as h
  have hpage : ∀ i j t, i < PAGETABLE_SIZE → j < PAGETABLE_SIZE → as.pagetable i = some t →
      t j ≠ EMPTY →
        ∃ r, get_region as (page_vaddr i j) = some r ∧ r ∈ as.head ∧
          r.base_addr ≤ page_vaddr i j ∧
          page_vaddr i j + PAGE_SIZE ≤ r.base_addr + r.memsize := by
    intro i j t hi hj ht he
    obtain ⟨r, hr⟩ := hcov i j t hi hj ht he
    obtain ⟨hmem, hholds, _⟩ := get_region_lt_word as _ r hr
    have hp : page_vaddr i j % PAGE_SIZE = 0 := by
      rw [page_vaddr_eq i j hi hj]
      unfold PAGE_SIZE
      omega
    have hw := region_holds_whole_page r _ hp (hal r hmem).1 (hal r hmem).2 hholds
    exact ⟨r, hr, hmem, hw.1, hw.2.2⟩
  refine ⟨hpage, fun cur m => ⟨_, _, as_complete_load_eq cur as m hcov⟩, ?_,
    fun ft a m => vm_fault_some as ft a m⟩
  intro a hp
  have ha : a < WORD := by
    by_contra hge
    have : get_first_10_bits a ≥ PAGETABLE_SIZE := by
      rw [get_first_10_bits_eq]
      unfold WORD PAGETABLE_SIZE at *
      omega
    unfold probe_pt at hp
    simp only [] at hp
    rw [if_pos (Or.inl this)] at hp
    exact absurd hp (by decide)
  obtain ⟨t, ht, he⟩ := (probe_pt_eq_zero_iff as a ha).mp hp
  obtain ⟨r, hr⟩ := hcov _ _ t (get_first_10_bits_lt a ha) (get_middle_10_bits_lt a) ht he
  rw [page_vaddr_of_bits a ha] at hr
  unfold get_region at hr
  rw [get_region_loop_page a ha as.head hal] at hr
  obtain ⟨hmem, hholds, _⟩ := get_region_lt_word as a r hr
  refine ⟨r, hr, hmem, hholds.1, ?_, ?_⟩
  · have h1 := hholds.2
    have h2 : (r.base_addr + r.memsize) % WORD ≤ r.base_addr + r.memsize := Nat.mod_le _ _
    omega
  · intro ft
    rw [lookup_region_of_get as a ft r hr]
    split_ifs <;> decide

theorem as_touched_reachable : reachable as_touched := by
  have hd : reachable (as_define_region as_empty 0x1000 0x2000 1 1 0 machine_one).2.1 :=
    reachable.define _ _ _ _ _ _ _ as_empty_reachable
  have hf := first_touch_new_table
    (as_define_region as_empty 0x1000 0x2000 1 1 0 machine_one).2.1 VM_FAULT_WRITE 0x1500
    machine_one ⟨0x1000, 0x2000, 1, 1, 7, 0⟩ 0x80010000 [0x80011000] 7 [some 0]
    (by decide) (Or.inl rfl) (by decide) (by decide) rfl (by decide) rfl rfl
  exact reachable.fault _ _ _ _ _ _ _ hd hf

/-- Witness of C30: after `as_create`, `as_define_region` of `[0x1000, 0x3000)` and
a write fault at `0x1500`, the mapped page `0x1000` lies in a region. -/
theorem mapped_pages_in_regions_witness :
    reachable as_touched ∧
    ∃ r, get_region as_touched (page_vaddr 0 1) = some r ∧ r ∈ as_touched.head ∧
      r.base_addr ≤ page_vaddr 0 1 ∧ page_vaddr 0 1 + PAGE_SIZE ≤ r.base_addr + r.memsize :=
  ⟨as_touched_reachable,
    (mapped_pages_in_regions as_touched as_touched_reachable).1 0 1
      (Function.update (fun _ => EMPTY) 1 (fault_entry 0x80010000 1))
      (by decide) (by decide) (by simp [as_touched, with_entry, get_first_10_bits])
      (by simp [fault_entry, EMPTY, KVADDR_TO_PADDR, WORD, MIPS_KSEG0, PAGE_FRAME, TLBLO_DIRTY,
        TLBLO_VALID])⟩

/-! ## The stack region -/

/-- The span of the stack region: it starts at or below `USERSTACK - S`, on a
page boundary, and ends at `USERSTACK`. -/
theorem stack_span (S : Nat) (h0 : 0 < S) (h1 : S ≤ USERSTACK) :
    (USERSTACK + (WORD - S % WORD)) % WORD = USERSTACK - S ∧
    S % WORD = S ∧
    region_base (USERSTACK - S) ≤ USERSTACK - S ∧
    USERSTACK - S < region_base (USERSTACK - S) + PAGE_SIZE ∧
    region_base (USERSTACK - S) % PAGE_SIZE = 0 ∧
    region_base (USERSTACK - S) + region_length (USERSTACK - S) S = USERSTACK := by
  have hb := region_base_eq (USERSTACK - S) (by unfold USERSTACK MIPS_KSEG0 WORD at *; omega)
  have hl := region_length_eq (USERSTACK - S) S (by unfold USERSTACK at *; omega)
  rw [hb, hl]
  unfold USERSTACK MIPS_KSEG0 WORD PAGE_SIZE at *
  omega

/-- Claim C22, as the code behaves: `as_define_stack` stores `USERSTACK` in
`*stackptr`. When it returns 0, the new head of the chain is a region that is
readable, writable and not executable, starts at or below
`USERSTACK - USER_STACK_SIZE`, ends exactly at `USERSTACK`, and is the region
that `get_region` finds at every address of the stack; on an address space
without regions it returns 0 when `kmalloc` gives the record. But on the
address space whose only region is the page that ends where the stack begins,
so that no address of the stack lies in it, it returns `EINVAL` and defines
nothing. -/
theorem as_define_stack_abutting_rejected (S : Nat) (h0 : 0 < S)
    (h1 : S + PAGE_SIZE ≤ USERSTACK) :
    (∀ (as : addrspace) (m : Machine), (as_define_stack S as m).2.1 = USERSTACK) ∧
    (∀ (as : addrspace) (m : Machine), (as_define_stack S as m).1 = 0 →
      ∃ r, (as_define_stack S as m).2.2.1.head = r :: as.head ∧
        r.readable = 1 ∧ r.writeable = 1 ∧ r.executable = 0 ∧
        r.base_addr ≤ USERSTACK - S ∧ r.base_addr + r.memsize = USERSTACK ∧
        ∀ a, USERSTACK - S ≤ a → a < USERSTACK →
          get_region (as_define_stack S as m).2.2.1 a = some r) ∧
    (∀ (m : Machine) (g : Nat) (hs : List (Option Nat)),
      (as_define_stack S as_empty { m with heap := some g :: hs }).1 = 0) ∧
    (∀ a, USERSTACK - S ≤ a → a < USERSTACK →
      ∀ r ∈ (as_below_stack S).head,
        ¬ region_holds r a ∧ ¬ (r.base_addr ≤ a ∧ a < r.base_addr + r.memsize)) ∧
    (∀ m : Machine,
      (as_define_stack S (as_below_stack S) m).1 = EINVAL ∧
      (as_define_stack S (as_below_stack S) m).2.2.1 = as_below_stack S) := by
  obtain ⟨e1, e2, e3, e4, e5, e6⟩ := stack_span S h0 (by omega)
  have hdef : ∀ (as : addrspace) (m : Machine),
      as_define_stack S as m =
        ((as_define_region as (USERSTACK - S) S 1 1 0 m).1, USERSTACK,
          (as_define_region as (USERSTACK - S) S 1 1 0 m).2.1,
          (as_define_region as (USERSTACK - S) S 1 1 0 m).2.2) := by
    intro as m
    unfold as_define_stack
    simp only []
    rw [e1, e2]
  have hU : USERSTACK % WORD = USERSTACK := by
    unfold USERSTACK MIPS_KSEG0 WORD
    decide
  refine ⟨fun as m => by rw [hdef], ?_, ?_, ?_, ?_⟩
  · intro as m hz
    rw [hdef] at hz ⊢
    simp only [] at hz ⊢
    obtain ⟨_, g, hs, _, heq⟩ := as_define_region_success as (USERSTACK - S) S 1 1 0 m hz
    rw [heq]
    refine ⟨_, rfl, rfl, rfl, rfl, e3, e6, ?_⟩
    intro a ha1 ha2
    unfold get_region
    simp only [get_region_loop]
    rw [if_pos]
    unfold region_holds
    simp only []
    rw [e6, hU]
    exact ⟨by omega, ha2⟩
  · intro m g hs
    rw [hdef]
    simp only []
    unfold as_define_region
    simp only []
    have hv : region_valid as_empty (region_base (USERSTACK - S))
        (region_length (USERSTACK - S) S) = 0 := by
      unfold region_valid
      rw [e6, hU, if_neg (by unfold USERSTACK; omega)]
      rfl
    rw [if_neg (not_not.mpr hv)]
    rfl
  · intro a ha1 ha2 r hr
    simp only [as_below_stack, List.mem_singleton] at hr
    subst hr
    unfold region_holds
    simp only []
    have hw : (region_base (USERSTACK - S) - PAGE_SIZE + PAGE_SIZE) % WORD =
        region_base (USERSTACK - S) := by
      unfold USERSTACK MIPS_KSEG0 WORD PAGE_SIZE at *
      omega
    rw [hw]
    unfold USERSTACK MIPS_KSEG0 WORD PAGE_SIZE at *
    omega
  · intro m
    have hv : region_valid (as_below_stack S) (region_base (USERSTACK - S))
        (region_length (USERSTACK - S) S) = EINVAL := by
      unfold region_valid
      rw [e6, hU, if_neg (by unfold USERSTACK; omega)]
      simp only [as_below_stack, region_valid_loop]
      rw [e6, hU]
      have hw : (region_base (USERSTACK - S) - PAGE_SIZE + PAGE_SIZE) % WORD =
          region_base (USERSTACK - S) := by
        unfold USERSTACK MIPS_KSEG0 WORD PAGE_SIZE at *
        omega
      rw [hw]
      rw [if_neg (by unfold USERSTACK MIPS_KSEG0 WORD PAGE_SIZE at *; omega),
        if_neg (by unfold USERSTACK MIPS_KSEG0 WORD PAGE_SIZE at *; omega),
        if_neg (by unfold USERSTACK MIPS_KSEG0 WORD PAGE_SIZE at *; omega),
        if_pos (by unfold USERSTACK MIPS_KSEG0 WORD PAGE_SIZE at *; omega)]
    rw [hdef]
    simp only []
    unfold as_define_region
    simp only []
    rw [hv]
    exact ⟨rfl, rfl⟩

/-- Witness of C22: a stack of 16 pages; the page `[0x7FFEF000, 0x7FFF0000)` ends
where the stack begins and `as_define_stack` returns `EINVAL`. -/
theorem as_define_stack_abutting_rejected_witness :
    (as_below_stack 0x10000).head = [⟨0x7FFEF000, 0x1000, 1, 1, 0, 0⟩] ∧
    (as_define_region as_empty 0x7FFEF000 0x1000 1 1 0 machine_copy).2.1.head =
      (as_below_stack 0x10000).head ∧
    (as_define_stack 0x10000 (as_below_stack 0x10000) machine_one).1 = EINVAL ∧
    (as_define_stack 0x10000 as_empty machine_one).1 = 0 :=
  ⟨by decide, by decide,
    ((as_define_stack_abutting_rejected 0x10000 (by decide) (by decide)).2.2.2.2
      machine_one).1,
    by decide⟩

/-! ## Dining philosophers: mutual exclusion -/

theorem left_val (n p : Nat) (hn : n < 2 ^ 31) (hp : p < n) :
    left n p = if p = 0 then n - 1 else p - 1 := by
  unfold left
  split_ifs with h
  · subst h
    have h1 : ((0 + (WORD - 1)) % WORD + n) % WORD = n - 1 := by
      unfold WORD
      omega
    rw [h1]
    exact Nat.mod_eq_of_lt (by omega)
  · have h1 : ((p + (WORD - 1)) % WORD + n) % WORD = n + (p - 1) := by
      unfold WORD
      omega
    rw [h1, Nat.add_mod_left]
    exact Nat.mod_eq_of_lt (by omega)

theorem right_val (n p : Nat) (hn : n < 2 ^ 31) (hp : p < n) :
    right n p = if p + 1 = n then 0 else p + 1 := by
  unfold right
  have h1 : (p + 1) % WORD = p + 1 := by
    unfold WORD
    omega
  rw [h1]
  split_ifs with h
  · rw [h, Nat.mod_self]
  · exact Nat.mod_eq_of_lt (by omega)

theorem left_lt (n p : Nat) (hn : n < 2 ^ 31) (hp : p < n) : left n p < n := by
  rw [left_val n p hn hp]
  split_ifs <;> omega

theorem right_lt (n p : Nat) (hn : n < 2 ^ 31) (hp : p < n) : right n p < n := by
  rw [right_val n p hn hp]
  split_ifs <;> omega

/-- The two neighbour relations are converse: `j` is the left neighbour of `i`
exactly when `i` is the right neighbour of `j`. -/
theorem left_iff_right (n i j : Nat) (hn : n < 2 ^ 31) (hi : i < n) (hj : j < n) :
    j = left n i ↔ i = right n j := by
  rw [left_val n i hn hi, right_val n j hn hj]
  split_ifs <;> omega

theorem dining_safe_of_set (n : Nat) (d : dining) (p : Nat) (v : Int) (hv : v ≠ 2)
    (h : dining_safe n d) :
    dining_safe n { d with state := Function.update d.state p v } := by
  intro i j hi hj hij hnb
  simp only []
  by_cases h1 : i = p
  · rw [h1, Function.update_same]
    exact fun hc => hv hc.1
  · by_cases h2 : j = p
    · rw [h2, Function.update_same]
      exact fun hc => hv hc.2
    · rw [Function.update_noteq h1, Function.update_noteq h2]
      exact h i j hi hj hij hnb

theorem dining_safe_of_test (n : Nat) (hn : n < 2 ^ 31) (d : dining) (p : Nat) (hp : p < n)
    (h : dining_safe n d) : dining_safe n (test n p d) := by
  unfold test
  split_ifs with c
  · intro i j hi hj hij hnb
    simp only []
    by_cases h1 : i = p
    · subst h1
      rw [Function.update_noteq (Ne.symm hij)]
      intro hc
      rcases hnb with e | e
      · exact c.1 (e ▸ hc.2)
      · exact c.2.1 (e ▸ hc.2)
    · by_cases h2 : j = p
      · subst h2
        rw [Function.update_noteq h1]
        intro hc
        rcases hnb with e | e
        · have e1 : i = right n j := (left_iff_right n i j hn hi hj).mp e
          exact c.2.1 (e1 ▸ hc.1)
        · have e1 : i = left n j := (left_iff_right n j i hn hj hi).mpr e
          exact c.1 (e1 ▸ hc.1)
      · rw [Function.update_noteq h1, Function.update_noteq h2]
        exact h i j hi hj hij hnb
  · exact h

/-- The invariant of the dining philosophers. -/
theorem dining_reachable_safe (n : Nat) (hn : n < 2 ^ 31) (d : dining)
    (h : dining_reachable n d) : dining_safe n d := by
  induction h with
  | start =>
    intro i j _ _ _ _ hc
    have h0 : dining_start.state i = 0 := rfl
    rw [h0] at hc
    exact absurd hc.1 (by decide)
  | take d p _ hp ih =>
    exact dining_safe_of_test n hn _ p hp (dining_safe_of_set n d p 1 (by decide) ih)
  | wait d p d1 _ _ hw ih =>
    unfold take_forks_wait at hw
    split_ifs at hw
    have e := Option.some.inj hw
    subst e
    exact ih
  | put d p _ hp ih =>
    exact dining_safe_of_test n hn _ _ (right_lt n p hn hp)
      (dining_safe_of_test n hn _ _ (left_lt n p hn hp)
        (dining_safe_of_set n d p 0 (by decide) ih))

/-- What `test` changes: only the philosopher tested, and only from hungry to
eating with a signal, when neither neighbour eats. -/
theorem test_marks (n p : Nat) (d : dining) (q : Nat)
    (h : (test n p d).state q ≠ d.state q ∨ (test n p d).sema_queue q ≠ d.sema_queue q) :
    q = p ∧ d.state (left n p) ≠ 2 ∧ d.state (right n p) ≠ 2 ∧ d.state p = 1 ∧
      (test n p d).state p = 2 ∧ (test n p d).sema_queue p = d.sema_queue p + 1 := by
  unfold test at h ⊢
  split_ifs at h ⊢ with c
  · simp only [] at h ⊢
    by_cases hq : q = p
    · exact ⟨hq, c.1, c.2.1, c.2.2, by rw [Function.update_same], by rw [Function.update_same]⟩
    · rw [Function.update_noteq hq, Function.update_noteq hq] at h
      rcases h with h | h <;> exact absurd rfl h
  · rcases h with h | h <;> exact absurd rfl h

/-- Claim C26: in every state that `n` philosophers reach from the start, where
all think, by critical sections of `take_forks` and `put_forks` in any order, no
two different neighbours both eat. And `test`, the only place where a
philosopher is marked eating and signalled, does so only for the philosopher
tested, when it is hungry and neither its left nor its right neighbour eats. -/
theorem dining_mutual_exclusion (n : Nat) (hn : n < 2 ^ 31) (d : dining)
    (h : dining_reachable n d) :
    (∀ i j, i < n → j < n → i ≠ j → (j = left n i ∨ j = right n i) →
      ¬ (d.state i = 2 ∧ d.state j = 2)) ∧
    (∀ i, i < n → right n i ≠ i → ¬ (d.state i = 2 ∧ d.state (right n i) = 2)) ∧
    (∀ i, i < n → left n i ≠ i → ¬ (d.state i = 2 ∧ d.state (left n i) = 2)) ∧
    (∀ (d0 : dining) (p q : Nat),
      ((test n p d0).state q ≠ d0.state q ∨ (test n p d0).sema_queue q ≠ d0.sema_queue q) →
        q = p ∧ d0.state (left n p) ≠ 2 ∧ d0.state (right n p) ≠ 2 ∧ d0.state p = 1 ∧
          (test n p d0).state p = 2 ∧ (test n p d0).sema_queue p = d0.sema_queue p + 1) ∧
    (∀ p, p < n → left n p < n ∧ right n p < n ∧
      left n p = (if p = 0 then n - 1 else p - 1) ∧
      right n p = (if p + 1 = n then 0 else p + 1)) := by
  have hs := dining_reachable_safe n hn d h
  refine ⟨hs, ?_, ?_, fun d0 p q hq => test_marks n p d0 q hq, ?_⟩
  · intro i hi hne
    exact hs i (right n i) hi (right_lt n i hn hi) (Ne.symm hne) (Or.inr rfl)
  · intro i hi hne
    exact hs i (left n i) hi (left_lt n i hn hi) (Ne.symm hne) (Or.inl rfl)
  · intro p hp
    exact ⟨left_lt n p hn hp, right_lt n p hn hp, left_val n p hn hp, right_val n p hn hp⟩

/-- Witness of C26: five philosophers; philosopher 0 takes its forks and eats,
then philosopher 1 asks for its forks and stays hungry. -/
theorem dining_mutual_exclusion_witness :
    dining_reachable 5 (take_forks 5 1 (take_forks 5 0 dining_start)) ∧
    (take_forks 5 1 (take_forks 5 0 dining_start)).state 0 = 2 ∧
    (take_forks 5 1 (take_forks 5 0 dining_start)).state 1 = 1 ∧
    ¬ ((take_forks 5 1 (take_forks 5 0 dining_start)).state 0 = 2 ∧
      (take_forks 5 1 (take_forks 5 0 dining_start)).state 1 = 2) :=
  ⟨dining_reachable.take _ 1 (dining_reachable.take _ 0 dining_reachable.start (by decide))
      (by decide),
    by decide, by decide,
    (dining_mutual_exclusion 5 (by decide) (take_forks 5 1 (take_forks 5 0 dining_start))
      (dining_reachable.take _ 1 (dining_reachable.take _ 0 dining_reachable.start (by decide))
        (by decide))).1 0 1 (by decide) (by decide) (by decide) (Or.inr (by decide))⟩

/-! ## File descriptors: the standard tables -/

theorem files_std_check :
    (init_fd_table vfs_ok files_boot).map (fun r => r.1) = some 0 ∧
    files_std.fd 0 = 0 ∧ files_std.fd 1 = 1 ∧ files_std.fd 2 = 2 ∧ files_std.fd 3 = CLOSED_FILE ∧
    files_std.openedFiles 0 = some ⟨100, 0, 1, 0⟩ ∧
    files_std.openedFiles 1 = some ⟨101, 1, 1, 0⟩ ∧
    files_std.openedFiles 3 = none := by
  decide

/-! ## File descriptors: validity and close -/

theorem fd_sanity_check_out_of_range (fd : Int) (s : FileTables)
    (h : fd < 0 ∨ fd ≥ OPEN_MAX) : fd_sanity_check fd s = some (-1) := by
  unfold fd_sanity_check
  rw [if_pos h]

theorem fd_sanity_check_closed (fd : Int) (s : FileTables) (h0 : 0 ≤ fd) (h1 : fd < OPEN_MAX)
    (hc : s.fd fd.toNat = CLOSED_FILE) :
    openedFiles_at s (s.fd fd.toNat) = none ∧ fd_sanity_check fd s = none := by
  have hr : ¬ (fd < 0 ∨ fd ≥ OPEN_MAX) := by omega
  have ho : openedFiles_at s (s.fd fd.toNat) = none := by
    unfold openedFiles_at
    rw [hc, if_pos (Or.inl (by decide))]
  refine ⟨ho, ?_⟩
  unfold fd_sanity_check
  rw [if_neg hr]
  simp only []
  rw [ho]

/-- Claim C25, as the code behaves: for `fd` outside `[0, OPEN_MAX)`,
`fd_sanity_check` returns -1 and `sys_close`, `sys_read` and `sys_write` return
`EBADF`; for `fd` in range whose slot holds a key in range, it returns -1 when
the slot of `openedFiles` is `NULL` and the key otherwise. But for `fd` in
range whose slot is `CLOSED_FILE` it reads `openedFiles[-1]`, outside the
array, and so do `sys_close`, `sys_read` and `sys_write` on that `fd`, as on the
never-opened descriptor 5 of the standard tables. -/
theorem fd_sanity_check_reads_outside (fd : Int) (s : FileTables) :
    ((fd < 0 ∨ fd ≥ OPEN_MAX) →
      fd_sanity_check fd s = some (-1) ∧ sys_close fd s = some (EBADF, s) ∧
      ∀ (v : Vfs) (n : Nat) (mode : uio_rw), sys_rw v fd n mode s = some (EBADF, none, s)) ∧
    (0 ≤ fd → fd < OPEN_MAX → 0 ≤ s.fd fd.toNat → s.fd fd.toNat < OPEN_MAX →
      fd_sanity_check fd s =
        if s.openedFiles (s.fd fd.toNat).toNat = none then some (-1)
        else some (s.fd fd.toNat)) ∧
    (0 ≤ fd → fd < OPEN_MAX → s.fd fd.toNat = CLOSED_FILE →
      openedFiles_at s (s.fd fd.toNat) = none ∧
      fd_sanity_check fd s = none ∧ sys_close fd s = none ∧
      ∀ (v : Vfs) (n : Nat),
        sys_read v fd n s = none ∧ sys_write v fd n s = none) ∧
    (files_std.fd 5 = CLOSED_FILE ∧ fd_sanity_check 5 files_std = none ∧
      (sys_close 5 files_std).map (fun r => r.1) = none) := by
  refine ⟨?_, ?_, ?_, by decide⟩
  · intro h
    have h1 := fd_sanity_check_out_of_range fd s h
    refine ⟨h1, ?_, ?_⟩
    · unfold sys_close
      rw [h1]
      rfl
    · intro v n mode
      unfold sys_rw
      rw [h1]
      rfl
  · intro h0 h1 h2 h3
    have hr : ¬ (fd < 0 ∨ fd ≥ OPEN_MAX) := by omega
    have hk : ¬ (s.fd fd.toNat < 0 ∨ s.fd fd.toNat ≥ OPEN_MAX) := by omega
    unfold fd_sanity_check openedFiles_at
    rw [if_neg hr]
    simp only []
    rw [if_neg hk]
    cases ho : s.openedFiles (s.fd fd.toNat).toNat with
    | none => simp
    | some of => simp
  · intro h0 h1 hc
    obtain ⟨ho, hf⟩ := fd_sanity_check_closed fd s h0 h1 hc
    refine ⟨ho, hf, ?_, ?_⟩
    · unfold sys_close
      rw [hf]
    · intro v n
      unfold sys_read sys_write sys_rw
      rw [hf]
      exact ⟨rfl, rfl⟩

/-- Whatever `sys_close` returns, it leaves the descriptor table as it was. -/
theorem sys_close_fd (fd : Int) (s : FileTables) (r : Int) (s1 : FileTables)
    (h : sys_close fd s = some (r, s1)) : s1.fd = s.fd := by
  unfold sys_close at h
  split at h
  · exact Option.noConfusion h
  · split_ifs at h with c
    · simp only [Option.some.injEq, Prod.mk.injEq] at h
      rw [← h.2]
    · split at h
      · exact Option.noConfusion h
      · split_ifs at h with c2
        · simp only [Option.some.injEq, Prod.mk.injEq] at h
          rw [← h.2]
        · simp only [Option.some.injEq, Prod.mk.injEq] at h
          rw [← h.2]

/-- A successful `sys_close` found a key in the slot of `fd`. -/
theorem sys_close_zero (fd : Int) (s s1 : FileTables) (h : sys_close fd s = some (0, s1)) :
    0 ≤ fd ∧ fd < OPEN_MAX ∧ 0 ≤ s.fd fd.toNat ∧ s.fd fd.toNat < OPEN_MAX ∧
    ∃ of, s.openedFiles (s.fd fd.toNat).toNat = some of ∧
      s1.openedFiles (s.fd fd.toNat).toNat =
        (if of.rc - 1 = 0 then none else some { of with rc := of.rc - 1 }) ∧
      s1.vfs_closed = of.vn :: s.vfs_closed := by
  by_cases hr : fd < 0 ∨ fd ≥ OPEN_MAX
  · have h1 := fd_sanity_check_out_of_range fd s hr
    unfold sys_close at h
    rw [h1] at h
    simp [EBADF] at h
  · by_cases hk : s.fd fd.toNat < 0 ∨ s.fd fd.toNat ≥ OPEN_MAX
    · have : fd_sanity_check fd s = none := by
        unfold fd_sanity_check openedFiles_at
        rw [if_neg hr]
        simp only []
        rw [if_pos hk]
      unfold sys_close at h
      rw [this] at h
      exact Option.noConfusion h
    · refine ⟨by omega, by omega, by omega, by omega, ?_⟩
      unfold sys_close fd_sanity_check openedFiles_at at h
      rw [if_neg hr] at h
      simp only [] at h
      rw [if_neg hk] at h
      cases ho : s.openedFiles (s.fd fd.toNat).toNat with
      | none =>
        rw [ho] at h
        simp [EBADF] at h
      | some of =>
        rw [ho] at h
        simp only [] at h
        rw [if_neg (by omega), ho] at h
        simp only [] at h
        refine ⟨of, rfl, ?_⟩
        split_ifs at h ⊢ with c
        · simp only [Option.some.injEq, Prod.mk.injEq, true_and] at h
          rw [← h]
          simp
        · simp only [Option.some.injEq, Prod.mk.injEq, true_and] at h
          rw [← h]
          simp

/-- Claim C24, as the code behaves: `sys_close` never writes the descriptor
table: after `sys_close(fd)` returned 0 the slot of `fd` holds the key it
held, not `CLOSED_FILE`, and the reference count of the open file is one less,
the slot of `openedFiles` being `NULL` when it reached 0. After
`sys_dup2(0, 5)` on the standard tables, `sys_close(0)` returns 0, and a second
`sys_close(0)` returns 0 again, not `EBADF`: the count drops from 2 to 1 to 0 and
the file is freed while descriptor 5 still holds its key. Without `sys_dup2`
a second `sys_close(1)` returns `EBADF`, the slot of descriptor 1 still holding
its key. -/
theorem sys_close_keeps_slot :
    (∀ (fd : Int) (s : FileTables) (r : Int) (s1 : FileTables),
      sys_close fd s = some (r, s1) → s1.fd = s.fd) ∧
    (∀ (fd : Int) (s s1 : FileTables), sys_close fd s = some (0, s1) →
      s1.fd fd.toNat = s.fd fd.toNat ∧ s1.fd fd.toNat ≠ CLOSED_FILE ∧
      ∃ of, s.openedFiles (s.fd fd.toNat).toNat = some of ∧
        s1.openedFiles (s.fd fd.toNat).toNat =
          (if of.rc - 1 = 0 then none else some { of with rc := of.rc - 1 })) ∧
    ((sys_dup2 0 5 files_std).map (fun r => (r.1, r.2.1)) = some (0, 5) ∧
      files_dup.fd 0 = 0 ∧ files_dup.fd 5 = 0 ∧
      files_dup.openedFiles 0 = some ⟨100, 0, 2, 0⟩ ∧
      (sys_close 0 files_dup).map (fun r => r.1) = some 0 ∧
      files_closed_once.fd 0 = 0 ∧
      files_closed_once.openedFiles 0 = some ⟨100, 0, 1, 0⟩ ∧
      (sys_close 0 files_closed_once).map (fun r => r.1) = some 0 ∧
      EBADF ≠ 0 ∧
      files_closed_twice.fd 0 = 0 ∧ files_closed_twice.fd 5 = 0 ∧
      files_closed_twice.openedFiles 0 = none ∧
      (sys_close 5 files_closed_twice).map (fun r => r.1) = some EBADF) ∧
    ((sys_close 1 files_std).map (fun r => (r.1, r.2.fd 1, r.2.openedFiles 1)) =
        some (0, 1, none) ∧
      ((sys_close 1 files_std).bind (fun r => sys_close 1 r.2)).map (fun r => r.1) =
        some EBADF) := by
  refine ⟨sys_close_fd, ?_, by decide, by decide⟩
  intro fd s s1 h
  obtain ⟨_, _, h3, _, of, h5, h6, _⟩ := sys_close_zero fd s s1 h
  have hfd := sys_close_fd fd s 0 s1 h
  refine ⟨by rw [hfd], ?_, of, h5, h6⟩
  rw [hfd]
  intro hc
  rw [hc] at h3
  exact absurd h3 (by decide)

/-! ## File descriptors: open -/

theorem find_of_index_spec (s : FileTables) :
    ∀ n i, find_of_index s n i = -1 ∨
      ∃ k : Nat, find_of_index s n i = k ∧ i ≤ k ∧ k < i + n ∧ s.openedFiles k = none ∧
        ∀ j, i ≤ j → j < k → s.openedFiles j ≠ none := by
  intro n
  induction n with
  | zero => intro i; exact Or.inl rfl
  | succ n ih =>
    intro i
    simp only [find_of_index]
    split_ifs with c
    · exact Or.inr ⟨i, rfl, le_refl _, by omega, c, fun j h1 h2 => by omega⟩
    · rcases ih (i + 1) with h | ⟨k, h1, h2, h3, h4, h5⟩
      · exact Or.inl h
      · refine Or.inr ⟨k, h1, by omega, by omega, h4, ?_⟩
        intro j hj1 hj2
        by_cases e : j = i
        · rw [e]; exact c
        · exact h5 j (by omega) hj2

theorem find_fd_index_spec (s : FileTables) :
    ∀ n i, find_fd_index s n i = -1 ∨
      ∃ k : Nat, find_fd_index s n i = k ∧ i ≤ k ∧ k < i + n ∧ s.fd k = CLOSED_FILE ∧
        ∀ j, i ≤ j → j < k → s.fd j ≠ CLOSED_FILE := by
  intro n
  induction n with
  | zero => intro i; exact Or.inl rfl
  | succ n ih =>
    intro i
    simp only [find_fd_index]
    split_ifs with c
    · exact Or.inr ⟨i, rfl, le_refl _, by omega, c, fun j h1 h2 => by omega⟩
    · rcases ih (i + 1) with h | ⟨k, h1, h2, h3, h4, h5⟩
      · exact Or.inl h
      · refine Or.inr ⟨k, h1, by omega, by omega, h4, ?_⟩
        intro j hj1 hj2
        by_cases e : j = i
        · rw [e]; exact c
        · exact h5 j (by omega) hj2

/-- What a successful `insert_open_file` does and what it stores in `*retval`. -/
theorem insert_open_file_zero (of : open_file) (s : FileTables) (retval : Option Int)
    (s1 : FileTables) (h : insert_open_file of s = (0, retval, s1)) :
    ∃ fd_index of_index : Nat, fd_index < OPEN_MAX ∧ of_index < OPEN_MAX ∧
      s.fd fd_index = CLOSED_FILE ∧ (∀ j, j < fd_index → s.fd j ≠ CLOSED_FILE) ∧
      s.openedFiles of_index = none ∧ (∀ j, j < of_index → s.openedFiles j ≠ none) ∧
      retval = some (of_index : Int) ∧
      s1 = { s with
        fd := Function.update s.fd fd_index (of_index : Int)
        openedFiles := Function.update s.openedFiles of_index (some of) } := by
  unfold insert_open_file at h
  simp only [] at h
  rcases find_fd_index_spec s OPEN_MAX 0 with hf | ⟨kf, hf1, _, hf3, hf4, hf5⟩
  · rw [if_pos hf] at h
    simp [EMFILE] at h
  · have hfn : ¬ find_fd_index s OPEN_MAX 0 = -1 := by rw [hf1]; omega
    rw [if_neg hfn] at h
    rcases find_of_index_spec s OPEN_MAX 0 with ho | ⟨ko, ho1, _, ho3, ho4, ho5⟩
    · rw [if_pos ho] at h
      simp [ENFILE] at h
    · have hon : ¬ find_of_index s OPEN_MAX 0 = -1 := by rw [ho1]; omega
      rw [if_neg hon, hf1, ho1] at h
      simp only [Prod.mk.injEq, true_and, Int.toNat_ofNat] at h
      exact ⟨kf, ko, by omega, by omega, hf4, fun j hj => hf5 j (Nat.zero_le _) hj, ho4,
        fun j hj => ho5 j (Nat.zero_le _) hj, h.1.symm, h.2.symm⟩

theorem kmalloc_block_tables (s : FileTables) :
    (kmalloc_block s).2.fd = s.fd ∧ (kmalloc_block s).2.openedFiles = s.openedFiles := by
  unfold kmalloc_block
  split <;> exact ⟨rfl, rfl⟩

/-- What a successful `create_open_file` stores in `*ret`. -/
theorem create_open_file_zero (v : Vfs) (path flags mode : Nat) (s : FileTables)
    (ofo : Option open_file) (s1 : FileTables)
    (h : create_open_file v path flags mode s = (0, ofo, s1)) :
    s1.fd = s.fd ∧ s1.openedFiles = s.openedFiles ∧
    ∃ of, ofo = some of ∧ of.vn = (v.vfs_open path flags mode).2 ∧ of.flags = flags ∧
      of.rc = 1 := by
  have hk := kmalloc_block_tables s
  unfold create_open_file at h
  cases hv : v.vfs_open path flags mode with
  | mk result vn =>
    rw [hv] at h
    simp only [] at h
    by_cases c1 : result ≠ 0
    · rw [if_pos c1] at h
      simp only [Prod.mk.injEq] at h
      exact absurd h.1 c1
    · rw [if_neg c1] at h
      cases hb : kmalloc_block s with
      | mk b s2 =>
        rw [hb] at h hk
        simp only [] at hk
        cases b with
        | false =>
          simp only [Prod.mk.injEq] at h
          exact absurd h.1 (by decide)
        | true =>
          simp only [] at h
          by_cases c2 : flags &&& O_APPEND ≠ 0
          · rw [if_pos c2] at h
            by_cases c3 : (v.vop_stat vn).1 ≠ 0
            · rw [if_pos c3] at h
              simp only [Prod.mk.injEq] at h
              exact absurd h.1 c3
            · rw [if_neg c3] at h
              simp only [Prod.mk.injEq, true_and] at h
              rw [← h.2]
              exact ⟨hk.1, hk.2, _, h.1.symm, rfl, rfl, rfl⟩
          · rw [if_neg c2] at h
            simp only [Prod.mk.injEq, true_and] at h
            rw [← h.2]
            exact ⟨hk.1, hk.2, _, h.1.symm, rfl, rfl, rfl⟩

/-- Claim C23, as the code behaves: when `sys_open` returns 0, the new file is in
the first free slot `of_index` of the open-file table, the first closed
descriptor `fd_index` refers to it, and the word stored in `*retval` is
`of_index`, the key of the open-file table, not `fd_index`. After
`sys_dup2(0, 3)` on the standard tables, `sys_open` stores 3 while the
descriptor of the new file is 4: descriptor 3 refers to the console, a
`sys_read` on 3 reads the console and a `sys_close` on 3 leaves the new file
open. -/
theorem sys_open_returns_table_key :
    (∀ (v : Vfs) (pathname flags mode : Nat) (s : FileTables) (retval : Int)
        (s1 : FileTables),
      sys_open v pathname flags mode s = (0, retval, s1) →
      ∃ fd_index of_index : Nat, fd_index < OPEN_MAX ∧ of_index < OPEN_MAX ∧
        s.fd fd_index = CLOSED_FILE ∧ (∀ j, j < fd_index → s.fd j ≠ CLOSED_FILE) ∧
        s.openedFiles of_index = none ∧ (∀ j, j < of_index → s.openedFiles j ≠ none) ∧
        retval = (of_index : Int) ∧
        s1.fd fd_index = (of_index : Int) ∧
        (∀ j, j ≠ fd_index → s1.fd j = s.fd j) ∧
        ∃ of, s1.openedFiles of_index = some of ∧
          of.vn = (v.vfs_open pathname flags mode).2 ∧ of.flags = flags ∧ of.rc = 1) ∧
    ((sys_dup2 0 3 files_std).map (fun r => (r.1, r.2.1)) = some (0, 3) ∧
      files_dup3.fd 3 = 0 ∧ files_dup3.fd 4 = CLOSED_FILE ∧
      files_dup3.openedFiles 0 = some ⟨100, 0, 2, 0⟩ ∧
      files_dup3.openedFiles 3 = none ∧
      (sys_open vfs_ok 7 O_RDWR 0 files_dup3).1 = 0 ∧
      (sys_open vfs_ok 7 O_RDWR 0 files_dup3).2.1 = 3 ∧
      files_opened.fd 4 = 3 ∧ files_opened.fd 3 = 0 ∧
      files_opened.openedFiles 3 = some ⟨172, 2, 1, 0⟩ ∧
      files_opened.openedFiles 0 = some ⟨100, 0, 2, 0⟩ ∧
      (sys_read vfs_ok 3 10 files_opened).map (fun r => (r.1, r.2.2.io)) =
        some (0, [(uio_rw.UIO_READ, 100, 0, 10)]) ∧
      (sys_write vfs_ok 3 10 files_opened).map (fun r => r.1) = some EBADF ∧
      (sys_write vfs_ok 4 10 files_opened).map (fun r => (r.1, r.2.2.io)) =
        some (0, [(uio_rw.UIO_WRITE, 172, 0, 10)]) ∧
      (sys_close 3 files_opened).map
          (fun r => (r.1, r.2.openedFiles 0, r.2.openedFiles 3)) =
        some (0, some ⟨100, 0, 1, 0⟩, some ⟨172, 2, 1, 0⟩)) := by
  refine ⟨?_, by decide, by decide, by decide, by decide, by decide, by decide, by decide,
    by decide, by decide, by decide, by decide, by decide, by decide, by decide, by decide⟩
  intro v pathname flags mode s retval s1 h
  unfold sys_open at h
  simp only [] at h
  by_cases c1 : flags &&& (O_ACCMODE ||| O_CREAT ||| O_EXCL ||| O_TRUNC ||| O_APPEND |||
      O_NOCTTY) ≠ flags
  · rw [if_pos c1] at h
    simp [EINVAL] at h
  · rw [if_neg c1] at h
    have hk := kmalloc_block_tables s
    cases hb : kmalloc_block s with
    | mk b s2 =>
      rw [hb] at h hk
      simp only [] at hk
      cases b with
      | false => simp [ENOMEM] at h
      | true =>
        simp only [] at h
        by_cases c2 : v.copyinstr pathname ≠ 0
        · rw [if_pos c2] at h
          simp only [Prod.mk.injEq] at h
          exact absurd h.1 c2
        · rw [if_neg c2] at h
          cases hc : create_open_file v pathname flags mode s2 with
          | mk result1 rest =>
            cases rest with
            | mk ofo s3 =>
              rw [hc] at h
              simp only [] at h
              by_cases c3 : result1 ≠ 0
              · rw [if_pos c3] at h
                simp only [Prod.mk.injEq] at h
                exact absurd h.1 c3
              · rw [if_neg c3] at h
                have hz : result1 = 0 := not_not.mp c3
                rw [hz] at hc
                obtain ⟨e1, e2, of, e3, e4, e5, e6⟩ :=
                  create_open_file_zero v pathname flags mode s2 ofo s3 hc
                rw [e3] at h
                simp only [] at h
                cases hi : insert_open_file of s3 with
                | mk result2 rest2 =>
                  cases rest2 with
                  | mk rv s4 =>
                    rw [hi] at h
                    simp only [] at h
                    by_cases c4 : result2 ≠ 0
                    · rw [if_pos c4] at h
                      simp only [Prod.mk.injEq] at h
                      exact absurd h.1 c4
                    · rw [if_neg c4] at h
                      have hz2 : result2 = 0 := not_not.mp c4
                      rw [hz2] at hi
                      obtain ⟨kf, ko, g1, g2, g3, g4, g5, g6, g7, g8⟩ :=
                        insert_open_file_zero of s3 rv s4 hi
                      simp only [Prod.mk.injEq, true_and] at h
                      rw [e1, hk.1] at g3 g4
                      rw [e2, hk.2] at g5 g6
                      refine ⟨kf, ko, g1, g2, g3, g4, g5, g6, ?_, ?_, ?_, of, ?_, e4, e5, e6⟩
                      · rw [← h.1, g7]
                        rfl
                      · rw [← h.2, g8]
                        simp
                      · intro j hj
                        rw [← h.2, g8]
                        simp only []
                        rw [Function.update_noteq hj, e1, hk.1]
                      · rw [← h.2, g8]
                        simp

/-! ## Dirty entries and writable regions -/

/-- Claim C1, as the code behaves: a request is rejected, the address space
unchanged, when some address lies in a region of the address space and in the
aligned span of the request taken up to its 32-bit end, which covers the four
ways two intervals intersect as long as the sums do not wrap. But the ends are
32-bit sums: the request `(0x10000000, 0xFFFFF000)` has the aligned span
`[0x10000000, 0x10FFFFF000)`, which contains the region
`[0x20000000, 0x20001000)`; its 32-bit end is `0x0FFFF000`, every test of
`region_valid` is false, and `as_define_region` returns 0 and puts the
overlapping region at the head of the list. -/
theorem as_define_region_wrapped_overlap_accepted :
    (∀ (as : addrspace) (vaddr memsize : Nat) (readable writeable executable : Int)
        (m : Machine) (curr : region) (a : Nat),
      curr ∈ as.head →
      region_base vaddr ≤ a →
      a < (region_base vaddr + region_length vaddr memsize) % WORD →
      region_holds curr a →
      as_define_region as vaddr memsize readable writeable executable m =
        (if (region_base vaddr + region_length vaddr memsize) % WORD > MIPS_KSEG0
          then EFAULT else EINVAL, as, m)) ∧
    (reachable as_high ∧
      as_high.head = [⟨0x20000000, 0x1000, 1, 1, 7, 0⟩] ∧
      (0x10000000 < WORD ∧ 0xFFFFF000 < WORD) ∧
      region_base 0x10000000 = 0x10000000 ∧
      region_length 0x10000000 0xFFFFF000 = 0xFFFFF000 ∧
      (0x10000000 ≤ 0x20000000 ∧ 0x20000000 + 0x1000 ≤ 0x10000000 + 0xFFFFF000) ∧
      (0x10000000 + 0xFFFFF000) % WORD = 0x0FFFF000 ∧
      region_valid as_high 0x10000000 0xFFFFF000 = 0 ∧
      (as_define_region as_high 0x10000000 0xFFFFF000 1 1 0 machine_one).1 = 0 ∧
      (as_define_region as_high 0x10000000 0xFFFFF000 1 1 0 machine_one).2.1.head =
        [⟨0x10000000, 0xFFFFF000, 1, 1, 7, 0⟩, ⟨0x20000000, 0x1000, 1, 1, 7, 0⟩]) := by
  refine ⟨?_, reachable.define _ _ _ _ _ _ _ as_empty_reachable, by decide, by decide,
    by decide, by decide, by decide, by decide, by decide, by decide, by decide⟩
  intro as vaddr memsize readable writeable executable m curr a hcurr h1 h2 hold
  exact as_define_region_shared_rejected as vaddr memsize readable writeable executable m
    curr a hcurr ⟨h1, h2⟩ hold

theorem as_wrapped_holds_nothing (a : Nat) : get_region as_wrapped a = none := by
  have hh : as_wrapped.head = [⟨0x10000000, 0xFFFFF000, 1, 1, 7, 0⟩] := by decide
  unfold get_region
  rw [hh]
  simp only [get_region_loop]
  rw [if_neg]
  unfold region_holds
  simp only []
  unfold WORD
  omega

/-- Claim C3, as the code behaves: after `as_define_region` has returned 0,
`get_region` returns the new region, with its aligned base and length and the
flags given, for every address from the aligned base up to the 32-bit sum of
base and length, and nothing for an address that no region holds. But that
sum wraps: `as_define_region(as, 0x10000000, 0xFFFFF000, 1, 1, 0)` returns 0 on the
address space that `as_create` makes, the aligned span is
`[0x10000000, 0x10FFFFF000)`, and `get_region` returns nothing at `0x10000000`, at
`0x20000000` and at every other address, the 32-bit end `0x0FFFF000` lying below
the base. -/
theorem get_region_misses_wrapped_region :
    (∀ (as : addrspace) (vaddr memsize : Nat) (readable writeable executable : Int)
        (m : Machine),
      (as_define_region as vaddr memsize readable writeable executable m).1 = 0 →
      (∀ a, region_base vaddr ≤ a →
        a < (region_base vaddr + region_length vaddr memsize) % WORD →
        ∃ reg,
          get_region (as_define_region as vaddr memsize readable writeable executable m).2.1 a
            = some reg ∧
          reg.base_addr = region_base vaddr ∧ reg.memsize = region_length vaddr memsize ∧
          reg.readable = readable ∧ reg.writeable = writeable ∧
          reg.executable = executable) ∧
      (∀ a,
        (∀ reg ∈ (as_define_region as vaddr memsize readable writeable executable m).2.1.head,
          ¬ region_holds reg a) →
        get_region (as_define_region as vaddr memsize readable writeable executable m).2.1 a
          = none)) ∧
    ((0x10000000 < WORD ∧ 0xFFFFF000 < WORD) ∧
      (as_define_region as_empty 0x10000000 0xFFFFF000 1 1 0 machine_one).1 = 0 ∧
      as_wrapped.head = [⟨0x10000000, 0xFFFFF000, 1, 1, 7, 0⟩] ∧
      region_base 0x10000000 = 0x10000000 ∧
      region_length 0x10000000 0xFFFFF000 = 0xFFFFF000 ∧
      (region_base 0x10000000 ≤ 0x10000000 ∧
        0x10000000 < region_base 0x10000000 + region_length 0x10000000 0xFFFFF000) ∧
      (region_base 0x10000000 ≤ 0x20000000 ∧
        0x20000000 < region_base 0x10000000 + region_length 0x10000000 0xFFFFF000) ∧
      get_region as_wrapped 0x10000000 = none ∧
      get_region as_wrapped 0x20000000 = none ∧
      ∀ a, get_region as_wrapped a = none) := by
  refine ⟨?_, by decide, by decide, by decide, by decide, by decide, by decide, by decide,
    as_wrapped_holds_nothing _, as_wrapped_holds_nothing _, as_wrapped_holds_nothing⟩
  intro as vaddr memsize readable writeable executable m h
  exact get_region_of_defined as vaddr memsize readable writeable executable m h

/-- Claim C15, as the code behaves: in every reachable address space two regions
at different places of the list hold no common address when each region is
taken up to its 32-bit end, as the code takes it, and two regions that end
within the user ceiling have disjoint intervals `[base_addr, base_addr + memsize)`.
But a region can end above the ceiling: after `as_create`, `as_define_region` of
`(0x10000000, 0xFFFFF000)` and of `(0x20000000, 0x1000)`, in either order, both
return 0 and the list holds two regions whose intervals
`[0x10000000, 0x10FFFFF000)` and `[0x20000000, 0x20001000)` share `0x20000000`. -/
theorem regions_overlap_after_wrapped_define :
    (∀ (as : addrspace), reachable as →
      ∀ (k1 k2 : Nat) (r1 r2 : region), k1 ≠ k2 → as.head[k1]? = some r1 →
        as.head[k2]? = some r2 →
        (∀ a, ¬ (region_holds r1 a ∧ region_holds r2 a)) ∧
        (r1.base_addr + r1.memsize ≤ MIPS_KSEG0 → r2.base_addr + r2.memsize ≤ MIPS_KSEG0 →
          ∀ a, ¬ ((r1.base_addr ≤ a ∧ a < r1.base_addr + r1.memsize) ∧
            (r2.base_addr ≤ a ∧ a < r2.base_addr + r2.memsize)))) ∧
    (reachable as_wrapped_then_high ∧
      (as_define_region as_empty 0x10000000 0xFFFFF000 1 1 0 machine_one).1 = 0 ∧
      (as_define_region as_wrapped 0x20000000 0x1000 1 1 0 machine_one).1 = 0 ∧
      as_wrapped_then_high.head =
        [⟨0x20000000, 0x1000, 1, 1, 7, 0⟩, ⟨0x10000000, 0xFFFFF000, 1, 1, 7, 0⟩] ∧
      ((0x20000000 ≤ 0x20000000 ∧ 0x20000000 < 0x20000000 + 0x1000) ∧
        (0x10000000 ≤ 0x20000000 ∧ 0x20000000 < 0x10000000 + 0xFFFFF000)) ∧
      (∃ r1 r2 a, as_wrapped_then_high.head[0]? = some r1 ∧
        as_wrapped_then_high.head[1]? = some r2 ∧
        (r1.base_addr ≤ a ∧ a < r1.base_addr + r1.memsize) ∧
        (r2.base_addr ≤ a ∧ a < r2.base_addr + r2.memsize))) ∧
    (reachable as_high_then_wrapped ∧
      (as_define_region as_empty 0x20000000 0x1000 1 1 0 machine_one).1 = 0 ∧
      (as_define_region as_high 0x10000000 0xFFFFF000 1 1 0 machine_one).1 = 0 ∧
      as_high_then_wrapped.head =
        [⟨0x10000000, 0xFFFFF000, 1, 1, 7, 0⟩, ⟨0x20000000, 0x1000, 1, 1, 7, 0⟩]) := by
  refine ⟨fun as h => regions_hold_disjoint as h,
    ⟨reachable.define _ _ _ _ _ _ _ (reachable.define _ _ _ _ _ _ _ as_empty_reachable),
      by decide, by decide, by decide, by decide,
      ⟨⟨0x20000000, 0x1000, 1, 1, 7, 0⟩, ⟨0x10000000, 0xFFFFF000, 1, 1, 7, 0⟩, 0x20000000,
        by decide, by decide, by decide, by decide⟩⟩,
    ⟨reachable.define _ _ _ _ _ _ _ (reachable.define _ _ _ _ _ _ _ as_empty_reachable),
      by decide, by decide, by decide⟩⟩

/-! ## Completing a load with mapped pages -/

end OS161
